import Mathlib

/-!
# MouseKeyboardCapture: capture, record and replay pipeline

A shallow embedding of the replay worker (`replayworker.cpp`), the replay manager
(`replaymanager.cpp`), the capture engine (`captureengine.cpp`) and the recorder
(`recorder.cpp`).

Conventions of the embedding.

* `qint64`, `int` and `LONG` values are unbounded `Int`; the code performs no arithmetic on
  them that is meant to wrap.
* The `double` speed multiplier is a rational number.  The step machine `step` takes the
  quotient `delta / speed` of line 133 as the exact rational quotient.  `stepDouble` takes it as
  the program does: `delta` is converted to `double`, the quotient is rounded to `double`
  (`toDouble`: 53 bits of significand, round to nearest even; the range of the exponent,
  infinities and NaN are not modelled) and then truncated.  The two steps agree when the
  multiplier is a power of two and the delta is below 2^53 ms in size
  (`stepDouble_eq_step_of_pow_two`); they differ for a multiplier such as 0.1, where the exact
  quotient of 3 ms truncates to 29 and the `double` quotient to 30.  The value of a scheduled
  wait is stated over `stepDouble`.
* The replay thread is a step machine with one program point per atomic load, wait, OS call or
  signal of `ReplayWorker::startReplay`, `runLoop` and `simulateEvent`.  Calls of the control
  surface made by other threads are interleaved between these steps by a schedule.  A control
  call takes effect in one piece: the thread sees the flags only through its loads, and every
  pair of flag values that the separate stores of a call can show to a load is also shown by a
  sequence of whole calls (`stopReplay` followed by `pauseReplay` gives stop set with pause
  set).
* A wait on a condition variable is one step of the thread; a call that arrives during the wait
  is scheduled right before or right after that step.
-/

namespace MKCapture

/-! ## Recorded events -/

/-- One element of the `events` array as the replay thread reads it: each field is the value the
corresponding `QJsonObject` accessor returns (`value("category").toString()`,
`value("x").toInt()` and so on).  A member that is absent reads as the empty string, zero or
false. -/
structure RecordedEvent where
  category : String
  x : Int
  y : Int
  type : Int
  vkCode : Int
  keyDown : Bool
  timestamp_ms : Int
deriving DecidableEq, Repr

/-- The object `m_events.at(i).toObject()` yields for an index outside the array: an empty
object, every member of which reads as its default. -/
instance : Inhabited RecordedEvent := ⟨⟨"", 0, 0, 0, 0, false, 0⟩⟩

/-! ## Observable actions of the replay thread -/

/-- What the replay thread does that another thread or the operating system can see, in the order
it does it. -/
inductive Obs where
  /-- The value returned by one `m_stopRequested.load()`. -/
  | readStop (b : Bool)
  /-- The value returned by one `m_paused.load()`. -/
  | readPaused (b : Bool)
  /-- The value returned by `m_speed.load()`. -/
  | readSpeed (f : ℚ)
  /-- One `m_pauseCond.wait(&m_pauseMutex, ms)`. -/
  | pauseWait (ms : Int)
  /-- One `m_waitCond.wait(&m_waitMutex, ms)`: a slice of the scheduled delay. -/
  | sleep (ms : Int)
  /-- The call `SetCursorPos(x, y)`. -/
  | setCursorPos (x y : Int)
  /-- The call `SendInput` with an `INPUT_MOUSE` record carrying `dwFlags`. -/
  | sendMouse (dwFlags : Nat)
  /-- The call `SendInput` with an `INPUT_KEYBOARD` record: `wVk` and whether
  `KEYEVENTF_KEYUP` is set. -/
  | sendKey (wVk : Nat) (keyUp : Bool)
  /-- The signal `replayProgress(current, total)`. -/
  | replayProgress (current total : Int)
  /-- The signal `stateChanged(state)`. -/
  | stateChanged (state : String)
  /-- The signal `finished()`. -/
  | finished
deriving DecidableEq, Repr

/-- The input-injection primitives: `SetCursorPos` and `SendInput`. -/
def Obs.isInjection : Obs → Bool
  | .setCursorPos _ _ => true
  | .sendMouse _ => true
  | .sendKey _ _ => true
  | _ => false

/-- A slice of the scheduled delay. -/
def Obs.isSleep : Obs → Bool
  | .sleep _ => true
  | _ => false

/-! ## The worker object and its control surface -/

/-- The data members of `ReplayWorker` (replayworker.h); the mutexes and condition variables
carry no data. -/
structure ReplayWorker where
  m_events : List RecordedEvent
  m_replayMouse : Bool
  m_replayKeyboard : Bool
  m_stopRequested : Bool
  m_paused : Bool
  m_speed : ℚ
deriving DecidableEq, Repr

/-- A worker as its constructor leaves it: the in-class initialisers of replayworker.h. -/
def ReplayWorker.new : ReplayWorker :=
  { m_events := [], m_replayMouse := true, m_replayKeyboard := true,
    m_stopRequested := false, m_paused := false, m_speed := 1 }

/-- The method `ReplayWorker::setEvents`. -/
def ReplayWorker.setEvents (w : ReplayWorker) (events : List RecordedEvent) : ReplayWorker :=
  { w with m_events := events }

/-- The method `ReplayWorker::setOptions`. -/
def ReplayWorker.setOptions (w : ReplayWorker) (replayMouse replayKeyboard : Bool) :
    ReplayWorker :=
  { w with m_replayMouse := replayMouse, m_replayKeyboard := replayKeyboard }

/-- The method `ReplayWorker::setSpeedFactor`: stores `f` only when `f > 0.0`. -/
def ReplayWorker.setSpeedFactor (w : ReplayWorker) (f : ℚ) : ReplayWorker :=
  if f > 0 then { w with m_speed := f } else w

/-- The method `ReplayWorker::stopReplay`: sets the stop flag, clears the pause flag, wakes both
condition variables and emits `stateChanged("stopping")`.  The second component lists the
signals emitted. -/
def ReplayWorker.stopReplay (w : ReplayWorker) : ReplayWorker × List String :=
  ({ w with m_stopRequested := true, m_paused := false }, ["stopping"])

/-- The method `ReplayWorker::pauseReplay`: sets the pause flag when it is clear. -/
def ReplayWorker.pauseReplay (w : ReplayWorker) : ReplayWorker × List String :=
  if !w.m_paused then ({ w with m_paused := true }, ["paused"]) else (w, [])

/-- The method `ReplayWorker::resumeReplay`: clears the pause flag when it is set. -/
def ReplayWorker.resumeReplay (w : ReplayWorker) : ReplayWorker × List String :=
  if w.m_paused then ({ w with m_paused := false }, ["resumed"]) else (w, [])

/-- A call of the worker's control surface made by another thread. -/
inductive Ctl where
  | stopReplay
  | pauseReplay
  | resumeReplay
  | setSpeedFactor (f : ℚ)
deriving DecidableEq, Repr

/-- The effect of one control call on the worker object, with the signals it emits. -/
def ReplayWorker.call (w : ReplayWorker) : Ctl → ReplayWorker × List String
  | .stopReplay => w.stopReplay
  | .pauseReplay => w.pauseReplay
  | .resumeReplay => w.resumeReplay
  | .setSpeedFactor f => (w.setSpeedFactor f, [])

/-! ## The replay thread -/

/-- Program points of the replay thread; the numbers are lines of replayworker.cpp. -/
inductive Pc where
  /-- The queued `startReplay` has not run yet (84). -/
  | idle
  /-- The loop condition `i < total` (104). -/
  | forTest
  /-- The load of the stop flag at the head of the body (107). -/
  | chkStop1
  /-- The load of the pause flag (113). -/
  | chkPause1
  /-- The first conjunct of the pause loop condition (115). -/
  | pwPaused
  /-- The second conjunct of the pause loop condition (115). -/
  | pwStop
  /-- The wait on the pause condition (116). -/
  | pwWait
  /-- The load of the stop flag after the pause loop (118). -/
  | pwAfter
  /-- Taking the event and computing the delay (125 to 136). -/
  | fetch
  /-- The slice loop condition `slept < waitMs` (138). -/
  | slTest
  /-- The load of the stop flag before a slice (139). -/
  | slStopA
  /-- The load of the pause flag before a slice (139). -/
  | slPausedA
  /-- The wait of one slice (142 to 146). -/
  | slWait
  /-- The load of the stop flag after a slice (148). -/
  | slStopB
  /-- The load of the pause flag after a slice, then `slept += toWait` (148 to 151). -/
  | slPausedB
  /-- The load of the stop flag after the delay (154). -/
  | chkStop2
  /-- The load of the pause flag after the delay, with its `continue` (159). -/
  | chkPause2
  /-- The second check of the stop flag (162). -/
  | chkStop3
  /-- The category and toggle test `doMouse || doKey` (164 to 168). -/
  | gate
  /-- The load of the stop flag in the condition of line 168. -/
  | gateStop
  /-- The load of the stop flag on entry to `simulateEvent` (183). -/
  | simStop1
  /-- The category dispatch of `simulateEvent` (186, 187, 205). -/
  | simCat
  /-- The load of the stop flag before `SetCursorPos` (192). -/
  | simMStop2
  /-- The call of `SetCursorPos` (193). -/
  | simMCursor
  /-- The load of the stop flag before the mouse `SendInput` (203). -/
  | simMStop3
  /-- The mouse `SendInput` (203). -/
  | simMSend
  /-- The load of the stop flag in the keyboard branch (208). -/
  | simKStop2
  /-- The load of the stop flag before the keyboard `SendInput` (214). -/
  | simKStop3
  /-- The keyboard `SendInput` (214). -/
  | simKSend
  /-- The signal `replayProgress(i + 1, total)` and the increment of the loop (172, 104). -/
  | progress
  /-- The load of the stop flag that selects the final state, and the two last signals
  (175 to 178). -/
  | finalRead
  /-- The thread function has returned. -/
  | done
deriving DecidableEq, Repr

/-- The worker object together with the state of its thread: the program point, the locals of
`runLoop`, what the thread has done so far (`out`, oldest first) and the signals the control
calls of other threads have emitted (`ctlOut`). -/
structure RunState where
  w : ReplayWorker
  pc : Pc
  i : Nat
  total : Int
  last_ts : Int
  speed : ℚ
  waitMs : Int
  slept : Int
  toWait : Int
  out : List Obs
  ctlOut : List String
deriving DecidableEq, Repr

/-- The conversion `static_cast<qint64>(q)`: truncation toward zero. -/
def truncToInt (q : ℚ) : Int := Int.tdiv q.num q.den

/-- The `dwFlags` that `simulateEvent` puts in the zeroed `INPUT` record for a recorded message
type (198 to 201): `MOUSEEVENTF_LEFTDOWN` 2, `LEFTUP` 4, `RIGHTDOWN` 8, `RIGHTUP` 16; any other
type leaves the flags zero. -/
def mouseFlags (type : Int) : Nat :=
  if type = 513 then 2
  else if type = 514 then 4
  else if type = 516 then 8
  else if type = 517 then 16
  else 0

/-- The key code `static_cast<WORD>(vk & 0xFFFF)` (212). -/
def wVkOf (vk : Int) : Nat := (vk % 65536).toNat

/-- The event the current iteration works on: `m_events.at(i).toObject()` (125). -/
def RunState.evt (s : RunState) : RecordedEvent := s.w.m_events.getD s.i default

/-- The thread appends an action to what it has done. -/
def RunState.emit (s : RunState) (o : Obs) : RunState := { s with out := s.out ++ [o] }

/-- The thread moves to another program point. -/
def RunState.goto (s : RunState) (pc : Pc) : RunState := { s with pc := pc }

/-- A freshly created worker thread on which `startReplay` is queued. -/
def RunState.start (w : ReplayWorker) : RunState :=
  { w := w, pc := .idle, i := 0, total := 0, last_ts := 0, speed := 1, waitMs := 0, slept := 0,
    toWait := 0, out := [], ctlOut := [] }

/-- The code of `startReplay`, `runLoop` and `simulateEvent` from a program point up to and
including the next atomic load, wait, OS call or signal. -/
def stepAt : Pc → RunState → RunState
  | .idle, s =>
    if s.w.m_events.isEmpty then
      { s with pc := .done, out := s.out ++ [.stateChanged "finished", .finished] }
    else
      { s with w := { s.w with m_stopRequested := false }, pc := .forTest, i := 0,
               total := (s.w.m_events.length : Int) - 2, last_ts := 0 }
  | .forTest, s =>
    if (s.i : Int) < s.total then s.goto .chkStop1 else s.goto .finalRead
  | .chkStop1, s =>
    if s.w.m_stopRequested then (s.emit (.readStop true)).goto .finalRead
    else (s.emit (.readStop false)).goto .chkPause1
  | .chkPause1, s =>
    if s.w.m_paused then (s.emit (.readPaused true)).goto .pwPaused
    else (s.emit (.readPaused false)).goto .fetch
  | .pwPaused, s =>
    if s.w.m_paused then (s.emit (.readPaused true)).goto .pwStop
    else (s.emit (.readPaused false)).goto .pwAfter
  | .pwStop, s =>
    if s.w.m_stopRequested then (s.emit (.readStop true)).goto .pwAfter
    else (s.emit (.readStop false)).goto .pwWait
  | .pwWait, s => (s.emit (.pauseWait 50)).goto .pwPaused
  | .pwAfter, s =>
    if s.w.m_stopRequested then (s.emit (.readStop true)).goto .finalRead
    else (s.emit (.readStop false)).goto .fetch
  | .fetch, s =>
    let ts := s.evt.timestamp_ms
    let delta := if s.i = 0 then ts else ts - s.last_ts
    let speed := if s.w.m_speed ≤ 0 then 1 else s.w.m_speed
    { s with pc := .slTest, last_ts := ts, speed := speed,
             waitMs := truncToInt ((delta : ℚ) / speed), slept := 0,
             out := s.out ++ [.readSpeed s.w.m_speed] }
  | .slTest, s =>
    if s.slept < s.waitMs then s.goto .slStopA else s.goto .chkStop2
  | .slStopA, s =>
    if s.w.m_stopRequested then (s.emit (.readStop true)).goto .chkStop2
    else (s.emit (.readStop false)).goto .slPausedA
  | .slPausedA, s =>
    if s.w.m_paused then (s.emit (.readPaused true)).goto .chkStop2
    else (s.emit (.readPaused false)).goto .slWait
  | .slWait, s =>
    let toWait := min (s.waitMs - s.slept) 50
    { s with pc := .slStopB, toWait := toWait, out := s.out ++ [.sleep toWait] }
  | .slStopB, s =>
    if s.w.m_stopRequested then (s.emit (.readStop true)).goto .chkStop2
    else (s.emit (.readStop false)).goto .slPausedB
  | .slPausedB, s =>
    if s.w.m_paused then (s.emit (.readPaused true)).goto .chkStop2
    else { s with pc := .slTest, slept := s.slept + s.toWait,
                  out := s.out ++ [.readPaused false] }
  | .chkStop2, s =>
    if s.w.m_stopRequested then (s.emit (.readStop true)).goto .finalRead
    else (s.emit (.readStop false)).goto .chkPause2
  | .chkPause2, s =>
    if s.w.m_paused then
      { s with pc := .forTest, i := s.i + 1, out := s.out ++ [.readPaused true] }
    else (s.emit (.readPaused false)).goto .chkStop3
  | .chkStop3, s =>
    if s.w.m_stopRequested then (s.emit (.readStop true)).goto .finalRead
    else (s.emit (.readStop false)).goto .gate
  | .gate, s =>
    let doMouse := s.w.m_replayMouse && s.evt.category == "mouse"
    let doKey := s.w.m_replayKeyboard && s.evt.category == "keyboard"
    if doMouse || doKey then s.goto .gateStop else s.goto .progress
  | .gateStop, s =>
    if s.w.m_stopRequested then (s.emit (.readStop true)).goto .progress
    else (s.emit (.readStop false)).goto .simStop1
  | .simStop1, s =>
    if s.w.m_stopRequested then (s.emit (.readStop true)).goto .progress
    else (s.emit (.readStop false)).goto .simCat
  | .simCat, s =>
    if s.evt.category == "mouse" then s.goto .simMStop2
    else if s.evt.category == "keyboard" then s.goto .simKStop2
    else s.goto .progress
  | .simMStop2, s =>
    if s.w.m_stopRequested then (s.emit (.readStop true)).goto .progress
    else (s.emit (.readStop false)).goto .simMCursor
  | .simMCursor, s => (s.emit (.setCursorPos s.evt.x s.evt.y)).goto .simMStop3
  | .simMStop3, s =>
    if s.w.m_stopRequested then (s.emit (.readStop true)).goto .progress
    else (s.emit (.readStop false)).goto .simMSend
  | .simMSend, s => (s.emit (.sendMouse (mouseFlags s.evt.type))).goto .progress
  | .simKStop2, s =>
    if s.w.m_stopRequested then (s.emit (.readStop true)).goto .progress
    else (s.emit (.readStop false)).goto .simKStop3
  | .simKStop3, s =>
    if s.w.m_stopRequested then (s.emit (.readStop true)).goto .progress
    else (s.emit (.readStop false)).goto .simKSend
  | .simKSend, s => (s.emit (.sendKey (wVkOf s.evt.vkCode) (!s.evt.keyDown))).goto .progress
  | .progress, s =>
    { s with pc := .forTest, i := s.i + 1,
             out := s.out ++ [.replayProgress ((s.i : Int) + 1) s.total] }
  | .finalRead, s =>
    if s.w.m_stopRequested then
      { s with pc := .done,
               out := s.out ++ [.readStop true, .stateChanged "stopped", .finished] }
    else
      { s with pc := .done,
               out := s.out ++ [.readStop false, .stateChanged "finished", .finished] }
  | .done, s => s

/-- One step of the replay thread from its current program point. -/
def step (s : RunState) : RunState := stepAt s.pc s

/-- A control call made by another thread takes effect on the worker object. -/
def RunState.call (s : RunState) (c : Ctl) : RunState :=
  { s with w := (s.w.call c).1, ctlOut := s.ctlOut ++ (s.w.call c).2 }

/-- One element of a schedule: the replay thread takes a step, or a control call of another
thread takes effect. -/
inductive Act where
  | tick
  | call (c : Ctl)
deriving DecidableEq, Repr

/-- The effect of one scheduled action. -/
def RunState.act (s : RunState) : Act → RunState
  | .tick => step s
  | .call c => s.call c

/-- The execution of a schedule, first action first. -/
def exec : List Act → RunState → RunState
  | [], s => s
  | a :: rest, s => exec rest (s.act a)

/-- The schedule of `n` consecutive steps of the replay thread with no control call. -/
def ticks (n : Nat) : List Act := List.replicate n .tick

/-- The injection primitives among what the thread did, in order. -/
def injections (out : List Obs) : List Obs := out.filter Obs.isInjection

/-- What `simulateEvent` passes to the operating system for one event when no stop is
requested: the cursor position then a mouse input for a mouse event, one keyboard input for a
keyboard event, nothing for another category. -/
def injectionOf (e : RecordedEvent) : List Obs :=
  if e.category == "mouse" then [.setCursorPos e.x e.y, .sendMouse (mouseFlags e.type)]
  else if e.category == "keyboard" then [.sendKey (wVkOf e.vkCode) (!e.keyDown)]
  else []

/-! ## Control state -/

/-- The states of the replay state machine named by the specification. -/
inductive ReplayControlState where
  | Idle
  | Running
  | Paused
  | Stopping
  | Finished
deriving DecidableEq, Repr

/-- The state of the specification that a worker is in, read off its thread and its two flags:
Idle while the queued `startReplay` has not run, Finished once the thread function has
returned, otherwise Stopping when the stop flag is set, else Paused when the pause flag is
set, else Running. -/
def RunState.controlState (s : RunState) : ReplayControlState :=
  if s.pc = .idle then .Idle
  else if s.pc = .done then .Finished
  else if s.w.m_stopRequested then .Stopping
  else if s.w.m_paused then .Paused
  else .Running

/-! ## The replay manager -/

/-- The data members of `ReplayManager` (replaymanager.h) that the control surface reads and
writes; `m_worker` is the worker object the pointer refers to, `none` for `nullptr`. -/
structure ReplayManager where
  m_events : List RecordedEvent
  m_worker : Option ReplayWorker
  m_replayMouse : Bool
  m_replayKeyboard : Bool
  m_speed : ℚ
  m_replaying : Bool
deriving DecidableEq, Repr

/-- A manager as its constructor leaves it: the in-class initialisers of replaymanager.h. -/
def ReplayManager.new : ReplayManager :=
  { m_events := [], m_worker := none, m_replayMouse := true, m_replayKeyboard := true,
    m_speed := 1, m_replaying := false }

/-- The method `ReplayManager::pauseReplay` (200 to 204). -/
def ReplayManager.pauseReplay (m : ReplayManager) : ReplayManager :=
  match m.m_worker with
  | some w => { m with m_worker := some w.pauseReplay.1 }
  | none => m

/-- The method `ReplayManager::resumeReplay` (206 to 210). -/
def ReplayManager.resumeReplay (m : ReplayManager) : ReplayManager :=
  match m.m_worker with
  | some w => { m with m_worker := some w.resumeReplay.1 }
  | none => m

/-- The method `ReplayManager::setSpeedMultiplier` (214 to 218): stores `f`, then passes it to
the worker when there is one. -/
def ReplayManager.setSpeedMultiplier (m : ReplayManager) (f : ℚ) : ReplayManager :=
  match m.m_worker with
  | some w => { m with m_speed := f, m_worker := some (w.setSpeedFactor f) }
  | none => { m with m_speed := f }

/-! ## The capture engine -/

/-- The struct `MouseEventData` (captureengine.h): position, message type and capture time, the
time in milliseconds since the epoch. -/
structure MouseEventData where
  pos : Int × Int
  type : Nat
  time : Int
deriving DecidableEq, Repr

/-- The struct `KeyEventData` (captureengine.h). -/
structure KeyEventData where
  vkCode : Nat
  keyDown : Bool
  time : Int
deriving DecidableEq, Repr

/-- The two hook kinds the engine installs. -/
inductive HookId where
  | WH_MOUSE_LL
  | WH_KEYBOARD_LL
deriving DecidableEq, Repr

/-- The hooks installed in the operating system, each with its handle, and the next handle the
system hands out. -/
structure HookTable where
  installed : List (Nat × HookId)
  nextHandle : Nat
deriving DecidableEq, Repr

/-- The call `SetWindowsHookEx`: when the system accepts it (`ok`) the hook is installed and
its handle returned, otherwise the result is the null handle and nothing is installed. -/
def SetWindowsHookEx (os : HookTable) (id : HookId) (ok : Bool) : Option Nat × HookTable :=
  if ok then
    (some os.nextHandle,
      { installed := os.installed ++ [(os.nextHandle, id)], nextHandle := os.nextHandle + 1 })
  else (none, os)

/-- The call `UnhookWindowsHookEx`. -/
def UnhookWindowsHookEx (os : HookTable) (h : Nat) : HookTable :=
  { os with installed := os.installed.filter (fun x => x.1 ≠ h) }

/-- The data members of `CaptureEngine` (captureengine.h).  `workerThread_` tells whether a
worker thread has been started and not joined.  The last two fields record the samples the
worker thread has delivered through the signals `mouseEventCaptured` and
`keyEventCaptured`. -/
structure CaptureEngine where
  mouseHook_ : Option Nat
  keyboardHook_ : Option Nat
  running_ : Bool
  workerThread_ : Bool
  mouseQueue_ : List MouseEventData
  keyQueue_ : List KeyEventData
  lastMousePos_ : Int × Int
  lastMouseTime_ : Option Int
  mouseEventCaptured : List MouseEventData
  keyEventCaptured : List KeyEventData
deriving DecidableEq, Repr

/-- An engine as its constructor leaves it: null handles, not running, empty queues, the
default `QPoint` (0, 0) and the default, invalid `QDateTime`. -/
def CaptureEngine.new : CaptureEngine :=
  { mouseHook_ := none, keyboardHook_ := none, running_ := false, workerThread_ := false,
    mouseQueue_ := [], keyQueue_ := [], lastMousePos_ := (0, 0), lastMouseTime_ := none,
    mouseEventCaptured := [], keyEventCaptured := [] }

/-- The method `CaptureEngine::start` (31 to 49); `mouseOk` and `keyOk` tell whether the system
accepts each installation.  The result is the return value, the engine and the hook table. -/
def CaptureEngine.start (e : CaptureEngine) (os : HookTable) (mouseOk keyOk : Bool) :
    Bool × CaptureEngine × HookTable :=
  if e.running_ then (true, e, os)
  else
    let r1 := SetWindowsHookEx os .WH_MOUSE_LL mouseOk
    let r2 := SetWindowsHookEx r1.2 .WH_KEYBOARD_LL keyOk
    let e1 := { e with mouseHook_ := r1.1, keyboardHook_ := r2.1 }
    if e1.mouseHook_.isNone || e1.keyboardHook_.isNone then (false, e1, r2.2)
    else (true, { e1 with running_ := true, workerThread_ := true }, r2.2)

/-- The method `CaptureEngine::stop` (51 to 76). -/
def CaptureEngine.stop (e : CaptureEngine) (os : HookTable) : CaptureEngine × HookTable :=
  if !e.running_ then (e, os)
  else
    let os1 := match e.mouseHook_ with
      | some h => UnhookWindowsHookEx os h
      | none => os
    let os2 := match e.keyboardHook_ with
      | some h => UnhookWindowsHookEx os1 h
      | none => os1
    ({ e with running_ := false, workerThread_ := false, mouseHook_ := none,
              keyboardHook_ := none }, os2)

/-- The message identifier `WM_MOUSEMOVE` (0x0200). -/
def WM_MOUSEMOVE : Nat := 512

/-- The method `QPoint::manhattanLength`. -/
def manhattanLength (p : Int × Int) : Int := |p.1| + |p.2|

/-- The difference of two `QPoint`s. -/
def pointSub (a b : Int × Int) : Int × Int := (a.1 - b.1, a.2 - b.2)

/-- The method `QDateTime::msecsTo` from a possibly invalid time to a valid one: zero when the
first is invalid. -/
def msecsTo (a : Option Int) (b : Int) : Int :=
  match a with
  | none => 0
  | some t => b - t

/-- The method `CaptureEngine::enqueueMouseEvent` (123 to 131). -/
def CaptureEngine.enqueueMouseEvent (e : CaptureEngine) (data : MouseEventData) :
    CaptureEngine :=
  { e with mouseQueue_ := e.mouseQueue_ ++ [data] }

/-- The method `CaptureEngine::enqueueKeyEvent` (133 to 141). -/
def CaptureEngine.enqueueKeyEvent (e : CaptureEngine) (data : KeyEventData) : CaptureEngine :=
  { e with keyQueue_ := e.keyQueue_ ++ [data] }

/-- The hook callback `CaptureEngine::mouseProc` (80 to 105) acting on the engine: `lParam`
is the point of the `MSLLHOOKSTRUCT` it refers to, `none` for a null pointer, and `now` is the
value of `QDateTime::currentDateTime()`.  The message type stored is
`static_cast<DWORD>(wParam)`. -/
def CaptureEngine.mouseProc (e : CaptureEngine) (nCode : Int) (wParam : Nat)
    (lParam : Option (Int × Int)) (now : Int) : CaptureEngine :=
  match lParam with
  | none => e
  | some pos =>
    if 0 ≤ nCode then
      if wParam = WM_MOUSEMOVE then
        if manhattanLength (pointSub pos e.lastMousePos_) < 3
            ∧ msecsTo e.lastMouseTime_ now < 5 then e
        else
          ({ e with lastMousePos_ := pos, lastMouseTime_ := some now }).enqueueMouseEvent
            { pos := pos, type := wParam % 4294967296, time := now }
      else e.enqueueMouseEvent { pos := pos, type := wParam % 4294967296, time := now }
    else e

/-- The hook callback `CaptureEngine::keyboardProc` (108 to 120) acting on the engine;
`lParam` is the `vkCode` of the `KBDLLHOOKSTRUCT`.  `WM_KEYDOWN` is 256 and `WM_SYSKEYDOWN`
is 260. -/
def CaptureEngine.keyboardProc (e : CaptureEngine) (nCode : Int) (wParam : Nat)
    (lParam : Option Nat) (now : Int) : CaptureEngine :=
  match lParam with
  | none => e
  | some vkCode =>
    if 0 ≤ nCode then
      e.enqueueKeyEvent
        { vkCode := vkCode, keyDown := decide (wParam = 256 ∨ wParam = 260), time := now }
    else e

/-- One pass of the first inner loop of `workerLoop` (161 to 172): the worker thread takes the
front sample of the mouse queue and delivers it. -/
def CaptureEngine.dispatchMouse (e : CaptureEngine) : CaptureEngine :=
  match e.mouseQueue_ with
  | [] => e
  | data :: rest =>
    { e with mouseQueue_ := rest, mouseEventCaptured := e.mouseEventCaptured ++ [data] }

/-- One pass of the second inner loop of `workerLoop` (174 to 180). -/
def CaptureEngine.dispatchKey (e : CaptureEngine) : CaptureEngine :=
  match e.keyQueue_ with
  | [] => e
  | data :: rest =>
    { e with keyQueue_ := rest, keyEventCaptured := e.keyEventCaptured ++ [data] }

/-- What can happen to the engine between `start` and `stop`: a hook callback on the hook
thread, or one delivery by the worker thread. -/
inductive EngineEvent where
  | mouse (nCode : Int) (wParam : Nat) (lParam : Option (Int × Int)) (now : Int)
  | key (nCode : Int) (wParam : Nat) (lParam : Option Nat) (now : Int)
  | dispatchMouse
  | dispatchKey
deriving DecidableEq, Repr

/-- The effect of one event on the engine. -/
def CaptureEngine.handle (e : CaptureEngine) : EngineEvent → CaptureEngine
  | .mouse nCode wParam lParam now => e.mouseProc nCode wParam lParam now
  | .key nCode wParam lParam now => e.keyboardProc nCode wParam lParam now
  | .dispatchMouse => e.dispatchMouse
  | .dispatchKey => e.dispatchKey

/-- The effect of a sequence of events, first event first. -/
def CaptureEngine.run (e : CaptureEngine) (evs : List EngineEvent) : CaptureEngine :=
  evs.foldl CaptureEngine.handle e

/-- A message identifier fits a `DWORD`, as every window message does. -/
def EngineEvent.fitsDword : EngineEvent → Prop
  | .mouse _ wParam _ _ => wParam < 4294967296
  | _ => True

/-- The mouse samples accepted so far, in the order they were enqueued: those already
delivered followed by those still queued. -/
def CaptureEngine.acceptedMouse (e : CaptureEngine) : List MouseEventData :=
  e.mouseEventCaptured ++ e.mouseQueue_

/-- The accepted mouse-move samples, in order. -/
def CaptureEngine.acceptedMoves (e : CaptureEngine) : List MouseEventData :=
  e.acceptedMouse.filter (fun d => d.type = WM_MOUSEMOVE)

/-- The throttle bound between two consecutive accepted moves: at least 3 pixels apart in
Manhattan distance, or captured at least 5 ms apart. -/
def farEnough (a b : MouseEventData) : Prop :=
  3 ≤ manhattanLength (pointSub b.pos a.pos) ∨ 5 ≤ b.time - a.time

/-- The invariant of the throttle: consecutive accepted moves are far enough apart, and the
engine remembers the position and time of the last accepted move. -/
def ThrottleInv (e : CaptureEngine) : Prop :=
  List.Chain' farEnough e.acceptedMoves ∧
  ∀ m, e.acceptedMoves.getLast? = some m →
    e.lastMousePos_ = m.pos ∧ e.lastMouseTime_ = some m.time

/-! ## Uninterrupted replay

What the thread does when no control call arrives, written out as lists; the theorems below
show that the step machine produces exactly these. -/

/-- What the slice loop does when neither flag is set: per slice the two loads before it, the
wait and the two loads after it.  The first argument bounds the number of slices and `r` is the
delay that remains. -/
def quietSlices : Nat → Int → List Obs
  | 0, _ => []
  | fuel + 1, r =>
    if 0 < r then
      [.readStop false, .readPaused false, .sleep (min r 50), .readStop false, .readPaused false]
        ++ quietSlices fuel (r - min r 50)
    else []

/-- What lines 164 to 170 and `simulateEvent` do for one event when no stop is requested. -/
def quietInject (w : ReplayWorker) (e : RecordedEvent) : List Obs :=
  if (w.m_replayMouse && e.category == "mouse") || (w.m_replayKeyboard && e.category == "keyboard")
  then
    [.readStop false, .readStop false] ++
      (if e.category == "mouse" then
        [.readStop false, .setCursorPos e.x e.y, .readStop false, .sendMouse (mouseFlags e.type)]
      else if e.category == "keyboard" then
        [.readStop false, .readStop false, .sendKey (wVkOf e.vkCode) (!e.keyDown)]
      else [])
  else []

/-- The scheduled wait of the iteration for index `i` when the previous timestamp is `last`
(126 to 133). -/
def waitOf (w : ReplayWorker) (i : Nat) (last : Int) : Int :=
  truncToInt
    (((if i = 0 then (w.m_events.getD i default).timestamp_ms
        else (w.m_events.getD i default).timestamp_ms - last : Int) : ℚ) /
      (if w.m_speed ≤ 0 then 1 else w.m_speed))

/-- What one whole iteration of the loop does when neither flag is set. -/
def quietIter (w : ReplayWorker) (total : Int) (i : Nat) (last : Int) : List Obs :=
  [.readStop false, .readPaused false, .readSpeed w.m_speed]
    ++ quietSlices (waitOf w i last).toNat (waitOf w i last)
    ++ [.readStop false, .readPaused false, .readStop false]
    ++ quietInject w (w.m_events.getD i default)
    ++ [.replayProgress ((i : Int) + 1) total]

/-- What `k` consecutive iterations do, starting at index `i`, when neither flag is set. -/
def quietRun (w : ReplayWorker) (total : Int) : Nat → Nat → Int → List Obs
  | 0, _, _ => []
  | k + 1, i, last =>
    quietIter w total i last
      ++ quietRun w total k (i + 1) (w.m_events.getD i default).timestamp_ms

/-! ## Scheduled waits -/

/-- The recorded delta of index `i` as the specification words it: the timestamp of event 0
for `i = 0`, otherwise the timestamp of event `i` minus that of event `i - 1`. -/
def recordedDelta (events : List RecordedEvent) (i : Nat) : Int :=
  if i = 0 then (events.getD 0 default).timestamp_ms
  else (events.getD i default).timestamp_ms - (events.getD (i - 1) default).timestamp_ms

/-- Where a program point lies with respect to line 128, which stores the timestamp of the
current event in `last_ts`. -/
inductive Phase where
  | outside
  | beforeFetch
  | afterFetch
deriving DecidableEq, Repr

/-- The phase of each program point. -/
def Pc.phase : Pc → Phase
  | .idle | .finalRead | .done => .outside
  | .forTest | .chkStop1 | .chkPause1 | .pwPaused | .pwStop | .pwWait | .pwAfter | .fetch =>
    .beforeFetch
  | _ => .afterFetch

/-- The relation between `last_ts` and the recorded timestamps at each program point. -/
def lastTsOk (events : List RecordedEvent) (s : RunState) : Prop :=
  match s.pc.phase with
  | .outside => True
  | .beforeFetch => s.i = 0 ∨ s.last_ts = (events.getD (s.i - 1) default).timestamp_ms
  | .afterFetch => s.last_ts = (events.getD s.i default).timestamp_ms

/-- A new worker loaded with the six events of the concrete scenario of the specification:
two moves, a key down, a key up and two clicks, at 0, 5, 8, 40, 42 and 44 ms. -/
def sixEvents : ReplayWorker :=
  ReplayWorker.new.setEvents
    [ { category := "mouse", x := 0, y := 0, type := 512, vkCode := 0, keyDown := false,
        timestamp_ms := 0 },
      { category := "mouse", x := 10, y := 0, type := 512, vkCode := 0, keyDown := false,
        timestamp_ms := 5 },
      { category := "keyboard", x := 0, y := 0, type := 0, vkCode := 65, keyDown := true,
        timestamp_ms := 8 },
      { category := "keyboard", x := 0, y := 0, type := 0, vkCode := 65, keyDown := false,
        timestamp_ms := 40 },
      { category := "mouse", x := 10, y := 0, type := 513, vkCode := 0, keyDown := false,
        timestamp_ms := 42 },
      { category := "mouse", x := 10, y := 0, type := 514, vkCode := 0, keyDown := false,
        timestamp_ms := 44 } ]

/-! ## Stop checks and injection -/

/-- The program points whose step calls an injection primitive (193, 203, 214). -/
def Pc.isInject : Pc → Bool
  | .simMCursor | .simMSend | .simKSend => true
  | _ => false

/-- What the next step of the thread appends to what it has done. -/
def RunState.emitted (s : RunState) : List Obs := (step s).out.drop s.out.length

/-- Every injection primitive in `out` comes immediately after a load of the stop flag that
returned false, and after no load of the stop flag that returned true. -/
def Guarded (out : List Obs) : Prop :=
  ∀ pre o post, out = pre ++ o :: post → o.isInjection = true →
    pre.getLast? = some (.readStop false) ∧ Obs.readStop true ∉ pre

/-- The invariant behind `Guarded`: a stop flag once read as set stays set, and the thread
stands at an injecting program point only right after reading the flag as clear. -/
def StopInv (s : RunState) : Prop :=
  Guarded s.out ∧ (Obs.readStop true ∈ s.out → s.w.m_stopRequested = true) ∧
  (s.pc.isInject = true →
    s.out.getLast? = some (.readStop false) ∧ Obs.readStop true ∉ s.out) ∧
  (s.pc = .idle → s.out = [])

/-! ## Stop during the timed wait -/

/-- The program points of the slice loop (138 to 151): the thread is in the timed wait. -/
def Pc.inTimedWait : Pc → Bool
  | .slTest | .slStopA | .slPausedA | .slWait | .slStopB | .slPausedB => true
  | _ => false

/-- For the program points of the slice loop and of the way out of the loop, a bound on the
number of steps the thread takes to return once the stop flag is set. -/
def Pc.stopRank : Pc → Option Nat
  | .slPausedB | .slPausedA => some 5
  | .slWait | .slTest => some 4
  | .slStopA | .slStopB => some 3
  | .chkStop2 => some 2
  | .finalRead => some 1
  | .done => some 0
  | _ => none

/-- The number of slices the thread can still begin once the stop flag is set: one when the
loads of line 139 are already past or under way, none otherwise. -/
def Pc.sleepBudget : Pc → Nat
  | .slPausedA | .slWait => 1
  | _ => 0

/-- An action that neither executes an event nor waits longer than one slice: no injection
primitive, no progress report, and a wait of at most 50 ms. -/
def Obs.exitOnly (o : Obs) : Prop :=
  o.isInjection = false ∧ (∀ c t, o ≠ .replayProgress c t) ∧ (∀ ms, o = .sleep ms → ms ≤ 50)

/-! ## Persisted documents -/

/-- A JSON value as `QJsonValue` presents it.  Numbers are rationals, the members of an object
are listed with their keys, and `undefined` is the value of an absent member. -/
inductive JsonValue where
  | undefined
  | null
  | bool (b : Bool)
  | number (x : ℚ)
  | string (s : String)
  | array (items : List JsonValue)
  | object (members : List (String × JsonValue))

/-- The method `QJsonDocument::isObject` on the root of a parsed document. -/
def JsonValue.isObject : JsonValue → Bool
  | .object _ => true
  | _ => false

/-- The method `QJsonValue::isArray`. -/
def JsonValue.isArray : JsonValue → Bool
  | .array _ => true
  | _ => false

/-- The method `QJsonObject::contains`; a value that is not an object has no member. -/
def JsonValue.contains (v : JsonValue) (key : String) : Bool :=
  match v with
  | .object members => (members.lookup key).isSome
  | _ => false

/-- The method `QJsonObject::value`: the member of that key, `undefined` when absent. -/
def JsonValue.value (v : JsonValue) (key : String) : JsonValue :=
  match v with
  | .object members => (members.lookup key).getD .undefined
  | _ => .undefined

/-- The method `QJsonValue::toArray`: the elements of an array, none for another value. -/
def JsonValue.toArray : JsonValue → List JsonValue
  | .array items => items
  | _ => []

/-- The method `QJsonValue::toString`: the text of a string, empty for another value. -/
def JsonValue.toString : JsonValue → String
  | .string s => s
  | _ => ""

/-- The method `QJsonValue::toInt`: a whole number within the range of `int`, zero for any other
value. -/
def JsonValue.toInt : JsonValue → Int
  | .number x => if x.den = 1 ∧ -2147483648 ≤ x.num ∧ x.num ≤ 2147483647 then x.num else 0
  | _ => 0

/-- The method `QJsonValue::toBool`: the value of a boolean, false for another value. -/
def JsonValue.toBool : JsonValue → Bool
  | .bool b => b
  | _ => false

/-- The conversion `toVariant().toLongLong()`: a number rounded to the nearest integer, halves
away from zero, a boolean as 0 or 1, a string read as a decimal integer, zero otherwise. -/
def JsonValue.toLongLong : JsonValue → Int
  | .number x => truncToInt (if 0 ≤ x then x + 1 / 2 else x - 1 / 2)
  | .bool b => if b then 1 else 0
  | .string s => s.toInt?.getD 0
  | _ => 0

/-- How the replay thread reads one element of the stored array (replayworker.cpp 125, 126,
164 and 186 to 207): `toObject()` followed by the accessor of each member. -/
def JsonValue.toRecordedEvent (v : JsonValue) : RecordedEvent :=
  { category := (v.value "category").toString,
    x := (v.value "x").toInt,
    y := (v.value "y").toInt,
    type := (v.value "type").toInt,
    vkCode := (v.value "vkCode").toInt,
    keyDown := (v.value "keyDown").toBool,
    timestamp_ms := (v.value "timestamp_ms").toLongLong }

/-! ## Loading, starting and stopping a replay -/

/-- What `loadReplayFile` gets from the file system and the JSON parser: the file cannot be
opened, its content does not parse, or the parsed document. -/
inductive LoadInput where
  | cannotOpen
  | parseError
  | document (doc : JsonValue)

/-- The method `ReplayManager::loadReplayFile` (44 to 65).  The stored `QJsonArray` is
represented by the list of its elements as the replay thread reads them. -/
def ReplayManager.loadReplayFile (m : ReplayManager) (file : LoadInput) :
    Bool × ReplayManager :=
  match file with
  | .cannotOpen => (false, m)
  | .parseError => (false, m)
  | .document doc =>
    if !doc.isObject then (false, m)
    else if !doc.contains "events" || !(doc.value "events").isArray then (false, m)
    else (true, { m with m_events := (doc.value "events").toArray.map JsonValue.toRecordedEvent })

/-- What ends the wait of `stopReplay` in `loop.exec()`: the signal `finished` of the worker or
the 3000 ms timer. -/
inductive WaitEnd where
  | finished
  | timeout
deriving DecidableEq, Repr

/-- The method `ReplayManager::stopReplay` (125 to 156).  Without a worker it returns at once.
Otherwise it calls `stopReplay` on the worker, waits for one of the two ends of the wait, and
continues the same way after either: it lets go of the worker and clears the replaying flag.
The second component is the worker object as the call leaves it, `none` when there was none. -/
def ReplayManager.stopReplay (m : ReplayManager) (_ended : WaitEnd) :
    ReplayManager × Option ReplayWorker :=
  match m.m_worker with
  | none => (m, none)
  | some w => ({ m with m_worker := none, m_replaying := false }, some w.stopReplay.1)

/-- The method `ReplayManager::isReplaying`. -/
def ReplayManager.isReplaying (m : ReplayManager) : Bool := m.m_replaying

/-- The method `ReplayManager::startReplay` (67 to 95); `ended` is what ends the wait of the
call of `stopReplay` at line 72 when a worker is still attached. -/
def ReplayManager.startReplay (m : ReplayManager) (ended : WaitEnd) : Bool × ReplayManager :=
  if m.m_replaying then (false, m)
  else if m.m_events.isEmpty then (false, m)
  else
    let m1 := (m.stopReplay ended).1
    let w := ((ReplayWorker.new.setEvents m1.m_events).setOptions m1.m_replayMouse
      m1.m_replayKeyboard).setSpeedFactor m1.m_speed
    (true, { m1 with m_worker := some w, m_replaying := true })

/-- The method `ReplayManager::setReplayMouse`. -/
def ReplayManager.setReplayMouse (m : ReplayManager) (en : Bool) : ReplayManager :=
  { m with m_replayMouse := en }

/-- The method `ReplayManager::setReplayKeyboard`. -/
def ReplayManager.setReplayKeyboard (m : ReplayManager) (en : Bool) : ReplayManager :=
  { m with m_replayKeyboard := en }

/-- The slot `ReplayManager::onWorkerFinished` (224 to 235). -/
def ReplayManager.onWorkerFinished (m : ReplayManager) : ReplayManager :=
  { m with m_worker := none, m_replaying := false }

/-! ## The worker thread of the capture engine -/

/-- Program points of `CaptureEngine::workerLoop` (145 to 182).  A sample taken from a queue is
held in a local while the lock is released for the delivery. -/
inductive LoopPc where
  /-- The test `while (running_)` and the bounded wait on the condition variable (148 to 156). -/
  | outer
  /-- The test `while (!mouseQueue_.empty())` with `front()` and `pop()` (161 to 167). -/
  | mouseTest
  /-- The delivery `emit mouseEventCaptured(data)` with the lock released (169). -/
  | mouseEmit (data : MouseEventData)
  /-- The test `while (!keyQueue_.empty())` with `front()` and `pop()` (174 to 177). -/
  | keyTest
  /-- The delivery `emit keyEventCaptured(data)` with the lock released (178). -/
  | keyEmit (data : KeyEventData)
  /-- The thread function has returned. -/
  | exited
deriving DecidableEq, Repr

/-- The engine together with the state of its worker thread. -/
structure EngineRun where
  e : CaptureEngine
  pc : LoopPc
deriving DecidableEq, Repr

/-- One step of the worker thread.  The bounded wait of line 154 returns when its predicate
holds or after 5 ms, and the code goes on to the two inner loops in either case. -/
def EngineRun.step (s : EngineRun) : EngineRun :=
  match s.pc with
  | .outer => if s.e.running_ then { s with pc := .mouseTest } else { s with pc := .exited }
  | .mouseTest =>
    match s.e.mouseQueue_ with
    | [] => { s with pc := .keyTest }
    | data :: rest => { e := { s.e with mouseQueue_ := rest }, pc := .mouseEmit data }
  | .mouseEmit data =>
    { e := { s.e with mouseEventCaptured := s.e.mouseEventCaptured ++ [data] },
      pc := .mouseTest }
  | .keyTest =>
    match s.e.keyQueue_ with
    | [] => { s with pc := .outer }
    | data :: rest => { e := { s.e with keyQueue_ := rest }, pc := .keyEmit data }
  | .keyEmit data =>
    { e := { s.e with keyEventCaptured := s.e.keyEventCaptured ++ [data] }, pc := .keyTest }
  | .exited => s

/-- What is interleaved in the life of the worker thread: a step of the thread, a call of
`enqueueMouseEvent` or `enqueueKeyEvent` by the hook thread, or the store `running_ = false`
of `stop`. -/
inductive QueueAct where
  | tick
  | enqueueMouse (data : MouseEventData)
  | enqueueKey (data : KeyEventData)
  | clearRunning
deriving DecidableEq, Repr

/-- The effect of one interleaved action. -/
def EngineRun.act (s : EngineRun) : QueueAct → EngineRun
  | .tick => s.step
  | .enqueueMouse data => { s with e := s.e.enqueueMouseEvent data }
  | .enqueueKey data => { s with e := s.e.enqueueKeyEvent data }
  | .clearRunning => { s with e := { s.e with running_ := false } }

/-- The effect of an interleaving, first action first. -/
def EngineRun.run : List QueueAct → EngineRun → EngineRun
  | [], s => s
  | a :: rest, s => EngineRun.run rest (s.act a)

/-- The engine right after a successful `start`, its worker thread at the head of its loop. -/
def EngineRun.started : EngineRun :=
  { e := { CaptureEngine.new with
           mouseHook_ := some 1, keyboardHook_ := some 2, running_ := true,
           workerThread_ := true },
    pc := .outer }

/-- The mouse samples passed to `enqueueMouseEvent` in an interleaving, in call order. -/
def enqueuedMouse : List QueueAct → List MouseEventData
  | [] => []
  | .enqueueMouse data :: rest => data :: enqueuedMouse rest
  | _ :: rest => enqueuedMouse rest

/-- The key samples passed to `enqueueKeyEvent` in an interleaving, in call order. -/
def enqueuedKey : List QueueAct → List KeyEventData
  | [] => []
  | .enqueueKey data :: rest => data :: enqueuedKey rest
  | _ :: rest => enqueuedKey rest

/-- The mouse sample the worker thread holds between `pop()` and the delivery. -/
def EngineRun.mouseInHand (s : EngineRun) : List MouseEventData :=
  match s.pc with
  | .mouseEmit data => [data]
  | _ => []

/-- The key sample the worker thread holds between `pop()` and the delivery. -/
def EngineRun.keyInHand (s : EngineRun) : List KeyEventData :=
  match s.pc with
  | .keyEmit data => [data]
  | _ => []

/-! ## The final state of the loop -/

/-- Whether an execution contains a call of `stopReplay` that arrives while the loop runs: after
`startReplay` has cleared the stop flag (line 94) and before the load of line 175 that selects
the final state. -/
def stopRequestedInLoop : List Act → RunState → Bool
  | [], _ => false
  | .tick :: rest, s => stopRequestedInLoop rest (step s)
  | .call c :: rest, s =>
    (decide (c = .stopReplay) && decide (s.pc ≠ .idle) && decide (s.pc ≠ .done))
      || stopRequestedInLoop rest (s.call c)

/-! ## The recorder -/

/-- One piece of text that the writer thread streams to the file, in the order of the `<<` of
`RecorderWorker::run`: the header (50 to 52), the separator `",\n"` (78), the compact
serialization `QJsonDocument(evt.json).toJson(QJsonDocument::Compact)` of an event (80), the
footer (85). -/
inductive Chunk where
  | header
  | comma
  | event (json : JsonValue)
  | footer

/-- The text of a chunk, given the start time written in the header and the compact
serialization of Qt. -/
def Chunk.render (startTime : String) (toJson : JsonValue → String) : Chunk → String
  | .header =>
    "\x7b\n  \"record_start_time\": \"" ++ startTime ++ "\",\n" ++ "  \"events\": [\n"
  | .comma => ",\n"
  | .event json => toJson json
  | .footer => "\n  ]\n\x7d\n"

/-- Program points of the writer thread `RecorderWorker::run` (42 to 90). -/
inductive WriterPc where
  /-- The call `file_.open` (44). -/
  | openFile
  /-- The header is written and flushed (49 to 53). -/
  | header
  /-- The stores `running_ = true` and `first = true` (55, 56). -/
  | setRunning
  /-- The head of the loop: `mutex_.lock()` and the test of line 62. -/
  | loopHead
  /-- Blocked in `cond_.wait(&mutex_)` with the mutex released (63). -/
  | waiting
  /-- Woken from `cond_.wait`, about to take the mutex again and go on at line 69. -/
  | woken
  /-- The event taken from the queue is written, the mutex released (78 to 81). -/
  | write (evt : JsonValue)
  /-- The footer is written and the file closed (85 to 87). -/
  | footer
  /-- The call `queue_.front()` on an empty queue (74), whose behaviour is undefined. -/
  | frontOfEmptyQueue
  /-- The thread function has returned. -/
  | done

/-- The data members of `RecorderWorker` (recorder.h) with the state of its thread: the program
point, the local `first`, and the chunks streamed so far.  An element of `queue_` is the
`json` of a `RecordedEvent`.  The field `fileOpens` tells whether `file_.open` succeeds. -/
structure RecorderWorker where
  running_ : Bool
  queue_ : List JsonValue
  fileOpens : Bool
  pc : WriterPc
  first : Bool
  written : List Chunk

/-- A worker on which `start()` has just been called: the in-class initialiser of recorder.h
and a thread at the beginning of `run`. -/
def RecorderWorker.start (fileOpens : Bool) : RecorderWorker :=
  { running_ := false, queue_ := [], fileOpens := fileOpens, pc := .openFile, first := true,
    written := [] }

/-- Lines 69 to 76, executed with the mutex held: leave the loop when not running and the queue
is empty, otherwise take the front of the queue. -/
def RecorderWorker.takeOrLeave (s : RecorderWorker) : RecorderWorker :=
  if !s.running_ && s.queue_.isEmpty then { s with pc := .footer }
  else
    match s.queue_ with
    | [] => { s with pc := .frontOfEmptyQueue }
    | evt :: rest => { s with queue_ := rest, pc := .write evt }

/-- One step of the writer thread.  The mutex is held from line 60 to line 76 except during the
wait, so these lines are one step when the thread does not wait, and two steps around the
wait when it does. -/
def RecorderWorker.step (s : RecorderWorker) : RecorderWorker :=
  match s.pc with
  | .openFile => if s.fileOpens then { s with pc := .header } else { s with pc := .done }
  | .header => { s with written := s.written ++ [.header], pc := .setRunning }
  | .setRunning => { s with running_ := true, first := true, pc := .loopHead }
  | .loopHead =>
    if s.queue_.isEmpty && s.running_ then { s with pc := .waiting } else s.takeOrLeave
  | .waiting => s
  | .woken => s.takeOrLeave
  | .write evt =>
    { s with written := s.written ++ (if !s.first then [.comma] else []) ++ [.event evt],
             first := false, pc := .loopHead }
  | .footer => { s with written := s.written ++ [.footer], pc := .done }
  | .frontOfEmptyQueue => s
  | .done => s

/-- The call `cond_.wakeOne()`: a thread blocked in the wait is woken, and nothing happens when
the thread is not waiting. -/
def RecorderWorker.wakeOne (s : RecorderWorker) : RecorderWorker :=
  match s.pc with
  | .waiting => { s with pc := .woken }
  | _ => s

/-- The method `RecorderWorker::enqueue` (24 to 29), called by another thread. -/
def RecorderWorker.enqueue (s : RecorderWorker) (evt : JsonValue) : RecorderWorker :=
  ({ s with queue_ := s.queue_ ++ [evt] }).wakeOne

/-- The first block of `RecorderWorker::stopWorker` (33 to 37): the store `running_ = false`
and the wake-up.  The caller then blocks in `wait()` until the thread has returned. -/
def RecorderWorker.stopWorker (s : RecorderWorker) : RecorderWorker :=
  ({ s with running_ := false }).wakeOne

/-- What is interleaved in the life of the writer thread. -/
inductive WriterAct where
  | tick
  | enqueue (evt : JsonValue)
  | stopWorker

/-- The effect of one interleaved action. -/
def RecorderWorker.act (s : RecorderWorker) : WriterAct → RecorderWorker
  | .tick => s.step
  | .enqueue evt => s.enqueue evt
  | .stopWorker => s.stopWorker

/-- The effect of an interleaving, first action first. -/
def RecorderWorker.run : List WriterAct → RecorderWorker → RecorderWorker
  | [], s => s
  | a :: rest, s => RecorderWorker.run rest (s.act a)

/-- The interleaving of `n` consecutive steps of the writer thread. -/
def writerTicks (n : Nat) : List WriterAct := List.replicate n .tick

/-- The events passed to `enqueue` in an interleaving, in call order. -/
def enqueuedEvents : List WriterAct → List JsonValue
  | [] => []
  | .enqueue evt :: rest => evt :: enqueuedEvents rest
  | _ :: rest => enqueuedEvents rest

/-- The thread has executed `running_ = true` and is in its loop. -/
def WriterPc.inLoop : WriterPc → Bool
  | .loopHead | .waiting | .woken | .write _ => true
  | _ => false

/-- The chunks between header and footer for a list of events: the first event bare, every
later event preceded by the separator. -/
def eventChunks : List JsonValue → List Chunk
  | [] => []
  | evt :: rest => .event evt :: rest.flatMap (fun e => [.comma, .event e])

/-- The events whose serialization is among the chunks, in order. -/
def writtenEvents : List Chunk → List JsonValue
  | [] => []
  | .event json :: rest => json :: writtenEvents rest
  | _ :: rest => writtenEvents rest

/-- The event the writer thread holds between taking it from the queue and writing it. -/
def RecorderWorker.inHand (s : RecorderWorker) : List JsonValue :=
  match s.pc with
  | .write evt => [evt]
  | _ => []

/-- The invariant of the writer for the events `evs` enqueued so far: every one of them is
written, in hand or queued, in this order, and the chunks have the shape that the program
point requires. -/
def WriterInv (evs : List JsonValue) (s : RecorderWorker) : Prop :=
  s.fileOpens = true ∧ writtenEvents s.written ++ s.inHand ++ s.queue_ = evs ∧
  match s.pc with
  | .openFile => s.written = []
  | .header => s.written = []
  | .setRunning => s.written = [.header]
  | .done => s.written = .header :: eventChunks (writtenEvents s.written) ++ [.footer]
  | _ =>
    s.written = .header :: eventChunks (writtenEvents s.written) ∧
    s.first = (writtenEvents s.written).isEmpty

/-- The bound on the steps the writer thread still takes once `running_` is false and nothing
more is enqueued. -/
def RecorderWorker.stepsLeft (s : RecorderWorker) : Nat :=
  match s.pc with
  | .loopHead => 2 * s.queue_.length + 2
  | .woken => 2 * s.queue_.length + 2
  | .write _ => 2 * s.queue_.length + 3
  | .footer => 1
  | _ => 0

/-- The state of the writer while it drains the queue after the stop. -/
def DrainInv (s : RecorderWorker) : Prop :=
  s.running_ = false ∧
  match s.pc with
  | .loopHead => True
  | .woken => True
  | .write _ => True
  | .footer => s.queue_ = []
  | .done => s.queue_ = []
  | _ => False

/-! ## The recorder object -/

/-- The cast `(int)` of a `DWORD`. -/
def dwordToInt (n : Nat) : Int :=
  if n % 4294967296 < 2147483648 then ((n % 4294967296 : Nat) : Int)
  else ((n % 4294967296 : Nat) : Int) - 4294967296

/-- The data members of `Recorder` (recorder.h).  `timer_` is the reading of the monotonic
clock at the last `restart()`, `none` for a timer never started. -/
structure Recorder where
  worker_ : Option RecorderWorker
  recording_ : Bool
  timer_ : Option Int

/-- A recorder as its constructor leaves it. -/
def Recorder.new : Recorder := { worker_ := none, recording_ := false, timer_ := none }

/-- The call `timer_.elapsed()` when the monotonic clock reads `now`; Qt leaves the value for a
timer never started unspecified, and the recorder does not read it then. -/
def Recorder.elapsed (r : Recorder) (now : Int) : Int :=
  match r.timer_ with
  | some t => now - t
  | none => 0

/-- The method `Recorder::startRecording` (111 to 124), called when the monotonic clock reads
`now`; `fileOpens` tells whether the destination can be opened by the writer thread. -/
def Recorder.startRecording (r : Recorder) (fileOpens : Bool) (now : Int) : Recorder :=
  if r.recording_ then r
  else
    { worker_ := some (RecorderWorker.start fileOpens), recording_ := true, timer_ := some now }

/-- The object built by `Recorder::onMouseEventCaptured` (142 to 147). -/
def mouseJson (e : MouseEventData) (elapsed : Int) : JsonValue :=
  .object
    [ ("category", .string "mouse"), ("x", .number e.pos.1), ("y", .number e.pos.2),
      ("type", .number (dwordToInt e.type)), ("timestamp_ms", .number elapsed) ]

/-- The object built by `Recorder::onKeyEventCaptured` (156 to 160). -/
def keyJson (e : KeyEventData) (elapsed : Int) : JsonValue :=
  .object
    [ ("category", .string "keyboard"), ("vkCode", .number (dwordToInt e.vkCode)),
      ("keyDown", .bool e.keyDown), ("timestamp_ms", .number elapsed) ]

/-- The slot `Recorder::onMouseEventCaptured` (138 to 150), run when the monotonic clock reads
`now`. -/
def Recorder.onMouseEventCaptured (r : Recorder) (e : MouseEventData) (now : Int) : Recorder :=
  if !r.recording_ then r
  else
    match r.worker_ with
    | none => r
    | some w => { r with worker_ := some (w.enqueue (mouseJson e (r.elapsed now))) }

/-- The slot `Recorder::onKeyEventCaptured` (152 to 163), run when the monotonic clock reads
`now`. -/
def Recorder.onKeyEventCaptured (r : Recorder) (e : KeyEventData) (now : Int) : Recorder :=
  if !r.recording_ then r
  else
    match r.worker_ with
    | none => r
    | some w => { r with worker_ := some (w.enqueue (keyJson e (r.elapsed now))) }

/-- What happens between `startRecording` and `stopRecording`: a captured sample is delivered
to one of the two slots, which run one at a time on the thread of the recorder, or the writer
thread takes a step. -/
inductive RecorderAct where
  | mouse (e : MouseEventData) (now : Int)
  | key (e : KeyEventData) (now : Int)
  | writerTick

/-- The effect of one action on the recorder. -/
def Recorder.act (r : Recorder) : RecorderAct → Recorder
  | .mouse e now => r.onMouseEventCaptured e now
  | .key e now => r.onKeyEventCaptured e now
  | .writerTick => { r with worker_ := r.worker_.map RecorderWorker.step }

/-- The effect of a sequence of actions, first action first. -/
def Recorder.run : List RecorderAct → Recorder → Recorder
  | [], r => r
  | a :: rest, r => Recorder.run rest (r.act a)

/-- The readings of the monotonic clock at the deliveries of a sequence, in order. -/
def clockReadings : List RecorderAct → List Int
  | [] => []
  | .mouse _ now :: rest => now :: clockReadings rest
  | .key _ now :: rest => now :: clockReadings rest
  | .writerTick :: rest => clockReadings rest

/-- The events recorded so far in the order they were enqueued: those already written to the
file, the one the writer holds, and those still queued. -/
def Recorder.recorded (r : Recorder) : List JsonValue :=
  match r.worker_ with
  | some w => writtenEvents w.written ++ w.inHand ++ w.queue_
  | none => []

/-- The events already written to the file, in file order. -/
def Recorder.fileEvents (r : Recorder) : List JsonValue :=
  match r.worker_ with
  | some w => writtenEvents w.written
  | none => []

/-- The `timestamp_ms` of a recorded event as the replay reads it back. -/
def timestampOf (json : JsonValue) : Int := json.toRecordedEvent.timestamp_ms

/-! ## Recorded samples on replay -/

/-- A coordinate or code that fits the C++ type `int`. -/
def fitsInt (n : Int) : Prop := -2147483648 ≤ n ∧ n ≤ 2147483647

/-- The flag `MOUSEEVENTF_WHEEL` of the Windows API, which a `SendInput` that turns the wheel
carries in `dwFlags`. -/
def MOUSEEVENTF_WHEEL : Nat := 2048

/-- The message identifier `WM_MOUSEWHEEL` (0x020A) of the Windows API. -/
def WM_MOUSEWHEEL : Nat := 522

/-! ## Wake-ups of the writer -/

/-- What holds of the writer whenever its wait has been ended by a call of `wakeOne`: the
thread is not at `front()` of an empty queue, and when it has been woken there is an event in
the queue or the worker has been told to stop. -/
def WokenInv (s : RecorderWorker) : Prop :=
  s.pc ≠ .frontOfEmptyQueue ∧ (s.pc = .woken → s.queue_ ≠ [] ∨ s.running_ = false)

/-- Lines 69 to 76 leave the loop or take the front of a queue that is not empty. -/
def RecorderWorker.exitsOrTakesFront (s : RecorderWorker) : Prop :=
  (s.step.pc = .footer ∧ s.queue_ = [] ∧ s.running_ = false) ∨
    ∃ evt rest, s.queue_ = evt :: rest ∧ s.step.pc = .write evt ∧ s.step.queue_ = rest

/-! ## Slices, gate and progress of the loop -/

/-- The durations of the slices of the scheduled delay among what the thread did, in order. -/
def sleepsOf : List Obs → List Int
  | [] => []
  | .sleep ms :: rest => ms :: sleepsOf rest
  | _ :: rest => sleepsOf rest

/-- The condition `doMouse || doKey` of lines 165 to 168 for an event: mouse replay is enabled
and its category is "mouse", or keyboard replay is enabled and its category is "keyboard". -/
def GateOpen (w : ReplayWorker) (e : RecordedEvent) : Prop :=
  (w.m_replayMouse = true ∧ e.category = "mouse") ∨
    (w.m_replayKeyboard = true ∧ e.category = "keyboard")

/-- The program points of `simulateEvent` (181 to 219). -/
def Pc.inSimulate : Pc → Bool
  | .simStop1 | .simCat | .simMStop2 | .simMCursor | .simMStop3 | .simMSend | .simKStop2
  | .simKStop3 | .simKSend => true
  | _ => false

/-- The program points of the mouse branch of `simulateEvent` (187 to 204). -/
def Pc.inMouseBranch : Pc → Bool
  | .simMStop2 | .simMCursor | .simMStop3 | .simMSend => true
  | _ => false

/-- The program points of the keyboard branch of `simulateEvent` (205 to 215). -/
def Pc.inKeyBranch : Pc → Bool
  | .simKStop2 | .simKStop3 | .simKSend => true
  | _ => false

/-- The injection primitives of the mouse branch. -/
def Obs.isMouseInjection : Obs → Bool
  | .setCursorPos _ _ => true
  | .sendMouse _ => true
  | _ => false

/-- The injection primitive of the keyboard branch. -/
def Obs.isKeyInjection : Obs → Bool
  | .sendKey _ _ => true
  | _ => false

/-- The invariant of the gate for a worker `w`: the toggles do not change, the thread is past
the gate only for an event whose gate is open, in each branch of `simulateEvent` only for an
event of that category, and every injection so far was made with its toggle enabled. -/
def GateInv (w : ReplayWorker) (s : RunState) : Prop :=
  s.w.m_replayMouse = w.m_replayMouse ∧ s.w.m_replayKeyboard = w.m_replayKeyboard ∧
  (s.pc = .gateStop ∨ s.pc.inSimulate = true → GateOpen w s.evt) ∧
  (s.pc.inMouseBranch = true → s.evt.category = "mouse") ∧
  (s.pc.inKeyBranch = true → s.evt.category = "keyboard") ∧
  (∀ o ∈ s.out, o.isMouseInjection = true → w.m_replayMouse = true) ∧
  (∀ o ∈ s.out, o.isKeyInjection = true → w.m_replayKeyboard = true)

/-- A progress report. -/
def Obs.isProgress : Obs → Bool
  | .replayProgress _ _ => true
  | _ => false

/-- The progress reports among what the thread did, in order, each as the pair of `current`
and `total`. -/
def progressOf : List Obs → List (Int × Int)
  | [] => []
  | .replayProgress current total :: rest => (current, total) :: progressOf rest
  | _ :: rest => progressOf rest

/-- The program points of the body of the loop of `runLoop` (105 to 172). -/
def Pc.inBody : Pc → Bool
  | .idle | .forTest | .finalRead | .done => false
  | _ => true

/-- The invariant of the progress reports for a sequence of `N` events: inside the body of the
loop the index is below `total`, which is `N - 2`; every report carries that total and a
`current` between 1 and the total and not above the index of the loop; the reports come with
strictly increasing `current`; an injection has been made only when `N` exceeds 2. -/
def ProgressInv (N : Nat) (s : RunState) : Prop :=
  s.w.m_events.length = N ∧
  (s.pc = .idle → s.out = []) ∧
  (s.pc ≠ .idle → s.total = (N : Int) - 2) ∧
  (s.pc.inBody = true → (s.i : Int) < s.total) ∧
  (∀ p ∈ progressOf s.out, p.2 = (N : Int) - 2 ∧ 1 ≤ p.1 ∧ p.1 ≤ s.i ∧ p.1 ≤ p.2) ∧
  List.Pairwise (fun a b => a < b) ((progressOf s.out).map Prod.fst) ∧
  (∀ o ∈ s.out, o.isInjection = true → 2 < N)

/-- The injection primitives and the progress reports among what the thread did, in order. -/
def injectionsAndReports (out : List Obs) : List Obs :=
  out.filter (fun o => o.isInjection || o.isProgress)

/-! ## A stop before the start, and total waits -/

/-- The state as far as the thread function depends on it: the signals emitted by control
calls are left out, and so is the stop flag for as long as the queued `startReplay` has not
run, because line 94 overwrites it before the thread loads it. -/
def RunState.threadView (s : RunState) : RunState :=
  { s with
    ctlOut := [],
    w := if s.pc = .idle then { s.w with m_stopRequested := false } else s.w }

/-- The integer nearest to `num / den` for a positive `den`; of two integers equally near, the
even one. -/
def nearestEven (num : Int) (den : Nat) : Int :=
  if 2 * (num % (den : Int)) < (den : Int) then num / (den : Int)
  else if (den : Int) < 2 * (num % (den : Int)) then num / (den : Int) + 1
  else if (num / (den : Int)) % 2 = 0 then num / (den : Int)
  else num / (den : Int) + 1

/-- The number of times `n` can be halved before it is below 2, counted with at most `fuel`
halvings. -/
def floorLog2Aux : Nat → Nat → Nat
  | 0, _ => 0
  | fuel + 1, n => if 2 ≤ n then floorLog2Aux fuel (n / 2) + 1 else 0

/-- The position of the highest bit of `n` that is set: `2 ^ floorLog2 n <= n < 2 ^ (floorLog2 n + 1)`
for `n` other than 0. -/
def floorLog2 (n : Nat) : Nat := floorLog2Aux n n

/-- The exponent `l` with `2 ^ l <= |q| < 2 ^ (l + 1)`, for `q` other than 0. -/
def binade (q : ℚ) : Int :=
  if q.den * 2 ^ ((floorLog2 q.num.natAbs : Int) - (floorLog2 q.den : Int)).toNat
      ≤ q.num.natAbs * 2 ^ ((floorLog2 q.den : Int) - (floorLog2 q.num.natAbs : Int)).toNat
  then (floorLog2 q.num.natAbs : Int) - (floorLog2 q.den : Int)
  else (floorLog2 q.num.natAbs : Int) - (floorLog2 q.den : Int) - 1

/-- The value of type `double` that a real result is rounded to: the nearest number with a
significand of 53 bits, the one with the even significand of two that are equally near
(IEEE 754 binary64, round to nearest even).  The significand is the integer nearest to
`q / 2 ^ e` for `e = binade q - 52`.  The range of the exponent is not modelled: a quotient of
line 133 that lies below the normal range truncates to 0 however it is rounded, and for one
beyond the range of `qint64` the cast of line 133 is undefined. -/
def toDouble (q : ℚ) : ℚ :=
  if q = 0 then 0
  else
    (nearestEven (q.num * 2 ^ (52 - binade q).toNat) (q.den * 2 ^ (binade q - 52).toNat) : ℚ)
      * 2 ^ (binade q - 52).toNat / 2 ^ (52 - binade q).toNat

/-- Lines 131 to 133 in the arithmetic of the program: the multiplier is replaced by 1.0 when
it is not positive, `delta` is converted to `double`, divided by the multiplier in `double`,
and the quotient is truncated toward zero. -/
def waitMsDouble (delta : Int) (m_speed : ℚ) : Int :=
  truncToInt (toDouble (toDouble (delta : ℚ) / (if m_speed ≤ 0 then 1 else m_speed)))

/-- One step of the replay thread with the arithmetic of line 133 done in `double`.  It is
`step` except at `fetch`, where `step` takes the exact quotient. -/
def stepDouble (s : RunState) : RunState :=
  match s.pc with
  | .fetch =>
    let ts := s.evt.timestamp_ms
    let delta := if s.i = 0 then ts else ts - s.last_ts
    let speed := if s.w.m_speed ≤ 0 then 1 else s.w.m_speed
    { s with pc := .slTest, last_ts := ts, speed := speed,
             waitMs := waitMsDouble delta s.w.m_speed, slept := 0,
             out := s.out ++ [.readSpeed s.w.m_speed] }
  | _ => step s

/-- The effect of one scheduled action when the thread steps with `stepDouble`. -/
def RunState.actDouble (s : RunState) : Act → RunState
  | .tick => stepDouble s
  | .call c => s.call c

/-- The execution of a schedule with `stepDouble`, first action first. -/
def execDouble : List Act → RunState → RunState
  | [], s => s
  | a :: rest, s => execDouble rest (s.actDouble a)

/-- The scheduled waits computed along an execution with `stepDouble`: for every step the
thread takes from `fetch`, the index it works on, the multiplier that `m_speed.load()` returns
there and the `waitMs` it computes (131 to 133). -/
def scheduledWaitsDouble : List Act → RunState → List (Nat × ℚ × Int)
  | [], _ => []
  | .tick :: rest, s =>
    (if s.pc = .fetch then [(s.i, s.w.m_speed, (stepDouble s).waitMs)] else [])
      ++ scheduledWaitsDouble rest (stepDouble s)
  | .call c :: rest, s => scheduledWaitsDouble rest (s.call c)

/-! ## The last accepted move -/

/-- The position of the last accepted move, and the default point (0, 0) that the constructor
leaves in `lastMousePos_` when no move has been accepted yet. -/
def CaptureEngine.lastAcceptedPos (e : CaptureEngine) : Int × Int :=
  match e.acceptedMoves.getLast? with
  | some m => m.pos
  | none => (0, 0)

/-- The time from the last accepted move to `now`, and 0 when no move has been accepted yet:
the constructor leaves the invalid `QDateTime` in `lastMouseTime_`, from which `msecsTo` gives
0. -/
def CaptureEngine.sinceLastAccepted (e : CaptureEngine) (now : Int) : Int :=
  match e.acceptedMoves.getLast? with
  | some m => now - m.time
  | none => 0

/-- While no move has been accepted, the two throttle fields are as the constructor left
them. -/
def FreshInv (e : CaptureEngine) : Prop :=
  e.acceptedMoves = [] → e.lastMousePos_ = (0, 0) ∧ e.lastMouseTime_ = none

/-! ## Scenarios -/

/-- A recorded mouse move to `(x, 0)` at `t` ms (`WM_MOUSEMOVE` is 512). -/
def moveAt (x t : Int) : RecordedEvent :=
  { category := "mouse", x := x, y := 0, type := 512, vkCode := 0, keyDown := false,
    timestamp_ms := t }

/-- A new worker loaded with four moves 10 ms apart; the loop replays the first two. -/
def fourMoves : ReplayWorker :=
  ReplayWorker.new.setEvents [moveAt 1 10, moveAt 2 20, moveAt 3 30, moveAt 4 40]

/-- Nine steps take the thread into the 10 ms wait for event 0.  A pause arrives during that
wait, the thread runs on, a resume arrives, and the thread runs to the end. -/
def pauseInWaitThenResume : List Act :=
  ticks 9 ++ [.call .pauseReplay] ++ ticks 9 ++ [.call .resumeReplay] ++ ticks 40

/-- A worker loaded with three moves, the first recorded 10 s after the start. -/
def tenSecondWait : ReplayWorker :=
  ReplayWorker.new.setEvents [moveAt 1 10000, moveAt 2 10001, moveAt 3 10002]

/-- A burst of hook callbacks: a move, a second move 1 ms later and one pixel away, a third
move 2 ms after the first and three pixels away, a left-button press (513), a delivery by the
worker thread, and a move at the same place 6 ms later. -/
def moveBurst : List EngineEvent :=
  [ .mouse 0 512 (some (100, 100)) 1000,
    .mouse 0 512 (some (100, 101)) 1001,
    .mouse 0 512 (some (101, 102)) 1002,
    .mouse 0 513 (some (101, 102)) 1003,
    .dispatchMouse,
    .mouse 0 512 (some (101, 102)) 1008 ]

/-- A manager whose replay of the four moves is running at speed 2. -/
def replayingAtDoubleSpeed : ReplayManager :=
  { m_events := fourMoves.m_events, m_worker := some (fourMoves.setSpeedFactor 2),
    m_replayMouse := true, m_replayKeyboard := true, m_speed := 2, m_replaying := true }

/-- A recording of two clicks as `loadReplayFile` gets it from the parser. -/
def twoClicksDocument : JsonValue :=
  .object
    [ ("record_start_time", .string "2025-01-01T00:00:00"),
      ("events", .array
        [ .object [("category", .string "mouse"), ("x", .number 10), ("y", .number 20),
            ("type", .number 513), ("timestamp_ms", .number 100)],
          .object [("category", .string "mouse"), ("x", .number 10), ("y", .number 20),
            ("type", .number 514), ("timestamp_ms", .number 180)],
          .object [("category", .string "keyboard"), ("vkCode", .number 65),
            ("keyDown", .bool true), ("timestamp_ms", .number 300)] ]) ]

/-- A manager that has loaded the two clicks and then been given the factor -1. -/
def loadedThenNegativeSpeed : ReplayManager :=
  (ReplayManager.new.loadReplayFile (.document twoClicksDocument)).2.setSpeedMultiplier (-1)

/-- An interleaving in which two mouse samples and a key sample are enqueued while the worker
thread delivers, the second mouse sample arriving between `pop()` and the delivery of the
first. -/
def enqueueWhileDelivering : List QueueAct :=
  [ .enqueueMouse { pos := (1, 1), type := 512, time := 10 }, .tick, .tick,
    .enqueueMouse { pos := (5, 5), type := 513, time := 11 },
    .enqueueKey { vkCode := 65, keyDown := true, time := 12 },
    .tick, .tick, .tick, .tick, .tick, .tick ]

/-- The thread replays the first of the four moves, then a stop arrives during the wait for
the second, and the thread runs to the end. -/
def stopInSecondWait : List Act := ticks 30 ++ [.call .stopReplay] ++ ticks 10

/-- A recorded key press as the recorder enqueues it. -/
def keyDownJson (ts : Int) : JsonValue :=
  .object [("category", .string "keyboard"), ("vkCode", .number 65), ("keyDown", .bool true),
    ("timestamp_ms", .number ts)]

/-- An interleaving in which the writer thread opens the file, writes the header and enters its
loop, an event is enqueued and written, and a second event is enqueued. -/
def twoEventsEnqueued : List WriterAct :=
  [ .tick, .tick, .tick, .tick, .enqueue (keyDownJson 5), .tick, .tick, .tick,
    .enqueue (keyDownJson 9) ]

/-- A move, a key press and a click delivered 3, 3 and 7 ms after the start of the recording,
with steps of the writer thread in between. -/
def threeDeliveries : List RecorderAct :=
  [ .writerTick, .writerTick, .mouse { pos := (4, 5), type := 512, time := 0 } 1003,
    .writerTick, .writerTick, .writerTick,
    .key { vkCode := 65, keyDown := true, time := 0 } 1003,
    .mouse { pos := (4, 5), type := 513, time := 0 } 1007, .writerTick ]

/-- The hook table after a successful `start` on a system that handed out the handles 1 and
2. -/
def bothHooksInstalled : HookTable :=
  { installed := [(1, .WH_MOUSE_LL), (2, .WH_KEYBOARD_LL)], nextHandle := 3 }

/-- A captured turn of the wheel at (10, 20). -/
def wheelSample : MouseEventData := { pos := (10, 20), type := WM_MOUSEWHEEL, time := 0 }

/-- A captured move to (10, 20). -/
def moveSample : MouseEventData := { pos := (10, 20), type := WM_MOUSEMOVE, time := 0 }

/-- A captured press of the right button at (10, 20) (`WM_RBUTTONDOWN` is 516). -/
def rightDownSample : MouseEventData := { pos := (10, 20), type := 516, time := 0 }

/-- A captured release of the key A. -/
def keyUpSample : KeyEventData := { vkCode := 65, keyDown := false, time := 0 }

/-- A worker loaded with what the recorder builds from a release of the key A, followed by
the two events that the loop leaves out. -/
def recordedKeyUp : ReplayWorker :=
  ReplayWorker.new.setEvents
    [(keyJson keyUpSample 0).toRecordedEvent, moveAt 0 1, moveAt 0 2]

/-- A worker loaded with what the recorder builds from a press of the right button, followed
by the two events that the loop leaves out. -/
def recordedRightDown : ReplayWorker :=
  ReplayWorker.new.setEvents
    [(mouseJson rightDownSample 0).toRecordedEvent, moveAt 0 1, moveAt 0 2]

/-- An interleaving in which the writer thread reaches its wait and an enqueue wakes it. -/
def wokenByEnqueue : List WriterAct :=
  [.tick, .tick, .tick, .tick, .enqueue (keyDownJson 5)]

/-- The six events of the concrete scenario on a worker whose mouse replay is disabled. -/
def sixEventsKeysOnly : ReplayWorker := sixEvents.setOptions false true

/-- A manager that holds a sequence of one move and is not replaying. -/
def oneMoveLoaded : ReplayManager := { ReplayManager.new with m_events := [moveAt 1 10] }

/-- One callback on a new engine: a press of the left button at (500, 500). -/
def clickOnly : List EngineEvent := [.mouse 0 513 (some (500, 500)) 1000]

/-- An interleaving in which the stop arrives before the writer thread has executed
`running_ = true`: the thread opens the file and writes the header, an event is enqueued,
`stopWorker` is called, and the thread goes on: it stores true in `running_`, takes the event,
writes it, finds the queue empty and waits. -/
def stopBeforeRunning : List WriterAct :=
  [ .tick, .tick, .enqueue (keyDownJson 5), .stopWorker, .tick, .tick, .tick, .tick ]

/-- The value of type `double` nearest to one tenth, which `setSpeedFactor(0.1)` stores. -/
def oneTenth : ℚ := 3602879701896397 / 36028797018963968

/-- A worker loaded with four moves recorded at 3, 10, 11 and 12 ms, after
`setSpeedFactor(0.1)`. -/
def tenthSpeed : ReplayWorker :=
  (ReplayWorker.new.setEvents [moveAt 1 3, moveAt 2 10, moveAt 3 11, moveAt 4 12]).setSpeedFactor
    oneTenth

/-! ## Theorems -/

/-! ### Schedules -/

attribute [simp] stepAt.eq_1 stepAt.eq_2 stepAt.eq_3 stepAt.eq_4 stepAt.eq_5 stepAt.eq_6
  stepAt.eq_7 stepAt.eq_8 stepAt.eq_9 stepAt.eq_10 stepAt.eq_11 stepAt.eq_12 stepAt.eq_13
  stepAt.eq_14 stepAt.eq_15 stepAt.eq_16 stepAt.eq_17 stepAt.eq_18 stepAt.eq_19 stepAt.eq_20
  stepAt.eq_21 stepAt.eq_22 stepAt.eq_23 stepAt.eq_24 stepAt.eq_25 stepAt.eq_26 stepAt.eq_27
  stepAt.eq_28 stepAt.eq_29 stepAt.eq_30 stepAt.eq_31 stepAt.eq_32

theorem exec_append (a b : List Act) (s : RunState) : exec (a ++ b) s = exec b (exec a s) := by
  induction a generalizing s with
  | nil => rfl
  | cons x xs ih => simp [exec, ih]

theorem exec_ticks_succ (n : Nat) (s : RunState) :
    exec (ticks (n + 1)) s = exec (ticks n) (step s) := by
  simp [ticks, List.replicate_succ, exec, RunState.act]

theorem exec_ticks_zero (s : RunState) : exec (ticks 0) s = s := rfl

theorem exec_ticks_add (m n : Nat) (s : RunState) :
    exec (ticks (m + n)) s = exec (ticks n) (exec (ticks m) s) := by
  rw [← exec_append]; simp only [ticks, List.replicate_add]

theorem exec_ticks_done (n : Nat) (s : RunState) (h : s.pc = .done) :
    exec (ticks n) s = s := by
  induction n with
  | zero => rfl
  | succ n ih =>
    have hs : step s = s := by simp [step, h]
    rw [exec_ticks_succ, hs, ih]

/-! ### The uninterrupted run -/

theorem slice_loop_quiet (fuel : Nat) (s : RunState) (hpc : s.pc = .slTest)
    (hs : s.w.m_stopRequested = false) (hp : s.w.m_paused = false)
    (hf : (s.waitMs - s.slept).toNat ≤ fuel) :
    ∃ n sl tw, exec (ticks n) s =
      { s with pc := .chkStop2, slept := sl, toWait := tw,
               out := s.out ++ quietSlices fuel (s.waitMs - s.slept) } := by
  induction fuel generalizing s with
  | zero =>
    refine ⟨1, s.slept, s.toWait, ?_⟩
    have : ¬ s.slept < s.waitMs := by omega
    simp [exec_ticks_succ, exec_ticks_zero, step, hpc, this, RunState.goto, quietSlices]
  | succ fuel ih =>
    by_cases hlt : s.slept < s.waitMs
    · have h0 : 0 < s.waitMs - s.slept := by omega
      have h6 : exec (ticks 6) s =
          { s with
              pc := .slTest, slept := s.slept + min (s.waitMs - s.slept) 50,
              toWait := min (s.waitMs - s.slept) 50,
              out := s.out ++ [.readStop false, .readPaused false,
                   .sleep (min (s.waitMs - s.slept) 50), .readStop false, .readPaused false] } := by
        simp [exec_ticks_succ, exec_ticks_zero, step, hpc, hlt, RunState.goto,
          RunState.emit, hs, hp]
      obtain ⟨n, sl, tw, hn⟩ := ih (exec (ticks 6) s) (by rw [h6]) (by rw [h6]; exact hs)
        (by rw [h6]; exact hp) (by rw [h6]; simp only []; omega)
      refine ⟨6 + n, sl, tw, ?_⟩
      rw [exec_ticks_add, hn, h6]
      simp [quietSlices, h0]
      congr 1
      omega
    · refine ⟨1, s.slept, s.toWait, ?_⟩
      have h0 : ¬ 0 < s.waitMs - s.slept := by omega
      simp [exec_ticks_succ, exec_ticks_zero, step, hpc, hlt, RunState.goto,
        quietSlices, h0]

theorem gate_quiet (s : RunState) (hpc : s.pc = .gate) (hs : s.w.m_stopRequested = false) :
    ∃ n, exec (ticks n) s =
      { s with pc := .progress, out := s.out ++ quietInject s.w s.evt } := by
  by_cases hm : s.evt.category = "mouse"
  · simp only [RunState.evt, List.getD_eq_getElem?_getD] at hm
    by_cases hg : s.w.m_replayMouse = true
    · refine ⟨8, ?_⟩
      simp [exec_ticks_succ, exec_ticks_zero, step, hpc, RunState.goto, RunState.emit, hs,
        quietInject, hg, hm, RunState.evt]
    · refine ⟨1, ?_⟩
      simp [exec_ticks_succ, exec_ticks_zero, step, hpc, RunState.goto, RunState.emit, hs,
        quietInject, hg, hm, RunState.evt]
  · simp only [RunState.evt, List.getD_eq_getElem?_getD] at hm
    by_cases hk : s.evt.category = "keyboard"
    · simp only [RunState.evt, List.getD_eq_getElem?_getD] at hk
      by_cases hg : s.w.m_replayKeyboard = true
      · refine ⟨7, ?_⟩
        simp [exec_ticks_succ, exec_ticks_zero, step, hpc, RunState.goto, RunState.emit, hs,
          quietInject, hg, hm, hk, RunState.evt]
      · refine ⟨1, ?_⟩
        simp [exec_ticks_succ, exec_ticks_zero, step, hpc, RunState.goto, RunState.emit, hs,
          quietInject, hg, hm, hk, RunState.evt]
    · simp only [RunState.evt, List.getD_eq_getElem?_getD] at hk
      refine ⟨1, ?_⟩
      simp [exec_ticks_succ, exec_ticks_zero, step, hpc, RunState.goto, RunState.emit, hs,
        quietInject, hm, hk, RunState.evt]

theorem iteration_quiet (s : RunState) (hpc : s.pc = .forTest) (hi : (s.i : Int) < s.total)
    (hs : s.w.m_stopRequested = false) (hp : s.w.m_paused = false) :
    ∃ n sp wm sl tw, exec (ticks n) s =
      { s with pc := .forTest, i := s.i + 1, last_ts := s.evt.timestamp_ms, speed := sp,
               waitMs := wm, slept := sl, toWait := tw,
               out := s.out ++ quietIter s.w s.total s.i s.last_ts } := by
  have h4 : exec (ticks 4) s =
      { s with pc := .slTest, last_ts := s.evt.timestamp_ms,
               speed := if s.w.m_speed ≤ 0 then 1 else s.w.m_speed,
               waitMs := waitOf s.w s.i s.last_ts, slept := 0,
               out := s.out ++ [.readStop false, .readPaused false, .readSpeed s.w.m_speed] } := by
    simp [exec_ticks_succ, exec_ticks_zero, step, hpc, hi, RunState.goto, RunState.emit, hs, hp,
      RunState.evt, waitOf]
  obtain ⟨n1, sl, tw, h1⟩ := slice_loop_quiet (waitOf s.w s.i s.last_ts).toNat (exec (ticks 4) s)
    (by rw [h4]) (by rw [h4]; exact hs) (by rw [h4]; exact hp) (by rw [h4]; simp)
  have h3 : exec (ticks 3) (exec (ticks n1) (exec (ticks 4) s)) =
      { s with pc := .gate, last_ts := s.evt.timestamp_ms,
               speed := if s.w.m_speed ≤ 0 then 1 else s.w.m_speed,
               waitMs := waitOf s.w s.i s.last_ts, slept := sl, toWait := tw,
               out := s.out ++ [.readStop false, .readPaused false, .readSpeed s.w.m_speed]
                 ++ quietSlices (waitOf s.w s.i s.last_ts).toNat (waitOf s.w s.i s.last_ts)
                 ++ [.readStop false, .readPaused false, .readStop false] } := by
    rw [h1, h4]
    simp [exec_ticks_succ, exec_ticks_zero, step, RunState.goto, RunState.emit, hs, hp]
  obtain ⟨n2, h2⟩ := gate_quiet (exec (ticks 3) (exec (ticks n1) (exec (ticks 4) s)))
    (by rw [h3]) (by rw [h3]; exact hs)
  refine ⟨4 + n1 + 3 + n2 + 1, if s.w.m_speed ≤ 0 then 1 else s.w.m_speed,
    waitOf s.w s.i s.last_ts, sl, tw, ?_⟩
  rw [exec_ticks_add, exec_ticks_add, exec_ticks_add, exec_ticks_add, h2, h3]
  simp [exec_ticks_succ, exec_ticks_zero, step, RunState.evt, quietIter]

theorem run_quiet (k : Nat) (s : RunState) (hpc : s.pc = .forTest)
    (hk : s.total = (s.i : Int) + k)
    (hs : s.w.m_stopRequested = false) (hp : s.w.m_paused = false) :
    ∃ n, (exec (ticks n) s).pc = .done ∧ (exec (ticks n) s).w = s.w ∧
      (exec (ticks n) s).out = s.out ++ quietRun s.w s.total k s.i s.last_ts
        ++ [.readStop false, .stateChanged "finished", .finished] := by
  induction k generalizing s with
  | zero =>
    refine ⟨2, ?_⟩
    have : ¬ (s.i : Int) < s.total := by omega
    simp [exec_ticks_succ, exec_ticks_zero, step, hpc, this, RunState.goto, hs, quietRun]
  | succ k ih =>
    obtain ⟨n1, sp, wm, sl, tw, h1⟩ := iteration_quiet s hpc (by omega) hs hp
    obtain ⟨n2, h2⟩ := ih (exec (ticks n1) s) (by rw [h1]) (by rw [h1]; simp only []; omega)
      (by rw [h1]; exact hs) (by rw [h1]; exact hp)
    refine ⟨n1 + n2, ?_⟩
    rw [exec_ticks_add]
    refine ⟨h2.1, ?_, ?_⟩
    · rw [h2.2.1, h1]
    · rw [h2.2.2, h1]
      simp [quietRun, RunState.evt]

theorem injections_append (a b : List Obs) :
    injections (a ++ b) = injections a ++ injections b := by
  simp [injections]

theorem injections_quietSlices (fuel : Nat) (r : Int) : injections (quietSlices fuel r) = [] := by
  induction fuel generalizing r with
  | zero => rfl
  | succ fuel ih =>
    unfold quietSlices
    split
    · rw [injections_append, ih]; simp [injections, Obs.isInjection]
    · rfl

theorem injections_quietInject (w : ReplayWorker) (e : RecordedEvent)
    (hm : w.m_replayMouse = true) (hk : w.m_replayKeyboard = true) :
    injections (quietInject w e) = injectionOf e := by
  by_cases h1 : e.category = "mouse"
  · simp [quietInject, injectionOf, injections, Obs.isInjection, hm, hk, h1]
  · by_cases h2 : e.category = "keyboard"
    · simp [quietInject, injectionOf, injections, Obs.isInjection, hm, hk, h2]
    · simp [quietInject, injectionOf, injections, Obs.isInjection, hm, hk, h1, h2]

theorem injections_quietIter (w : ReplayWorker) (total : Int) (i : Nat) (last : Int)
    (hm : w.m_replayMouse = true) (hk : w.m_replayKeyboard = true) :
    injections (quietIter w total i last) = injectionOf (w.m_events.getD i default) := by
  unfold quietIter
  rw [injections_append, injections_append, injections_append, injections_append,
    injections_quietSlices, injections_quietInject w _ hm hk]
  simp [injections, Obs.isInjection]

theorem injections_quietRun (w : ReplayWorker) (total : Int) (k i : Nat) (last : Int)
    (hm : w.m_replayMouse = true) (hk : w.m_replayKeyboard = true)
    (hlen : i + k ≤ w.m_events.length) :
    injections (quietRun w total k i last)
      = ((w.m_events.drop i).take k).flatMap injectionOf := by
  induction k generalizing i last with
  | zero => simp [quietRun, injections]
  | succ k ih =>
    have hi : i < w.m_events.length := by omega
    rw [quietRun, injections_append, injections_quietIter w total i last hm hk,
      ih (i + 1) _ (by omega), List.drop_eq_getElem_cons hi, List.take_succ_cons,
      List.flatMap_cons, List.getD_eq_getElem _ _ hi]

/-! ### The uninterrupted replay injects the first N - 2 events -/

/-- C2: for a worker loaded with N ≥ 2 events, with both toggles enabled and the pause flag
clear, a replay with no control call reaches the end of the thread function, after which it
stays there, and the injection primitives it has called are exactly those of the first N - 2
events, event by event in sequence order. -/
theorem runLoop_uninterrupted_injects_all_but_last_two (w : ReplayWorker)
    (hN : 2 ≤ w.m_events.length) (hm : w.m_replayMouse = true)
    (hk : w.m_replayKeyboard = true) (hp : w.m_paused = false) :
    ∃ n0, ∀ n, n0 ≤ n →
      (exec (ticks n) (RunState.start w)).pc = .done ∧
      injections (exec (ticks n) (RunState.start w)).out
        = (w.m_events.take (w.m_events.length - 2)).flatMap injectionOf := by
  have hne : w.m_events.isEmpty = false := by
    cases h : w.m_events with
    | nil => simp [h] at hN
    | cons a l => rfl
  have h1 : exec (ticks 1) (RunState.start w) =
      { w := { w with m_stopRequested := false }, pc := .forTest, i := 0,
        total := (w.m_events.length : Int) - 2, last_ts := 0, speed := 1, waitMs := 0,
        slept := 0, toWait := 0, out := [], ctlOut := [] } := by
    simp [exec_ticks_succ, exec_ticks_zero, step, RunState.start, hne]
  obtain ⟨n, hpc, -, hout⟩ := run_quiet (w.m_events.length - 2) (exec (ticks 1) (RunState.start w))
    (by rw [h1]) (by rw [h1]; simp [RunState.start]; omega) (by rw [h1]) (by rw [h1]; exact hp)
  refine ⟨1 + n, fun m hm' => ?_⟩
  obtain ⟨d, rfl⟩ := Nat.exists_eq_add_of_le hm'
  rw [exec_ticks_add, exec_ticks_add, exec_ticks_done d _ hpc]
  refine ⟨hpc, ?_⟩
  rw [hout, h1]
  dsimp only
  rw [injections_append, injections_append,
    injections_quietRun { w with m_stopRequested := false } _ _ _ _ hm hk (by simp)]
  simp [injections, Obs.isInjection]

/-- The theorem for C2 applied to the four moves of `fourMoves`. -/
theorem runLoop_uninterrupted_injects_all_but_last_two_witness :
    ∃ n0, ∀ n, n0 ≤ n →
      (exec (ticks n) (RunState.start fourMoves)).pc = .done ∧
      injections (exec (ticks n) (RunState.start fourMoves)).out
        = (fourMoves.m_events.take (fourMoves.m_events.length - 2)).flatMap injectionOf :=
  runLoop_uninterrupted_injects_all_but_last_two fourMoves (by decide) (by decide) (by decide)
    (by decide)

/-! ### The arithmetic of `double` -/

theorem floorLog2Aux_spec (fuel n : Nat) (hn : n ≠ 0) (hf : n ≤ fuel) :
    2 ^ floorLog2Aux fuel n ≤ n ∧ n < 2 ^ (floorLog2Aux fuel n + 1) := by
  induction fuel generalizing n with
  | zero => omega
  | succ f ih =>
    unfold floorLog2Aux
    split
    · have h := ih (n / 2) (by omega) (by omega)
      generalize floorLog2Aux f (n / 2) = k at h
      obtain ⟨h1, h2⟩ := h
      rw [pow_succ, pow_succ, pow_succ] at *
      constructor <;> omega
    · simp
      omega

theorem floorLog2_spec (n : Nat) (hn : n ≠ 0) :
    2 ^ floorLog2 n ≤ n ∧ n < 2 ^ (floorLog2 n + 1) :=
  floorLog2Aux_spec n n hn le_rfl

theorem two_zpow_split (l : Int) : (2 : ℚ) ^ l = 2 ^ l.toNat / 2 ^ (-l).toNat := by
  rcases le_total 0 l with h | h
  · have h1 : (-l).toNat = 0 := by omega
    have h2 : l = (l.toNat : Int) := by omega
    rw [h1, pow_zero, div_one]
    conv_lhs => rw [h2]
    exact zpow_natCast 2 l.toNat
  · have h1 : l.toNat = 0 := by omega
    have h2 : l = -((-l).toNat : Int) := by omega
    rw [h1, pow_zero, one_div]
    conv_lhs => rw [h2]
    rw [zpow_neg, zpow_natCast]

theorem abs_eq_natAbs_div_den (q : ℚ) : |q| = (q.num.natAbs : ℚ) / (q.den : ℚ) := by
  conv_lhs => rw [← Rat.num_div_den q]
  rw [abs_div, Nat.abs_cast, Nat.cast_natAbs, Int.cast_abs]

/-- What `binade` computes: the exponent of the power of two at or below `|q|`. -/
theorem binade_spec (q : ℚ) (hq : q ≠ 0) :
    (2 : ℚ) ^ binade q ≤ |q| ∧ |q| < (2 : ℚ) ^ (binade q + 1) := by
  have hnum : q.num.natAbs ≠ 0 := by simpa using hq
  obtain ⟨a1, a2⟩ := floorLog2_spec q.num.natAbs hnum
  obtain ⟨d1, d2⟩ := floorLog2_spec q.den q.den_nz
  have hd : (0 : ℚ) < q.den := by exact_mod_cast q.den_pos
  rw [abs_eq_natAbs_div_den]
  unfold binade
  generalize q.num.natAbs = a at *
  generalize q.den = d at *
  generalize floorLog2 a = la at *
  generalize floorLog2 d = ld at *
  have A1 : (2 : ℚ) ^ (la : Int) ≤ a := by rw [zpow_natCast]; exact_mod_cast a1
  have A2 : (a : ℚ) < 2 ^ ((la : Int) + 1) := by
    have : ((la : Int) + 1) = ((la + 1 : Nat) : Int) := by push_cast; ring
    rw [this, zpow_natCast]; exact_mod_cast a2
  have D1 : (2 : ℚ) ^ (ld : Int) ≤ d := by rw [zpow_natCast]; exact_mod_cast d1
  have D2 : (d : ℚ) < 2 ^ ((ld : Int) + 1) := by
    have : ((ld : Int) + 1) = ((ld + 1 : Nat) : Int) := by push_cast; ring
    rw [this, zpow_natCast]; exact_mod_cast d2
  have hp : ∀ k : Int, (0 : ℚ) < 2 ^ k := fun k => zpow_pos (by norm_num) k
  have two : (2 : ℚ) ≠ 0 := by norm_num
  have test : (d * 2 ^ ((la : Int) - (ld : Int)).toNat ≤ a * 2 ^ ((ld : Int) - (la : Int)).toNat)
      ↔ (2 : ℚ) ^ ((la : Int) - (ld : Int)) ≤ (a : ℚ) / d := by
    rw [two_zpow_split ((la : Int) - (ld : Int)), neg_sub, le_div_iff₀ hd,
      div_mul_eq_mul_div, div_le_iff₀ (pow_pos (by norm_num) _), mul_comm _ (d : ℚ)]
    exact_mod_cast Iff.rfl
  split
  next h =>
    refine ⟨test.mp h, ?_⟩
    rw [div_lt_iff₀ hd]
    have e : (2 : ℚ) ^ ((la : Int) - (ld : Int) + 1) * 2 ^ (ld : Int) = 2 ^ ((la : Int) + 1) := by
      rw [← zpow_add₀ two]; congr 1; ring
    calc (a : ℚ) < 2 ^ ((la : Int) + 1) := A2
      _ = 2 ^ ((la : Int) - (ld : Int) + 1) * 2 ^ (ld : Int) := e.symm
      _ ≤ 2 ^ ((la : Int) - (ld : Int) + 1) * d := by
        exact mul_le_mul_of_nonneg_left D1 (le_of_lt (hp _))
  next h =>
    have h' := lt_of_not_le (fun c => h (test.mpr c))
    constructor
    · rw [le_div_iff₀ hd]
      have e : (2 : ℚ) ^ ((la : Int) - (ld : Int) - 1) * 2 ^ ((ld : Int) + 1) = 2 ^ (la : Int) := by
        rw [← zpow_add₀ two]; congr 1; ring
      calc (2 : ℚ) ^ ((la : Int) - (ld : Int) - 1) * d
          ≤ 2 ^ ((la : Int) - (ld : Int) - 1) * 2 ^ ((ld : Int) + 1) :=
            mul_le_mul_of_nonneg_left (le_of_lt D2) (le_of_lt (hp _))
        _ = 2 ^ (la : Int) := e
        _ ≤ a := A1
    · have : (la : Int) - (ld : Int) - 1 + 1 = (la : Int) - (ld : Int) := by ring
      rw [this]
      exact h'

theorem nearestEven_mul (M : Int) (D : Nat) (hD : 0 < D) : nearestEven (M * (D : Int)) D = M := by
  have hD' : (0 : Int) < (D : Int) := by exact_mod_cast hD
  have h1 : (M * (D : Int)) % (D : Int) = 0 := Int.mul_emod_left M D
  have h2 : (M * (D : Int)) / (D : Int) = M := Int.mul_ediv_cancel M (ne_of_gt hD')
  unfold nearestEven
  rw [h1, h2]
  simp [hD']

/-- What `nearestEven` computes: an integer at most one half away from `num / den`. -/
theorem nearestEven_near (num : Int) (den : Nat) (hD : 0 < den) :
    |(num : ℚ) / (den : ℚ) - (nearestEven num den : ℚ)| ≤ 1 / 2 := by
  have hD' : (0 : Int) < (den : Int) := by exact_mod_cast hD
  have hq : (0 : ℚ) < (den : ℚ) := by exact_mod_cast hD
  have h0 : 0 ≤ num % (den : Int) := Int.emod_nonneg _ (ne_of_gt hD')
  have h1 : num % (den : Int) < (den : Int) := Int.emod_lt_of_pos _ hD'
  have h2 : (den : Int) * (num / (den : Int)) + num % (den : Int) = num := Int.ediv_add_emod num den
  unfold nearestEven
  generalize num % (den : Int) = r at *
  generalize num / (den : Int) = f at *
  have hnum : (num : ℚ) = (den : ℚ) * f + r := by rw [← h2]; push_cast; ring
  have hr0 : (0 : ℚ) ≤ r := by exact_mod_cast h0
  have hr1 : (r : ℚ) < den := by exact_mod_cast h1
  have key : (num : ℚ) / (den : ℚ) = f + r / den := by
    rw [hnum]; field_simp; ring
  rw [key, abs_le]
  split
  next h =>
    have h' : (2 : ℚ) * r < den := by exact_mod_cast h
    have : (r : ℚ) / den < 1 / 2 := by rw [div_lt_div_iff₀ hq (by norm_num)]; linarith
    have : (0 : ℚ) ≤ r / den := div_nonneg hr0 (le_of_lt hq)
    constructor <;> linarith
  next h =>
    have hle : (r : ℚ) / den ≤ 1 := by rw [div_le_one hq]; exact le_of_lt hr1
    split
    next g =>
      have g' : (den : ℚ) < 2 * r := by exact_mod_cast g
      have : 1 / 2 < (r : ℚ) / den := by rw [div_lt_div_iff₀ (by norm_num) hq]; linarith
      push_cast
      constructor <;> linarith
    next g =>
      have e : (2 : Int) * r = den := le_antisymm (not_lt.mp g) (not_lt.mp h)
      have e' : (2 : ℚ) * r = den := by exact_mod_cast e
      have : (r : ℚ) / den = 1 / 2 := by rw [div_eq_div_iff (ne_of_gt hq) (by norm_num)]; linarith
      split <;> push_cast <;> constructor <;> linarith

/-- A number whose quotient by the unit of its binade is an integer is a `double`: rounding
leaves it as it is. -/
theorem toDouble_exact (q : ℚ) (M : Int) (h : q = (M : ℚ) * (2 : ℚ) ^ (binade q - 52)) :
    toDouble q = q := by
  unfold toDouble
  split
  next h0 => exact h0.symm
  next h0 =>
    have e1 : (52 - binade q) = -(binade q - 52) := by ring
    rw [e1]
    generalize binade q - 52 = e at *
    have hsplit := two_zpow_split e
    have hden : (0 : ℚ) < q.den := by exact_mod_cast q.den_pos
    have hp1 : (0 : ℚ) < 2 ^ e.toNat := pow_pos (by norm_num) _
    have hp2 : (0 : ℚ) < 2 ^ (-e).toNat := pow_pos (by norm_num) _
    have hN : q.num * 2 ^ (-e).toNat = M * ((q.den * 2 ^ e.toNat : Nat) : Int) := by
      have : ((q.num * 2 ^ (-e).toNat : Int) : ℚ)
          = ((M * ((q.den * 2 ^ e.toNat : Nat) : Int) : Int) : ℚ) := by
        push_cast
        have hq : (q.num : ℚ) = q * q.den := (Rat.mul_den_eq_num q).symm
        have hq2 : q * q.den = (M : ℚ) * (2 ^ e.toNat / 2 ^ (-e).toNat) * q.den := by
          rw [← hsplit, ← h]
        rw [hq, hq2]
        field_simp
        ring
      exact_mod_cast this
    rw [hN, nearestEven_mul M _ (Nat.mul_pos q.den_pos (pow_pos (by norm_num) _))]
    conv_rhs => rw [h, hsplit]
    rw [mul_div_assoc]

/-- Every product of an integer below `2 ^ 53` in size and a power of two is a `double` (as long
as the exponent is in range, which the model does not bound). -/
theorem toDouble_of_significand (m : Int) (k : Int) (hm : |m| < 2 ^ 53) :
    toDouble ((m : ℚ) * (2 : ℚ) ^ k) = (m : ℚ) * (2 : ℚ) ^ k := by
  by_cases hm0 : m = 0
  · subst hm0
    simp [toDouble]
  have two : (2 : ℚ) ≠ 0 := by norm_num
  have hk : (0 : ℚ) < 2 ^ k := zpow_pos (by norm_num) k
  have hq : (m : ℚ) * (2 : ℚ) ^ k ≠ 0 :=
    mul_ne_zero (by exact_mod_cast hm0) (ne_of_gt hk)
  obtain ⟨b1, -⟩ := binade_spec _ hq
  have hm' : |(m : ℚ)| < 2 ^ (53 : Int) := by
    have : ((|m| : Int) : ℚ) < ((2 ^ 53 : Int) : ℚ) := by exact_mod_cast hm
    rw [Int.cast_abs] at this
    have e : (2 : ℚ) ^ (53 : Int) = ((2 ^ 53 : Int) : ℚ) := by norm_num
    rw [e]; exact this
  have hlt : (2 : ℚ) ^ binade ((m : ℚ) * (2 : ℚ) ^ k) < 2 ^ (53 + k) := by
    rw [zpow_add₀ two]
    calc (2 : ℚ) ^ binade ((m : ℚ) * (2 : ℚ) ^ k) ≤ |(m : ℚ) * (2 : ℚ) ^ k| := b1
      _ = |(m : ℚ)| * 2 ^ k := by rw [abs_mul, abs_of_pos hk]
      _ < 2 ^ (53 : Int) * 2 ^ k := mul_lt_mul_of_pos_right hm' hk
  have hb : binade ((m : ℚ) * (2 : ℚ) ^ k) < 53 + k :=
    (zpow_lt_zpow_iff_right₀ (by norm_num : (1 : ℚ) < 2)).mp hlt
  apply toDouble_exact _ (m * 2 ^ (k - (binade ((m : ℚ) * (2 : ℚ) ^ k) - 52)).toNat)
  generalize binade ((m : ℚ) * (2 : ℚ) ^ k) = b at *
  have hnn : (k - (b - 52)) = (((k - (b - 52)).toNat : Nat) : Int) := by omega
  have e : (2 : ℚ) ^ k = 2 ^ (k - (b - 52)) * 2 ^ (b - 52) := by
    rw [← zpow_add₀ two]; congr 1; ring
  push_cast
  rw [mul_assoc]
  congr 1
  conv_lhs => rw [e, hnn, zpow_natCast]

/-- When the multiplier is a power of two, such as 0.5, 1, 2 and 4, and the delta is below
`2 ^ 53` ms in size, the `double` arithmetic of line 133 gives the exact quotient truncated. -/
theorem waitMsDouble_pow_two (d : Int) (j : Int) (hd : |d| < 2 ^ 53) :
    waitMsDouble d ((2 : ℚ) ^ j) = truncToInt ((d : ℚ) / (2 : ℚ) ^ j) := by
  have hj : ¬ ((2 : ℚ) ^ j ≤ 0) := not_le.mpr (zpow_pos (by norm_num) j)
  have h1 : toDouble (d : ℚ) = d := by
    have := toDouble_of_significand d 0 hd
    simpa using this
  have h2 : (d : ℚ) / (2 : ℚ) ^ j = (d : ℚ) * (2 : ℚ) ^ (-j) := by
    rw [zpow_neg, div_eq_mul_inv]
  unfold waitMsDouble
  rw [if_neg hj, h1, h2, toDouble_of_significand d (-j) hd]

/-- The step with `double` arithmetic is the step with the exact quotient whenever the
multiplier is a power of two and the delta is below `2 ^ 53` ms in size. -/
theorem stepDouble_eq_step_of_pow_two (s : RunState) (j : Int) (hs : s.w.m_speed = (2 : ℚ) ^ j)
    (hd : |if s.i = 0 then s.evt.timestamp_ms else s.evt.timestamp_ms - s.last_ts| < 2 ^ 53) :
    stepDouble s = step s := by
  have hj : ¬ ((2 : ℚ) ^ j ≤ 0) := not_le.mpr (zpow_pos (by norm_num) j)
  obtain ⟨w, pc, i, total, last_ts, speed, waitMs, slept, toWait, out, ctlOut⟩ := s
  cases pc <;> try rfl
  simp only at hs
  simp only [stepDouble, step, stepAt.eq_9, hs, waitMsDouble_pow_two _ j hd, if_neg hj]

/-- What `toDouble` computes: a number at most half a unit of the binade of `q` away from `q`,
the unit being `2 ^ (binade q - 52)`. -/
theorem toDouble_near (q : ℚ) (hq : q ≠ 0) :
    |q - toDouble q| ≤ (2 : ℚ) ^ (binade q - 52) / 2 := by
  unfold toDouble
  rw [if_neg hq]
  have e1 : (52 - binade q) = -(binade q - 52) := by ring
  rw [e1]
  generalize binade q - 52 = e
  have hsplit := two_zpow_split e
  have hden : (0 : ℚ) < q.den := by exact_mod_cast q.den_pos
  have hp1 : (0 : ℚ) < 2 ^ e.toNat := pow_pos (by norm_num) _
  have hp2 : (0 : ℚ) < 2 ^ (-e).toNat := pow_pos (by norm_num) _
  have hpe : (0 : ℚ) < 2 ^ e := zpow_pos (by norm_num) e
  have hD : 0 < q.den * 2 ^ e.toNat := Nat.mul_pos q.den_pos (pow_pos (by norm_num) _)
  have near := nearestEven_near (q.num * 2 ^ (-e).toNat) (q.den * 2 ^ e.toNat) hD
  generalize nearestEven (q.num * 2 ^ (-e).toNat) (q.den * 2 ^ e.toNat) = R at near ⊢
  have hq2 : ((q.num * 2 ^ (-e).toNat : Int) : ℚ) / ((q.den * 2 ^ e.toNat : Nat) : ℚ)
      = q / 2 ^ e := by
    push_cast
    rw [hsplit]
    conv_rhs => rw [← Rat.num_div_den q]
    field_simp
  rw [hq2] at near
  have e2 : q - (R : ℚ) * 2 ^ e.toNat / 2 ^ (-e).toNat = (q / 2 ^ e - R) * 2 ^ e := by
    rw [mul_div_assoc, ← hsplit]
    field_simp
    ring
  rw [e2, abs_mul, abs_of_pos hpe]
  calc |q / 2 ^ e - (R : ℚ)| * 2 ^ e ≤ 1 / 2 * 2 ^ e :=
        mul_le_mul_of_nonneg_right near (le_of_lt hpe)
    _ = 2 ^ e / 2 := by ring

/-! ### The scheduled wait -/

theorem lastTsOk_step (events : List RecordedEvent) (s : RunState)
    (he : s.w.m_events = events) (h : lastTsOk events s) :
    (step s).w.m_events = events ∧ lastTsOk events (step s) := by
  obtain ⟨w, pc, i, total, last_ts, speed, waitMs, slept, toWait, out, ctlOut⟩ := s
  cases pc <;>
    simp only [step, stepAt.eq_1, stepAt.eq_2, stepAt.eq_3, stepAt.eq_4, stepAt.eq_5, stepAt.eq_6,
      stepAt.eq_7, stepAt.eq_8, stepAt.eq_9, stepAt.eq_10, stepAt.eq_11, stepAt.eq_12,
      stepAt.eq_13, stepAt.eq_14, stepAt.eq_15, stepAt.eq_16, stepAt.eq_17, stepAt.eq_18,
      stepAt.eq_19, stepAt.eq_20, stepAt.eq_21, stepAt.eq_22, stepAt.eq_23, stepAt.eq_24,
      stepAt.eq_25, stepAt.eq_26, stepAt.eq_27, stepAt.eq_28, stepAt.eq_29, stepAt.eq_30,
      stepAt.eq_31, stepAt.eq_32, RunState.goto, RunState.emit, RunState.evt, lastTsOk,
      Pc.phase] at h he ⊢ <;>
    (try split) <;> (try split) <;> simp_all [Pc.phase]

theorem call_frame (s : RunState) (c : Ctl) :
    (s.call c).pc = s.pc ∧ (s.call c).i = s.i ∧ (s.call c).total = s.total ∧
    (s.call c).last_ts = s.last_ts ∧ (s.call c).out = s.out ∧
    (s.call c).waitMs = s.waitMs ∧ (s.call c).slept = s.slept ∧
    (s.call c).toWait = s.toWait ∧ (s.call c).speed = s.speed ∧
    (s.call c).w.m_events = s.w.m_events ∧
    (s.call c).w.m_replayMouse = s.w.m_replayMouse ∧
    (s.call c).w.m_replayKeyboard = s.w.m_replayKeyboard := by
  cases c <;>
    simp [RunState.call, ReplayWorker.call, ReplayWorker.stopReplay, ReplayWorker.pauseReplay,
      ReplayWorker.resumeReplay, ReplayWorker.setSpeedFactor] <;>
    (try split) <;> simp

theorem call_speed_pos (s : RunState) (c : Ctl) (h : 0 < s.w.m_speed) :
    0 < (s.call c).w.m_speed := by
  cases c <;>
    simp [RunState.call, ReplayWorker.call, ReplayWorker.stopReplay, ReplayWorker.pauseReplay,
      ReplayWorker.resumeReplay, ReplayWorker.setSpeedFactor] <;>
    (try split) <;> simp_all

theorem step_speed (s : RunState) : (step s).w.m_speed = s.w.m_speed := by
  obtain ⟨w, pc, i, total, last_ts, speed, waitMs, slept, toWait, out, ctlOut⟩ := s
  cases pc <;> simp [step, RunState.goto, RunState.emit] <;> (try split) <;> (try split) <;> rfl

theorem lastTsOk_call (events : List RecordedEvent) (s : RunState) (c : Ctl)
    (h : lastTsOk events s) : lastTsOk events (s.call c) := by
  obtain ⟨hpc, hi, -, hl, -⟩ := call_frame s c
  unfold lastTsOk at h ⊢
  rw [hpc, hi, hl]
  exact h

theorem stepDouble_eq (s : RunState) :
    stepDouble s = { step s with waitMs := (stepDouble s).waitMs } := by
  obtain ⟨w, pc, i, total, last_ts, speed, waitMs, slept, toWait, out, ctlOut⟩ := s
  cases pc <;> rfl

theorem lastTsOk_stepDouble (events : List RecordedEvent) (s : RunState)
    (he : s.w.m_events = events) (h : lastTsOk events s) :
    (stepDouble s).w.m_events = events ∧ lastTsOk events (stepDouble s) := by
  have h1 := lastTsOk_step events s he h
  rw [stepDouble_eq]
  exact h1

theorem stepDouble_speed (s : RunState) : (stepDouble s).w.m_speed = s.w.m_speed := by
  rw [stepDouble_eq]
  exact step_speed s

theorem fetch_waitMsDouble (events : List RecordedEvent) (s : RunState) (hpc : s.pc = .fetch)
    (he : s.w.m_events = events) (h : lastTsOk events s) (hsp : 0 < s.w.m_speed) :
    (stepDouble s).waitMs
      = truncToInt (toDouble (toDouble (recordedDelta events s.i : ℚ) / s.w.m_speed)) := by
  have hno : ¬ s.w.m_speed ≤ 0 := not_le.mpr hsp
  simp only [lastTsOk, hpc, Pc.phase] at h
  simp only [stepDouble, hpc, waitMsDouble, RunState.evt, he, hno, if_false, recordedDelta]
  by_cases h0 : s.i = 0
  · simp [h0]
  · rcases h with h | h
    · exact absurd h h0
    · simp [h0, h]

theorem scheduledWaitsDouble_spec (events : List RecordedEvent) (sched : List Act)
    (s : RunState) (he : s.w.m_events = events) (h : lastTsOk events s)
    (hsp : 0 < s.w.m_speed) :
    ∀ x ∈ scheduledWaitsDouble sched s,
      0 < x.2.1 ∧
      x.2.2 = truncToInt (toDouble (toDouble (recordedDelta events x.1 : ℚ) / x.2.1)) := by
  induction sched generalizing s with
  | nil => simp [scheduledWaitsDouble]
  | cons a rest ih =>
    cases a with
    | tick =>
      intro x hx
      simp only [scheduledWaitsDouble, List.mem_append] at hx
      rcases hx with hx | hx
      · by_cases hpc : s.pc = .fetch
        · simp only [hpc, if_true, List.mem_singleton] at hx
          subst hx
          exact ⟨hsp, fetch_waitMsDouble events s hpc he h hsp⟩
        · simp [hpc] at hx
      · exact ih (stepDouble s) (lastTsOk_stepDouble events s he h).1
          (lastTsOk_stepDouble events s he h).2 (by rw [stepDouble_speed]; exact hsp) x hx
    | call c =>
      intro x hx
      simp only [scheduledWaitsDouble] at hx
      exact ih (s.call c) (by rw [(call_frame s c).2.2.2.2.2.2.2.2.2.1]; exact he)
        (lastTsOk_call events s c h) (call_speed_pos s c hsp) x hx

/-- C3: under every schedule of control calls, whenever the thread computes the wait of an
index `i` (lines 126 to 133) the value is the recorded delta of `i`, which is the timestamp of
event 0 for `i = 0` and the difference to the previous timestamp otherwise, divided by the
multiplier that `m_speed.load()` returns at that moment and truncated toward zero.  The
division is the one of the program: `delta` is converted to `double`, the quotient is rounded
to `double`, and the cast truncates it.  For the six events at 0, 5, 8, 40, 42 and 44 ms at
speed 1 the uninterrupted replay computes exactly the four waits 0, 5, 3 and 32 ms, sleeps 5, 3
and 32 ms, and reports four events. -/
theorem runLoop_scheduled_wait_in_double (w : ReplayWorker) (hsp : 0 < w.m_speed)
    (sched : List Act) :
    (∀ x ∈ scheduledWaitsDouble sched (RunState.start w),
      0 < x.2.1 ∧
      x.2.2 = truncToInt (toDouble (toDouble (recordedDelta w.m_events x.1 : ℚ) / x.2.1))) ∧
    scheduledWaitsDouble (ticks 120) (RunState.start sixEvents)
      = [(0, 1, 0), (1, 1, 5), (2, 1, 3), (3, 1, 32)] ∧
    (execDouble (ticks 120) (RunState.start sixEvents)).pc = .done ∧
    (execDouble (ticks 120) (RunState.start sixEvents)).out.filter Obs.isSleep
      = [.sleep 5, .sleep 3, .sleep 32] ∧
    (execDouble (ticks 120) (RunState.start sixEvents)).out.filter
        (fun o => o matches .replayProgress _ _)
      = [.replayProgress 1 4, .replayProgress 2 4, .replayProgress 3 4, .replayProgress 4 4] := by
  refine ⟨scheduledWaitsDouble_spec w.m_events sched (RunState.start w) rfl ?_ hsp, ?_⟩
  · simp [lastTsOk, RunState.start, Pc.phase]
  · decide!

/-- The theorem for C3 applied after `setSpeedFactor(0.1)` to moves recorded at 3, 10, 11 and
12 ms: the multiplier is the `double` nearest to one tenth, which is a little above it, the
exact quotients 3 / 0.1 and 7 / 0.1 are a little below 30 and 70 and round to the doubles 30 and
70, so the waits are 30 and 70 ms.  Applied to the four moves with a speed change to 2
arriving before the second wait is computed: the waits are 10 ms at speed 1 and then 5 ms at
speed 2. -/
theorem runLoop_scheduled_wait_in_double_witness :
    ((0 : ℚ) < tenthSpeed.m_speed ∧
      scheduledWaitsDouble (ticks 200) (RunState.start tenthSpeed)
        = [(0, oneTenth, 30), (1, oneTenth, 70)] ∧
      (execDouble (ticks 200) (RunState.start tenthSpeed)).pc = .done ∧
      ∀ x ∈ scheduledWaitsDouble (ticks 200) (RunState.start tenthSpeed),
        0 < x.2.1 ∧
        x.2.2
          = truncToInt (toDouble (toDouble (recordedDelta tenthSpeed.m_events x.1 : ℚ) / x.2.1))) ∧
    ((0 : ℚ) < fourMoves.m_speed ∧
      scheduledWaitsDouble (ticks 10 ++ [.call (.setSpeedFactor 2)] ++ ticks 60)
          (RunState.start fourMoves) = [(0, 1, 10), (1, 2, 5)] ∧
      ∀ x ∈ scheduledWaitsDouble (ticks 10 ++ [.call (.setSpeedFactor 2)] ++ ticks 60)
          (RunState.start fourMoves),
        0 < x.2.1 ∧
        x.2.2
          = truncToInt (toDouble (toDouble (recordedDelta fourMoves.m_events x.1 : ℚ) / x.2.1))) :=
  ⟨⟨by decide!, by decide!, by decide!,
      (runLoop_scheduled_wait_in_double tenthSpeed (by decide!) (ticks 200)).1⟩,
    ⟨by decide, by decide!,
      (runLoop_scheduled_wait_in_double fourMoves (by decide)
        (ticks 10 ++ [.call (.setSpeedFactor 2)] ++ ticks 60)).1⟩⟩

/-! ### No injection after an observed stop -/

theorem step_out (s : RunState) : (step s).out = s.out ++ s.emitted := by
  obtain ⟨w, pc, i, total, last_ts, speed, waitMs, slept, toWait, out, ctlOut⟩ := s
  cases pc <;> simp [RunState.emitted, step, RunState.goto, RunState.emit] <;>
    (try split) <;> (try split) <;> simp

theorem emitted_props (s : RunState) :
    (s.pc.isInject = false → ∀ o ∈ s.emitted, o.isInjection = false) ∧
    (s.pc.isInject = true → ∃ o, s.emitted = [o]) ∧
    (Obs.readStop true ∈ s.emitted → s.pc ≠ .idle ∧ s.w.m_stopRequested = true) ∧
    ((step s).pc.isInject = true →
      s.emitted = [.readStop false] ∧ s.w.m_stopRequested = false) ∧
    (s.pc ≠ .idle → (step s).w = s.w) ∧ (step s).pc ≠ .idle := by
  obtain ⟨w, pc, i, total, last_ts, speed, waitMs, slept, toWait, out, ctlOut⟩ := s
  cases pc <;> simp [RunState.emitted, step, RunState.goto, RunState.emit, Pc.isInject] <;>
    (try split) <;> (try split) <;> simp_all [Obs.isInjection, Pc.isInject]

theorem split_concat (pre post out : List Obs) (o x : Obs)
    (h : out ++ [x] = pre ++ o :: post) :
    (post = [] ∧ pre = out ∧ o = x) ∨
      ∃ post', post = post' ++ [x] ∧ out = pre ++ o :: post' := by
  rcases List.eq_nil_or_concat post with rfl | ⟨post', b, rfl⟩
  · left
    have := List.append_inj' h (by simp)
    simp_all
  · right
    have h' : out ++ [x] = (pre ++ o :: post') ++ [b] := by simp [h]
    have := List.append_inj' h' (by simp)
    simp_all

theorem guarded_concat (out : List Obs) (x : Obs) (h : Guarded out)
    (hx : x.isInjection = true →
      out.getLast? = some (.readStop false) ∧ Obs.readStop true ∉ out) :
    Guarded (out ++ [x]) := by
  intro pre o post heq ho
  rcases split_concat pre post out o x heq with ⟨-, rfl, rfl⟩ | ⟨post', -, rfl⟩
  · exact hx ho
  · exact h pre o post' rfl ho

theorem guarded_append_clean (out l : List Obs) (h : Guarded out)
    (hl : ∀ o ∈ l, o.isInjection = false) : Guarded (out ++ l) := by
  induction l generalizing out with
  | nil => simpa using h
  | cons a l ih =>
    have : out ++ a :: l = (out ++ [a]) ++ l := by simp
    rw [this]
    refine ih _ (guarded_concat out a h ?_) (fun o ho => hl o (List.mem_cons_of_mem _ ho))
    intro ha
    rw [hl a (List.mem_cons_self _ _)] at ha
    cases ha

theorem call_stop_mono (s : RunState) (c : Ctl) (h : s.w.m_stopRequested = true) :
    (s.call c).w.m_stopRequested = true := by
  cases c <;>
    simp [RunState.call, ReplayWorker.call, ReplayWorker.stopReplay, ReplayWorker.pauseReplay,
      ReplayWorker.resumeReplay, ReplayWorker.setSpeedFactor] <;>
    (try split) <;> simp_all

theorem stopInv_start (w : ReplayWorker) : StopInv (RunState.start w) := by
  refine ⟨?_, ?_, ?_, ?_⟩
  · intro pre o post h
    simp [RunState.start] at h
  · simp [RunState.start]
  · simp [RunState.start, Pc.isInject]
  · simp [RunState.start]

theorem stopInv_step (s : RunState) (h : StopInv s) : StopInv (step s) := by
  obtain ⟨hg, hc, hd, he⟩ := h
  obtain ⟨p1, p2, p3, p4, p5, p6⟩ := emitted_props s
  refine ⟨?_, ?_, ?_, fun h => absurd h p6⟩
  · rw [step_out]
    cases hinj : s.pc.isInject
    · exact guarded_append_clean _ _ hg (p1 hinj)
    · obtain ⟨o, ho⟩ := p2 hinj
      rw [ho]
      exact guarded_concat _ _ hg (fun _ => hd hinj)
  · rw [step_out, List.mem_append]
    intro hmem
    have hne : s.pc ≠ .idle := by
      intro hidle
      rcases hmem with hmem | hmem
      · rw [he hidle] at hmem
        cases hmem
      · exact (p3 hmem).1 hidle
    rw [p5 hne]
    rcases hmem with hmem | hmem
    · exact hc hmem
    · exact (p3 hmem).2
  · intro hinj
    obtain ⟨hem, hstop⟩ := p4 hinj
    have hno : Obs.readStop true ∉ s.out := by
      intro hmem
      rw [hc hmem] at hstop
      cases hstop
    rw [step_out, hem]
    refine ⟨by simp, ?_⟩
    simp [hno]

theorem stopInv_call (s : RunState) (c : Ctl) (h : StopInv s) : StopInv (s.call c) := by
  obtain ⟨hg, hc, hd, he⟩ := h
  obtain ⟨hpc, -, -, -, hout, -⟩ := call_frame s c
  refine ⟨?_, ?_, ?_, ?_⟩
  · rw [hout]; exact hg
  · rw [hout]; exact fun hmem => call_stop_mono s c (hc hmem)
  · rw [hout, hpc]; exact hd
  · rw [hout, hpc]; exact he

theorem stopInv_exec (sched : List Act) (s : RunState) (h : StopInv s) :
    StopInv (exec sched s) := by
  induction sched generalizing s with
  | nil => exact h
  | cons a rest ih =>
    cases a with
    | tick => exact ih _ (stopInv_step s h)
    | call c => exact ih _ (stopInv_call s c h)

/-- C8: in every execution of the replay thread, under every schedule of control calls, each
call of an injection primitive (`SetCursorPos`, `SendInput`) comes immediately after a load of
the stop flag that returned false, and no injection primitive is called after a load of the
stop flag that returned true. -/
theorem injection_only_after_clear_stop_check (w : ReplayWorker) (sched : List Act)
    (pre post : List Obs) (o : Obs)
    (hout : (exec sched (RunState.start w)).out = pre ++ o :: post)
    (ho : o.isInjection = true) :
    pre.getLast? = some (.readStop false) ∧ Obs.readStop true ∉ pre :=
  (stopInv_exec sched (RunState.start w) (stopInv_start w)).1 pre o post hout ho

/-- The theorem for C8 applied to the first injection of the uninterrupted replay of the four
moves: `SetCursorPos(1, 0)` is the fifteenth action of the thread. -/
theorem injection_only_after_clear_stop_check_witness :
    ∃ pre post : List Obs,
      (exec (ticks 60) (RunState.start fourMoves)).out = pre ++ Obs.setCursorPos 1 0 :: post ∧
      (Obs.setCursorPos 1 0).isInjection = true ∧
      pre.getLast? = some (.readStop false) ∧ Obs.readStop true ∉ pre :=
  ⟨(exec (ticks 60) (RunState.start fourMoves)).out.take 14,
    (exec (ticks 60) (RunState.start fourMoves)).out.drop 15, by decide!, rfl,
    injection_only_after_clear_stop_check fourMoves (ticks 60)
      ((exec (ticks 60) (RunState.start fourMoves)).out.take 14)
      ((exec (ticks 60) (RunState.start fourMoves)).out.drop 15) (Obs.setCursorPos 1 0)
      (by decide!) rfl⟩

/-! ### Stop during the timed wait -/

theorem stopped_step (s : RunState) (r : Nat) (hs : s.w.m_stopRequested = true)
    (hr : s.pc.stopRank = some r) :
    (step s).w = s.w ∧
    (∃ r', (step s).pc.stopRank = some r' ∧ r' ≤ r - 1) ∧
    (∀ o ∈ s.emitted, o.exitOnly) ∧
    (s.emitted.filter Obs.isSleep).length + (step s).pc.sleepBudget ≤ s.pc.sleepBudget ∧
    (s.pc = .finalRead → s.emitted = [.readStop true, .stateChanged "stopped", .finished]) ∧
    (s.pc = .done → s.emitted = []) ∧
    ((step s).pc = .done → s.pc = .finalRead ∨ s.pc = .done) := by
  obtain ⟨w, pc, i, total, last_ts, speed, waitMs, slept, toWait, out, ctlOut⟩ := s
  cases pc <;> simp [Pc.stopRank] at hr <;> subst hr <;>
    simp [RunState.emitted, step, RunState.goto, RunState.emit, Pc.stopRank, Pc.sleepBudget,
      Obs.exitOnly] <;>
    (try split) <;>
    simp_all [Obs.isInjection, Obs.isSleep, Pc.stopRank, Pc.sleepBudget, Obs.exitOnly]

theorem stopped_exec (base : List Obs) (budget : Nat) (sched : List Act) (s : RunState)
    (r : Nat) (suf : List Obs) (hs : s.w.m_stopRequested = true)
    (hr : s.pc.stopRank = some r) (hout : s.out = base ++ suf)
    (hclean : ∀ o ∈ suf, o.exitOnly)
    (hb : (suf.filter Obs.isSleep).length + s.pc.sleepBudget ≤ budget)
    (hd : s.pc = .done →
      ∃ m, suf = m ++ [.readStop true, .stateChanged "stopped", .finished]) :
    ∃ r' suf', (exec sched s).pc.stopRank = some r' ∧ r' ≤ r - sched.count .tick ∧
      (exec sched s).out = base ++ suf' ∧ (∀ o ∈ suf', o.exitOnly) ∧
      (suf'.filter Obs.isSleep).length ≤ budget ∧
      ((exec sched s).pc = .done →
        ∃ m, suf' = m ++ [.readStop true, .stateChanged "stopped", .finished]) := by
  induction sched generalizing s r suf with
  | nil => exact ⟨r, suf, hr, by simp, hout, hclean, by omega, hd⟩
  | cons a rest ih =>
    cases a with
    | tick =>
      obtain ⟨q1, ⟨r1, hr1, hle⟩, q3, q4, q5, q6, q7⟩ := stopped_step s r hs hr
      obtain ⟨r', suf', h1, h2, h3, h4, h5, h6⟩ := ih (step s) r1 (suf ++ s.emitted)
        (by rw [q1]; exact hs) hr1 (by rw [step_out, hout, List.append_assoc])
        (by
          intro o ho
          rcases List.mem_append.mp ho with ho | ho
          · exact hclean o ho
          · exact q3 o ho)
        (by rw [List.filter_append, List.length_append]; omega)
        (by
          intro hdone
          rcases q7 hdone with hf | hdn
          · exact ⟨suf, by rw [q5 hf]⟩
          · obtain ⟨m, hm⟩ := hd hdn
            exact ⟨m, by rw [q6 hdn, List.append_nil, hm]⟩)
      refine ⟨r', suf', h1, ?_, h3, h4, h5, h6⟩
      simp only [exec, RunState.act, List.count_cons_self] at h2 ⊢
      omega
    | call c =>
      obtain ⟨hpc, -, -, -, hout', -⟩ := call_frame s c
      obtain ⟨r', suf', h1, h2, h3, h4, h5, h6⟩ := ih (s.call c) r suf (call_stop_mono s c hs)
        (by rw [hpc]; exact hr) (by rw [hout', hout]) hclean (by rw [hpc]; exact hb)
        (by rw [hpc]; exact hd)
      refine ⟨r', suf', h1, ?_, h3, h4, h5, h6⟩
      have hcnt : (Act.call c :: rest).count .tick = rest.count .tick := by
        rw [List.count_cons_of_ne]
        simp
      rw [hcnt]
      exact h2

/-- C9: take any worker, however long its scheduled wait, and any execution that has brought
the thread into the slice loop of the timed wait.  If `stopReplay` is called there, then
whatever is scheduled afterwards the thread executes no event (no injection primitive and no
progress report), begins no further slice unless the loads of line 139 were already past or
under way, in which case it begins exactly that one, waits at most 50 ms in it, and after at
most five more steps of its own has left the loop and reported the state "stopped" followed
by `finished`. -/
theorem stop_during_wait_exits_within_one_slice (w : ReplayWorker) (before after : List Act)
    (hwait : (exec before (RunState.start w)).pc.inTimedWait = true) :
    ∃ suf, (exec (before ++ .call .stopReplay :: after) (RunState.start w)).out
        = (exec before (RunState.start w)).out ++ suf ∧
      (∀ o ∈ suf, o.isInjection = false ∧ (∀ c t, o ≠ .replayProgress c t) ∧
        (∀ ms, o = .sleep ms → ms ≤ 50)) ∧
      (suf.filter Obs.isSleep).length ≤ (exec before (RunState.start w)).pc.sleepBudget ∧
      (suf.filter Obs.isSleep).length ≤ 1 ∧
      (5 ≤ after.count .tick →
        (exec (before ++ .call .stopReplay :: after) (RunState.start w)).pc = .done ∧
        ∃ m, suf = m ++ [.readStop true, .stateChanged "stopped", .finished]) := by
  obtain ⟨hpc, -, -, -, hout, -⟩ := call_frame (exec before (RunState.start w)) .stopReplay
  have hrank : ∃ r, (exec before (RunState.start w)).pc.stopRank = some r ∧ r ≤ 5 := by
    revert hwait
    cases (exec before (RunState.start w)).pc <;> simp [Pc.inTimedWait, Pc.stopRank]
  obtain ⟨r, hr, hr5⟩ := hrank
  obtain ⟨r', suf', h1, h2, h3, h4, h5, h6⟩ :=
    stopped_exec (exec before (RunState.start w)).out
      (exec before (RunState.start w)).pc.sleepBudget after
      ((exec before (RunState.start w)).call .stopReplay) r []
      (by simp [RunState.call, ReplayWorker.call, ReplayWorker.stopReplay])
      (by rw [hpc]; exact hr) (by rw [hout, List.append_nil]) (by simp)
      (by rw [hpc]; simp)
      (by
        rw [hpc]
        intro hdone
        rw [hdone] at hwait
        cases hwait)
  have hexec : exec (before ++ .call .stopReplay :: after) (RunState.start w)
      = exec after ((exec before (RunState.start w)).call .stopReplay) := by
    rw [exec_append]; rfl
  refine ⟨suf', by rw [hexec, h3], h4, h5, ?_, ?_⟩
  · refine le_trans h5 ?_
    cases (exec before (RunState.start w)).pc <;> simp [Pc.sleepBudget]
  · intro h5t
    have hzero : r' = 0 := by omega
    have hdone : (exec after ((exec before (RunState.start w)).call .stopReplay)).pc = .done := by
      rw [hzero] at h1
      revert h1
      cases (exec after ((exec before (RunState.start w)).call .stopReplay)).pc <;>
        simp [Pc.stopRank]
    rw [hexec]
    exact ⟨hdone, h6 hdone⟩

/-- The theorem for C9 applied to a recorded delta of 10 s at speed 1: nine steps take the
thread through the first 50 ms slice, stop is called, and five steps later the thread has
returned with no further slice. -/
theorem stop_during_wait_exits_within_one_slice_witness :
    (exec (ticks 9) (RunState.start tenSecondWait)).pc.inTimedWait = true ∧
    (exec (ticks 9) (RunState.start tenSecondWait)).waitMs = 10000 ∧
    (exec (ticks 9) (RunState.start tenSecondWait)).pc.sleepBudget = 0 ∧
    ∃ suf, (exec (ticks 9 ++ .call .stopReplay :: ticks 5) (RunState.start tenSecondWait)).out
        = (exec (ticks 9) (RunState.start tenSecondWait)).out ++ suf ∧
      (∀ o ∈ suf, o.isInjection = false ∧ (∀ c t, o ≠ .replayProgress c t) ∧
        (∀ ms, o = .sleep ms → ms ≤ 50)) ∧
      (suf.filter Obs.isSleep).length
        ≤ (exec (ticks 9) (RunState.start tenSecondWait)).pc.sleepBudget ∧
      (suf.filter Obs.isSleep).length ≤ 1 ∧
      (5 ≤ (ticks 5).count .tick →
        (exec (ticks 9 ++ .call .stopReplay :: ticks 5) (RunState.start tenSecondWait)).pc
          = .done ∧
        ∃ m, suf = m ++ [.readStop true, .stateChanged "stopped", .finished]) :=
  ⟨by decide!, by decide!, by decide!,
    stop_during_wait_exits_within_one_slice tenSecondWait (ticks 9) (ticks 5) (by decide!)⟩

/-! ### Pause during the timed wait -/

/-- C1 (the code departs from the claim): on four moves, a pause that arrives while the thread
is in the wait for event 0 makes the `continue` of line 159 run the increment of the loop, so
event 0 is never injected: after the resume the thread injects event 1 only, reports progress
for index 2 only and finishes. -/
theorem runLoop_pause_in_wait_skips_event :
    (exec (ticks 9) (RunState.start fourMoves)).pc = .slStopB ∧
    (exec (ticks 9) (RunState.start fourMoves)).i = 0 ∧
    (exec (ticks 9) (RunState.start fourMoves)).out.getLast? = some (.sleep 10) ∧
    (exec pauseInWaitThenResume (RunState.start fourMoves)).pc = .done ∧
    injections (exec pauseInWaitThenResume (RunState.start fourMoves)).out
      = injectionOf (moveAt 2 20) ∧
    Obs.setCursorPos 1 0 ∉ (exec pauseInWaitThenResume (RunState.start fourMoves)).out ∧
    (exec pauseInWaitThenResume (RunState.start fourMoves)).out.filter
        (fun o => o matches .replayProgress _ _ || o matches .stateChanged _)
      = [.replayProgress 2 2, .stateChanged "finished"] := by
  decide!

/-! ### The throttle of mouse moves -/

theorem acceptedMoves_concat (l : List MouseEventData) (d : MouseEventData) :
    (l ++ [d]).filter (fun d => d.type = WM_MOUSEMOVE)
      = l.filter (fun d => d.type = WM_MOUSEMOVE) ++ (if d.type = WM_MOUSEMOVE then [d] else []) := by
  simp [List.filter_append, List.filter_cons]

theorem throttleInv_new : ThrottleInv CaptureEngine.new := by
  simp [ThrottleInv, CaptureEngine.new, CaptureEngine.acceptedMoves, CaptureEngine.acceptedMouse]

theorem throttleInv_handle (e : CaptureEngine) (ev : EngineEvent) (hev : ev.fitsDword)
    (h : ThrottleInv e) : ThrottleInv (e.handle ev) := by
  cases ev with
  | key nCode wParam lParam now =>
    cases lParam with
    | none => exact h
    | some vk =>
      simp only [CaptureEngine.handle, CaptureEngine.keyboardProc]
      split
      · exact h
      · exact h
  | dispatchKey =>
    simp only [CaptureEngine.handle, CaptureEngine.dispatchKey]
    split
    · exact h
    · exact h
  | dispatchMouse =>
    simp only [CaptureEngine.handle, CaptureEngine.dispatchMouse]
    split
    · exact h
    · rename_i data rest hq
      simp only [ThrottleInv, CaptureEngine.acceptedMoves, CaptureEngine.acceptedMouse, hq] at h ⊢
      simpa using h
  | mouse nCode wParam lParam now =>
    cases lParam with
    | none => exact h
    | some pos =>
      simp only [CaptureEngine.handle, CaptureEngine.mouseProc]
      by_cases hn : 0 ≤ nCode
      · simp only [hn, if_true]
        by_cases hmv : wParam = WM_MOUSEMOVE
        · simp only [hmv, if_true]
          split
          · exact h
          · rename_i hfar
            obtain ⟨hc, hl⟩ := h
            simp only [ThrottleInv, CaptureEngine.acceptedMoves, CaptureEngine.acceptedMouse,
              CaptureEngine.enqueueMouseEvent] at hc hl ⊢
            rw [← List.append_assoc, acceptedMoves_concat]
            simp only [WM_MOUSEMOVE, Nat.reduceMod, if_true]
            refine ⟨?_, ?_⟩
            · rw [List.chain'_append]
              refine ⟨hc, List.chain'_singleton _, ?_⟩
              intro m hm d hd
              simp only [List.head?_cons, Option.mem_def, Option.some.injEq] at hd
              subst hd
              obtain ⟨hp, ht⟩ := hl m hm
              simp only [hp, ht, msecsTo, not_and_or, not_lt] at hfar
              exact hfar
            · intro m hm
              simp at hm
              subst hm
              exact ⟨rfl, rfl⟩
        · simp only [hmv, if_false]
          obtain ⟨hc, hl⟩ := h
          have hty : ¬ wParam % 4294967296 = WM_MOUSEMOVE := by
            simp only [EngineEvent.fitsDword] at hev
            rw [Nat.mod_eq_of_lt hev]
            exact hmv
          simp only [ThrottleInv, CaptureEngine.acceptedMoves, CaptureEngine.acceptedMouse,
            CaptureEngine.enqueueMouseEvent] at hc hl ⊢
          rw [← List.append_assoc, acceptedMoves_concat]
          simp only [hty, if_false, List.append_nil]
          exact ⟨hc, hl⟩
      · simp only [hn, if_false]
        exact h

theorem throttleInv_run (evs : List EngineEvent) (e : CaptureEngine)
    (hev : ∀ ev ∈ evs, ev.fitsDword) (h : ThrottleInv e) : ThrottleInv (e.run evs) := by
  induction evs generalizing e with
  | nil => exact h
  | cons ev rest ih =>
    exact ih (e.handle ev) (fun x hx => hev x (List.mem_cons_of_mem _ hx))
      (throttleInv_handle e ev (hev ev (List.mem_cons_self _ _)) h)

/-- C6: start from a new engine and let any sequence of hook callbacks and worker deliveries
happen, the message identifiers fitting a `DWORD`.  Then any two consecutive accepted
mouse-move samples are at Manhattan distance at least 3 or were captured at least 5 ms
apart. -/
theorem throttle_invariant (evs : List EngineEvent) (hev : ∀ ev ∈ evs, ev.fitsDword) :
    List.Chain'
      (fun a b => 3 ≤ manhattanLength (pointSub b.pos a.pos) ∨ 5 ≤ b.time - a.time)
      (CaptureEngine.new.run evs).acceptedMoves :=
  (throttleInv_run evs CaptureEngine.new hev throttleInv_new).1

/-- The theorem for C6 applied to four moves and a click: the move 1 ms after the first and
one pixel away is dropped, the others are accepted. -/
theorem throttle_invariant_witness :
    (∀ ev ∈ moveBurst, ev.fitsDword) ∧
    (CaptureEngine.new.run moveBurst).acceptedMoves =
      [ { pos := (100, 100), type := 512, time := 1000 },
        { pos := (101, 102), type := 512, time := 1002 },
        { pos := (101, 102), type := 512, time := 1008 } ] ∧
    List.Chain'
      (fun a b => 3 ≤ manhattanLength (pointSub b.pos a.pos) ∨ 5 ≤ b.time - a.time)
      (CaptureEngine.new.run moveBurst).acceptedMoves :=
  ⟨by simp [moveBurst, EngineEvent.fitsDword], by decide, throttle_invariant moveBurst
    (by simp [moveBurst, EngineEvent.fitsDword])⟩

/-! ### The throttle decision of one callback -/

theorem freshInv_new : FreshInv CaptureEngine.new := by
  intro _
  exact ⟨rfl, rfl⟩

theorem freshInv_handle (e : CaptureEngine) (ev : EngineEvent) (hev : ev.fitsDword)
    (h : FreshInv e) : FreshInv (e.handle ev) := by
  cases ev with
  | key nCode wParam lParam now =>
    cases lParam with
    | none => exact h
    | some vk =>
      simp only [CaptureEngine.handle, CaptureEngine.keyboardProc]
      split
      · exact h
      · exact h
  | dispatchKey =>
    simp only [CaptureEngine.handle, CaptureEngine.dispatchKey]
    split
    · exact h
    · exact h
  | dispatchMouse =>
    simp only [CaptureEngine.handle, CaptureEngine.dispatchMouse]
    split
    · exact h
    · rename_i data rest hq
      simp only [FreshInv, CaptureEngine.acceptedMoves, CaptureEngine.acceptedMouse, hq] at h ⊢
      simpa using h
  | mouse nCode wParam lParam now =>
    cases lParam with
    | none => exact h
    | some pos =>
      simp only [CaptureEngine.handle, CaptureEngine.mouseProc]
      by_cases hn : 0 ≤ nCode
      · simp only [hn, if_true]
        by_cases hmv : wParam = WM_MOUSEMOVE
        · simp only [hmv, if_true]
          split
          · exact h
          · intro hnil
            simp only [CaptureEngine.acceptedMoves, CaptureEngine.acceptedMouse,
              CaptureEngine.enqueueMouseEvent] at hnil
            rw [← List.append_assoc, acceptedMoves_concat] at hnil
            simp [WM_MOUSEMOVE] at hnil
        · simp only [hmv, if_false]
          have hty : ¬ wParam % 4294967296 = WM_MOUSEMOVE := by
            simp only [EngineEvent.fitsDword] at hev
            rw [Nat.mod_eq_of_lt hev]
            exact hmv
          simp only [FreshInv, CaptureEngine.acceptedMoves, CaptureEngine.acceptedMouse,
            CaptureEngine.enqueueMouseEvent] at h ⊢
          rw [← List.append_assoc, acceptedMoves_concat]
          simp only [hty, if_false, List.append_nil]
          exact h
      · simp only [hn, if_false]
        exact h

theorem freshInv_run (evs : List EngineEvent) (e : CaptureEngine)
    (hev : ∀ ev ∈ evs, ev.fitsDword) (h : FreshInv e) : FreshInv (e.run evs) := by
  induction evs generalizing e with
  | nil => exact h
  | cons ev rest ih =>
    exact ih (e.handle ev) (fun x hx => hev x (List.mem_cons_of_mem _ hx))
      (freshInv_handle e ev (hev ev (List.mem_cons_self _ _)) h)

theorem throttle_fields (evs : List EngineEvent) (hev : ∀ ev ∈ evs, ev.fitsDword) :
    (CaptureEngine.new.run evs).lastMousePos_ = (CaptureEngine.new.run evs).lastAcceptedPos ∧
    ∀ now, msecsTo (CaptureEngine.new.run evs).lastMouseTime_ now
      = (CaptureEngine.new.run evs).sinceLastAccepted now := by
  have h1 := (throttleInv_run evs CaptureEngine.new hev throttleInv_new).2
  have h2 := freshInv_run evs CaptureEngine.new hev freshInv_new
  unfold CaptureEngine.lastAcceptedPos CaptureEngine.sinceLastAccepted
  cases hl : (CaptureEngine.new.run evs).acceptedMoves.getLast? with
  | none =>
    obtain ⟨p, t⟩ := h2 (List.getLast?_eq_none_iff.mp hl)
    simp [p, t, msecsTo]
  | some m =>
    obtain ⟨p, t⟩ := h1 m hl
    simp [p, t, msecsTo]

/-- C7 (the claim fails before the first accepted move): an engine whose only callback so far
was a press of the left button at (500, 500) has accepted no move, so there is no last
accepted move for a sample to be near.  A move at (1, 0) is dropped all the same: the
throttle compares it with the default point (0, 0) and the unset time that the constructor
left behind. -/
theorem move_dropped_with_no_accepted_move :
    (CaptureEngine.new.run clickOnly).acceptedMoves = [] ∧
    (CaptureEngine.new.run clickOnly).mouseQueue_
      = [{ pos := (500, 500), type := 513, time := 1000 }] ∧
    (CaptureEngine.new.run clickOnly).mouseProc 0 WM_MOUSEMOVE (some (1, 0)) 1001
      = CaptureEngine.new.run clickOnly := by
  decide

/-- C7 as amended: let the engine be in any state reached from a new engine, and let
`mouseProc` be called with `nCode >= 0` and a non-null `lParam`.  The two throttle fields hold
the position of the last accepted move and the time elapsed since it, and, as long as no move
has been accepted, the default point (0, 0) and an elapsed time of 0 ms.  The sample is
dropped, the engine staying as it is, exactly when it is a move at Manhattan distance under 3
from that position and with that elapsed time under 5 ms; every other sample is appended to
the mouse queue.  The two fields become the position and time of the sample when it is an
accepted move and stay as they are otherwise. -/
theorem mouseProc_drops_iff_near_last_accepted_or_default (evs : List EngineEvent)
    (hev : ∀ ev ∈ evs, ev.fitsDword) (nCode : Int) (wParam : Nat) (pos : Int × Int)
    (now : Int) (hn : 0 ≤ nCode) :
    ((CaptureEngine.new.run evs).lastMousePos_ = (CaptureEngine.new.run evs).lastAcceptedPos ∧
      ∀ t, msecsTo (CaptureEngine.new.run evs).lastMouseTime_ t
        = (CaptureEngine.new.run evs).sinceLastAccepted t) ∧
    ((wParam = WM_MOUSEMOVE ∧
        manhattanLength (pointSub pos (CaptureEngine.new.run evs).lastAcceptedPos) < 3 ∧
        (CaptureEngine.new.run evs).sinceLastAccepted now < 5) →
      (CaptureEngine.new.run evs).mouseProc nCode wParam (some pos) now
        = CaptureEngine.new.run evs) ∧
    (¬ (wParam = WM_MOUSEMOVE ∧
        manhattanLength (pointSub pos (CaptureEngine.new.run evs).lastAcceptedPos) < 3 ∧
        (CaptureEngine.new.run evs).sinceLastAccepted now < 5) →
      (CaptureEngine.new.run evs).mouseProc nCode wParam (some pos) now
        = { CaptureEngine.new.run evs with
            mouseQueue_ := (CaptureEngine.new.run evs).mouseQueue_
              ++ [{ pos := pos, type := wParam % 4294967296, time := now }],
            lastMousePos_ :=
              if wParam = WM_MOUSEMOVE then pos
              else (CaptureEngine.new.run evs).lastMousePos_,
            lastMouseTime_ :=
              if wParam = WM_MOUSEMOVE then some now
              else (CaptureEngine.new.run evs).lastMouseTime_ }) := by
  obtain ⟨hp, ht⟩ := throttle_fields evs hev
  refine ⟨⟨hp, ht⟩, ?_, ?_⟩
  · rintro ⟨hmv, hd⟩
    rw [← hp, ← ht now] at hd
    simp [CaptureEngine.mouseProc, hn, hmv, hd]
  · intro hnot
    rw [← hp, ← ht now] at hnot
    by_cases hmv : wParam = WM_MOUSEMOVE
    · have hd : ¬ (manhattanLength (pointSub pos (CaptureEngine.new.run evs).lastMousePos_) < 3 ∧
          msecsTo (CaptureEngine.new.run evs).lastMouseTime_ now < 5) :=
        fun hd => hnot ⟨hmv, hd⟩
      simp only [CaptureEngine.mouseProc, hn, hmv, if_true, hd, if_false,
        CaptureEngine.enqueueMouseEvent]
    · simp only [CaptureEngine.mouseProc, hn, hmv, if_true, if_false,
        CaptureEngine.enqueueMouseEvent]

/-- The theorem for C7 applied after the burst of `moveBurst`, where the last accepted move is
at (101, 102) at 1008 ms: a move one pixel away 2 ms later is dropped and a left-button press
at the same place and time is enqueued; and applied after `clickOnly`, where no move has been
accepted: a move at (1, 0) is dropped and a move at (3, 0) is enqueued. -/
theorem mouseProc_drops_iff_near_last_accepted_or_default_witness :
    (CaptureEngine.new.run moveBurst).lastAcceptedPos = (101, 102) ∧
    (CaptureEngine.new.run moveBurst).sinceLastAccepted 1010 = 2 ∧
    (CaptureEngine.new.run moveBurst).mouseProc 0 512 (some (101, 103)) 1010
      = CaptureEngine.new.run moveBurst ∧
    ((CaptureEngine.new.run moveBurst).mouseProc 0 513 (some (101, 103)) 1010).mouseQueue_
      = (CaptureEngine.new.run moveBurst).mouseQueue_
          ++ [{ pos := (101, 103), type := 513, time := 1010 }] ∧
    (CaptureEngine.new.run clickOnly).lastAcceptedPos = (0, 0) ∧
    (CaptureEngine.new.run clickOnly).mouseProc 0 512 (some (1, 0)) 1001
      = CaptureEngine.new.run clickOnly ∧
    ((CaptureEngine.new.run clickOnly).mouseProc 0 512 (some (3, 0)) 1001).mouseQueue_
      = [{ pos := (500, 500), type := 513, time := 1000 },
         { pos := (3, 0), type := 512, time := 1001 }] :=
  ⟨by decide, by decide,
    (mouseProc_drops_iff_near_last_accepted_or_default moveBurst
      (by simp [moveBurst, EngineEvent.fitsDword]) 0 512 (101, 103) 1010 (le_refl 0)).2.1
      (by decide),
    congrArg CaptureEngine.mouseQueue_
      ((mouseProc_drops_iff_near_last_accepted_or_default moveBurst
        (by simp [moveBurst, EngineEvent.fitsDword]) 0 513 (101, 103) 1010 (le_refl 0)).2.2
        (by decide)),
    by decide,
    (mouseProc_drops_iff_near_last_accepted_or_default clickOnly
      (by simp [clickOnly, EngineEvent.fitsDword]) 0 512 (1, 0) 1001 (le_refl 0)).2.1
      (by decide),
    congrArg CaptureEngine.mouseQueue_
      ((mouseProc_drops_iff_near_last_accepted_or_default clickOnly
        (by simp [clickOnly, EngineEvent.fitsDword]) 0 512 (3, 0) 1001 (le_refl 0)).2.2
        (by decide))⟩

/-! ### Failure of a hook installation -/

/-- C4 (the code departs from the claim): on a new engine, when the mouse hook installs and the
keyboard hook does not, `start` returns false with the engine not running and no worker
thread, but the mouse hook stays installed in the system and its handle stays in the engine;
a later `stop` returns at once because the engine is not running, so it does not remove the
hook either. -/
theorem start_failure_leaves_mouse_hook_installed :
    (CaptureEngine.new.start { installed := [], nextHandle := 1 } true false).1 = false ∧
    (CaptureEngine.new.start { installed := [], nextHandle := 1 } true false).2.1.running_
      = false ∧
    (CaptureEngine.new.start { installed := [], nextHandle := 1 } true false).2.1.workerThread_
      = false ∧
    (CaptureEngine.new.start { installed := [], nextHandle := 1 } true false).2.1.mouseHook_
      = some 1 ∧
    (CaptureEngine.new.start { installed := [], nextHandle := 1 } true false).2.2.installed
      = [(1, HookId.WH_MOUSE_LL)] ∧
    ((CaptureEngine.new.start { installed := [], nextHandle := 1 } true false).2.1.stop
        (CaptureEngine.new.start { installed := [], nextHandle := 1 } true false).2.2).2.installed
      = [(1, HookId.WH_MOUSE_LL)] := by
  decide

/-! ### Rejected speed factors -/

/-- C5 (the code departs from the claim): `setSpeedMultiplier` stores every factor in the
manager, and only the worker rejects a factor that is not positive.  With a replay running at
speed 2, the factor -1 leaves the worker at 2 and sets the manager to -1. -/
theorem setSpeedMultiplier_stores_rejected_factor :
    (replayingAtDoubleSpeed.setSpeedMultiplier (-1)).m_speed = -1 ∧
    (replayingAtDoubleSpeed.setSpeedMultiplier (-1)).m_worker = replayingAtDoubleSpeed.m_worker ∧
    replayingAtDoubleSpeed.m_speed = 2 ∧
    replayingAtDoubleSpeed.m_worker.map ReplayWorker.m_speed = some 2 ∧
    (∀ (m : ReplayManager) (f : ℚ), (m.setSpeedMultiplier f).m_speed = f) ∧
    (∀ (m : ReplayManager) (f : ℚ),
      (m.setSpeedMultiplier f).m_worker.map ReplayWorker.m_speed
        = m.m_worker.map (fun w => if f > 0 then f else w.m_speed)) := by
  refine ⟨by decide!, by decide!, by decide!, by decide!, ?_, ?_⟩
  · intro m f
    unfold ReplayManager.setSpeedMultiplier
    split <;> rfl
  · intro m f
    unfold ReplayManager.setSpeedMultiplier
    split
    · rename_i w hw
      simp only [hw, Option.map_some', ReplayWorker.setSpeedFactor]
      split <;> rfl
    · rename_i hw
      simp [hw]

/-! ### Pause and resume outside their state -/

/-- C10 as stated fails: on a worker whose queued `startReplay` has not run yet (Idle),
`pauseReplay` sets the pause flag and emits "paused"; and on a worker in the loop whose stop
flag is set (Stopping), `pauseReplay` sets the pause flag as well. -/
theorem pauseReplay_acts_outside_running :
    (RunState.start fourMoves).controlState = .Idle ∧
    ((RunState.start fourMoves).call .pauseReplay).w.m_paused = true ∧
    (RunState.start fourMoves).w.m_paused = false ∧
    ((RunState.start fourMoves).call .pauseReplay).ctlOut = ["paused"] ∧
    (exec (ticks 3 ++ [.call .stopReplay]) (RunState.start fourMoves)).controlState
      = .Stopping ∧
    (exec (ticks 3 ++ [.call .stopReplay]) (RunState.start fourMoves)).w.m_paused = false ∧
    ((exec (ticks 3 ++ [.call .stopReplay]) (RunState.start fourMoves)).call
      .pauseReplay).w.m_paused = true := by
  decide!

/-- C10 amended: `pauseReplay` sets the pause flag and `resumeReplay` clears it, and neither
touches anything else of the worker nor looks at the stop flag or at the thread; so
`pauseReplay` changes nothing, signals included, when the pause flag is already set, and
`resumeReplay` changes nothing when it is clear.  From Running, `pauseReplay` leads to Paused
and a following `resumeReplay` restores the worker and leads back to Running; in Paused
`pauseReplay` changes nothing and in Running `resumeReplay` changes nothing.  The methods of
the manager change nothing when it has no worker. -/
theorem pause_resume_flag_only (s : RunState) (m : ReplayManager) :
    (s.call .pauseReplay).w = { s.w with m_paused := true } ∧
    (s.call .resumeReplay).w = { s.w with m_paused := false } ∧
    (s.call .pauseReplay).pc = s.pc ∧ (s.call .resumeReplay).pc = s.pc ∧
    (s.w.m_paused = true → s.call .pauseReplay = s) ∧
    (s.w.m_paused = false → s.call .resumeReplay = s) ∧
    (s.controlState = .Running →
      (s.call .pauseReplay).controlState = .Paused ∧
      ((s.call .pauseReplay).call .resumeReplay).w = s.w ∧
      ((s.call .pauseReplay).call .resumeReplay).controlState = .Running ∧
      s.call .resumeReplay = s) ∧
    (s.controlState = .Paused →
      s.call .pauseReplay = s ∧ (s.call .resumeReplay).controlState = .Running) ∧
    (m.m_worker = none → m.pauseReplay = m ∧ m.resumeReplay = m) := by
  obtain ⟨w, pc, i, total, last_ts, speed, waitMs, slept, toWait, out, ctlOut⟩ := s
  obtain ⟨ev, rm, rk, st, pa, sp⟩ := w
  refine ⟨?_, ?_, ?_, ?_, ?_, ?_, ?_, ?_, ?_⟩
  · cases pa <;> simp [RunState.call, ReplayWorker.call, ReplayWorker.pauseReplay]
  · cases pa <;> simp [RunState.call, ReplayWorker.call, ReplayWorker.resumeReplay]
  · rfl
  · rfl
  · intro h
    simp only at h
    subst h
    simp [RunState.call, ReplayWorker.call, ReplayWorker.pauseReplay]
  · intro h
    simp only at h
    subst h
    simp [RunState.call, ReplayWorker.call, ReplayWorker.resumeReplay]
  · intro h
    have hk : pc ≠ .idle ∧ pc ≠ .done ∧ st = false ∧ pa = false := by
      simp only [RunState.controlState] at h
      by_cases h1 : pc = .idle <;> by_cases h2 : pc = .done <;> cases st <;> cases pa <;>
        simp_all
    obtain ⟨h1, h2, rfl, rfl⟩ := hk
    simp [RunState.controlState, RunState.call, ReplayWorker.call,
      ReplayWorker.pauseReplay, ReplayWorker.resumeReplay, h1, h2]
  · intro h
    have hk : pc ≠ .idle ∧ pc ≠ .done ∧ st = false ∧ pa = true := by
      simp only [RunState.controlState] at h
      by_cases h1 : pc = .idle <;> by_cases h2 : pc = .done <;> cases st <;> cases pa <;>
        simp_all
    obtain ⟨h1, h2, rfl, rfl⟩ := hk
    simp [RunState.controlState, RunState.call, ReplayWorker.call,
      ReplayWorker.pauseReplay, ReplayWorker.resumeReplay, h1, h2]
  · intro h
    simp [ReplayManager.pauseReplay, ReplayManager.resumeReplay, h]

/-- The theorem for C10 applied to the four moves three steps into the loop, a Running
worker: pause leads to Paused and resume back to Running with the worker restored. -/
theorem pause_resume_flag_only_witness :
    (exec (ticks 3) (RunState.start fourMoves)).controlState = .Running ∧
    ((exec (ticks 3) (RunState.start fourMoves)).call .pauseReplay).controlState = .Paused ∧
    (((exec (ticks 3) (RunState.start fourMoves)).call .pauseReplay).call .resumeReplay).w
      = (exec (ticks 3) (RunState.start fourMoves)).w ∧
    (((exec (ticks 3) (RunState.start fourMoves)).call .pauseReplay).call
      .resumeReplay).controlState = .Running ∧
    (exec (ticks 3) (RunState.start fourMoves)).call .resumeReplay
      = exec (ticks 3) (RunState.start fourMoves) :=
  ⟨by decide!,
    (pause_resume_flag_only (exec (ticks 3) (RunState.start fourMoves)) ReplayManager.new).2.2.2.2.2.2.1
      (by decide!)⟩

/-! ### Loading a replay file -/

/-- C11: given the parsed document of a readable file, `loadReplayFile` returns false when the
document is not an object, when its root has no member "events", and when that member is not an
array; in every other case it returns true and the stored sequence is that array, element by
element as the replay thread reads it. -/
theorem loadReplayFile_accepts_exactly_events_array (m : ReplayManager) (doc : JsonValue) :
    ((doc.isObject = false ∨ doc.contains "events" = false ∨
        (doc.value "events").isArray = false) →
      (m.loadReplayFile (.document doc)).1 = false) ∧
    (¬ (doc.isObject = false ∨ doc.contains "events" = false ∨
        (doc.value "events").isArray = false) →
      (m.loadReplayFile (.document doc)).1 = true ∧
      (m.loadReplayFile (.document doc)).2.m_events
        = (doc.value "events").toArray.map JsonValue.toRecordedEvent) := by
  cases h1 : doc.isObject <;> cases h2 : doc.contains "events" <;>
    cases h3 : (doc.value "events").isArray <;>
    simp [ReplayManager.loadReplayFile, h1, h2, h3]

/-- The theorem for C11 applied to a recording of two clicks and a key press, which loads, and
to a document whose root is an array, which does not. -/
theorem loadReplayFile_accepts_exactly_events_array_witness :
    (ReplayManager.new.loadReplayFile (.document twoClicksDocument)).1 = true ∧
    (ReplayManager.new.loadReplayFile (.document twoClicksDocument)).2.m_events
      = [ { category := "mouse", x := 10, y := 20, type := 513, vkCode := 0, keyDown := false,
            timestamp_ms := 100 },
          { category := "mouse", x := 10, y := 20, type := 514, vkCode := 0, keyDown := false,
            timestamp_ms := 180 },
          { category := "keyboard", x := 0, y := 0, type := 0, vkCode := 65, keyDown := true,
            timestamp_ms := 300 } ] ∧
    (ReplayManager.new.loadReplayFile (.document (.array []))).1 = false :=
  ⟨((loadReplayFile_accepts_exactly_events_array ReplayManager.new twoClicksDocument).2
      (by decide)).1,
    by decide!,
    (loadReplayFile_accepts_exactly_events_array ReplayManager.new (.array [])).1
      (Or.inl rfl)⟩

/-- C12: on every failure path of `loadReplayFile`, which are a file that cannot be opened, a
parse error, a root that is not an object and a missing or non-array "events", the call returns
false and the manager is exactly as before: stored sequence, toggles, speed, worker and
replaying flag. -/
theorem loadReplayFile_failure_keeps_manager (m : ReplayManager) :
    m.loadReplayFile .cannotOpen = (false, m) ∧
    m.loadReplayFile .parseError = (false, m) ∧
    (∀ doc : JsonValue, doc.isObject = false → m.loadReplayFile (.document doc) = (false, m)) ∧
    (∀ doc : JsonValue,
      doc.contains "events" = false ∨ (doc.value "events").isArray = false →
      m.loadReplayFile (.document doc) = (false, m)) ∧
    (∀ file : LoadInput, (m.loadReplayFile file).1 = false → (m.loadReplayFile file).2 = m) := by
  refine ⟨rfl, rfl, ?_, ?_, ?_⟩
  · intro doc h
    simp [ReplayManager.loadReplayFile, h]
  · intro doc h
    cases h1 : doc.isObject <;> rcases h with h | h <;>
      simp [ReplayManager.loadReplayFile, h1, h]
  · intro file h
    cases file with
    | cannotOpen => rfl
    | parseError => rfl
    | document doc =>
      revert h
      cases h1 : doc.isObject <;> cases h2 : doc.contains "events" <;>
        cases h3 : (doc.value "events").isArray <;>
        simp [ReplayManager.loadReplayFile, h1, h2, h3]

/-- The theorem for C12 applied to a manager whose replay is running at speed 2 and a document
whose "events" member is a string. -/
theorem loadReplayFile_failure_keeps_manager_witness :
    (replayingAtDoubleSpeed.loadReplayFile
        (.document (.object [("events", .string "none")]))).1 = false ∧
    (replayingAtDoubleSpeed.loadReplayFile
        (.document (.object [("events", .string "none")]))).2 = replayingAtDoubleSpeed :=
  ⟨by decide,
    (loadReplayFile_failure_keeps_manager replayingAtDoubleSpeed).2.2.2.2
      (.document (.object [("events", .string "none")])) (by decide)⟩

/-- C15: a call of `loadReplayFile`, successful or not, leaves the worker of the manager as it
is: event sequence, toggles, speed, stop flag and pause flag; it leaves the replaying flag,
the toggles and the speed of the manager as they are too. -/
theorem loadReplayFile_keeps_worker (m : ReplayManager) (file : LoadInput) :
    (m.loadReplayFile file).2.m_worker = m.m_worker ∧
    (∀ w : ReplayWorker, m.m_worker = some w →
      ∃ w', (m.loadReplayFile file).2.m_worker = some w' ∧
        w'.m_events = w.m_events ∧ w'.m_replayMouse = w.m_replayMouse ∧
        w'.m_replayKeyboard = w.m_replayKeyboard ∧ w'.m_speed = w.m_speed ∧
        w'.m_stopRequested = w.m_stopRequested ∧ w'.m_paused = w.m_paused) ∧
    (m.loadReplayFile file).2.m_replaying = m.m_replaying ∧
    (m.loadReplayFile file).2.m_replayMouse = m.m_replayMouse ∧
    (m.loadReplayFile file).2.m_replayKeyboard = m.m_replayKeyboard ∧
    (m.loadReplayFile file).2.m_speed = m.m_speed := by
  have hw : (m.loadReplayFile file).2.m_worker = m.m_worker ∧
      (m.loadReplayFile file).2.m_replaying = m.m_replaying ∧
      (m.loadReplayFile file).2.m_replayMouse = m.m_replayMouse ∧
      (m.loadReplayFile file).2.m_replayKeyboard = m.m_replayKeyboard ∧
      (m.loadReplayFile file).2.m_speed = m.m_speed := by
    cases file with
    | cannotOpen => exact ⟨rfl, rfl, rfl, rfl, rfl⟩
    | parseError => exact ⟨rfl, rfl, rfl, rfl, rfl⟩
    | document doc =>
      cases h1 : doc.isObject <;> cases h2 : doc.contains "events" <;>
        cases h3 : (doc.value "events").isArray <;>
        simp [ReplayManager.loadReplayFile, h1, h2, h3]
  refine ⟨hw.1, ?_, hw.2⟩
  intro w h
  exact ⟨w, by rw [hw.1, h], rfl, rfl, rfl, rfl, rfl, rfl⟩

/-- The theorem for C15 applied to a manager whose replay of four moves is running at speed 2
while the recording of two clicks is loaded: the load succeeds, the stored sequence changes
and the worker keeps its four moves. -/
theorem loadReplayFile_keeps_worker_witness :
    (replayingAtDoubleSpeed.loadReplayFile (.document twoClicksDocument)).1 = true ∧
    (replayingAtDoubleSpeed.loadReplayFile (.document twoClicksDocument)).2.m_events
      ≠ replayingAtDoubleSpeed.m_events ∧
    ∃ w', (replayingAtDoubleSpeed.loadReplayFile (.document twoClicksDocument)).2.m_worker
        = some w' ∧
      w'.m_events = (fourMoves.setSpeedFactor 2).m_events ∧
      w'.m_replayMouse = (fourMoves.setSpeedFactor 2).m_replayMouse ∧
      w'.m_replayKeyboard = (fourMoves.setSpeedFactor 2).m_replayKeyboard ∧
      w'.m_speed = (fourMoves.setSpeedFactor 2).m_speed ∧
      w'.m_stopRequested = (fourMoves.setSpeedFactor 2).m_stopRequested ∧
      w'.m_paused = (fourMoves.setSpeedFactor 2).m_paused :=
  ⟨by decide!, by decide!,
    (loadReplayFile_keeps_worker replayingAtDoubleSpeed (.document twoClicksDocument)).2.1
      (fourMoves.setSpeedFactor 2) rfl⟩

/-! ### Starting and stopping a replay -/

/-- C13: `startReplay` returns false and leaves the manager as it is when a replay is already
running or the stored sequence is empty; in every other state it returns true, and the manager
is then replaying with a worker attached. -/
theorem startReplay_refuses_or_attaches_worker (m : ReplayManager) (ended : WaitEnd) :
    (m.m_replaying = true ∨ m.m_events = [] → m.startReplay ended = (false, m)) ∧
    (¬ (m.m_replaying = true ∨ m.m_events = []) →
      (m.startReplay ended).1 = true ∧ (m.startReplay ended).2.isReplaying = true ∧
      (m.startReplay ended).2.m_worker.isSome = true) := by
  cases h1 : m.m_replaying <;> cases h2 : m.m_events <;>
    simp [ReplayManager.startReplay, ReplayManager.isReplaying, h1, h2]

/-- The theorem for C13 applied to a manager whose replay is running, which refuses, and to a
new manager that has loaded the two clicks, which starts. -/
theorem startReplay_refuses_or_attaches_worker_witness :
    replayingAtDoubleSpeed.startReplay .finished = (false, replayingAtDoubleSpeed) ∧
    ((ReplayManager.new.loadReplayFile (.document twoClicksDocument)).2.startReplay
      .finished).1 = true ∧
    ((ReplayManager.new.loadReplayFile (.document twoClicksDocument)).2.startReplay
      .finished).2.isReplaying = true ∧
    ((ReplayManager.new.loadReplayFile (.document twoClicksDocument)).2.startReplay
      .finished).2.m_worker.isSome = true :=
  ⟨(startReplay_refuses_or_attaches_worker replayingAtDoubleSpeed .finished).1 (Or.inl rfl),
    (startReplay_refuses_or_attaches_worker
      (ReplayManager.new.loadReplayFile (.document twoClicksDocument)).2 .finished).2
      (by decide!)⟩

/-- C14 (the code departs from the claim): a successful `startReplay` gives the new worker the
stored sequence and the two toggles of the manager, but the speed goes through
`setSpeedFactor`, which rejects a value that is not positive; the manager can hold such a
value because `setSpeedMultiplier` stores every factor.  After loading the two clicks and
`setSpeedMultiplier(-1)`, `startReplay` succeeds with a worker at speed 1 while the manager
holds -1.  Whenever the speed of the manager is positive the worker gets it. -/
theorem startReplay_worker_speed_differs_after_rejected_factor :
    loadedThenNegativeSpeed.m_speed = -1 ∧
    (loadedThenNegativeSpeed.startReplay .finished).1 = true ∧
    (loadedThenNegativeSpeed.startReplay .finished).2.m_worker.map ReplayWorker.m_speed
      = some 1 ∧
    (∀ (m : ReplayManager) (ended : WaitEnd), (m.startReplay ended).1 = true →
      ∃ w, (m.startReplay ended).2.m_worker = some w ∧
        w.m_events = m.m_events ∧ w.m_replayMouse = m.m_replayMouse ∧
        w.m_replayKeyboard = m.m_replayKeyboard ∧
        w.m_speed = (if m.m_speed > 0 then m.m_speed else 1) ∧
        w.m_stopRequested = false ∧ w.m_paused = false) := by
  refine ⟨by decide!, by decide!, by decide!, ?_⟩
  intro m ended h
  have hm : ∀ m' : ReplayManager, m'.m_events = m.m_events → m'.m_replayMouse = m.m_replayMouse →
      m'.m_replayKeyboard = m.m_replayKeyboard → m'.m_speed = m.m_speed →
      ∃ w, some (((ReplayWorker.new.setEvents m'.m_events).setOptions m'.m_replayMouse
          m'.m_replayKeyboard).setSpeedFactor m'.m_speed) = some w ∧
        w.m_events = m.m_events ∧ w.m_replayMouse = m.m_replayMouse ∧
        w.m_replayKeyboard = m.m_replayKeyboard ∧
        w.m_speed = (if m.m_speed > 0 then m.m_speed else 1) ∧
        w.m_stopRequested = false ∧ w.m_paused = false := by
    intro m' e1 e2 e3 e4
    refine ⟨_, rfl, ?_⟩
    rw [e1, e2, e3, e4]
    by_cases hs : m.m_speed > 0 <;>
      simp [ReplayWorker.setSpeedFactor, ReplayWorker.setOptions, ReplayWorker.setEvents,
        ReplayWorker.new, hs]
  revert h
  cases h1 : m.m_replaying <;> cases h2 : m.m_events.isEmpty <;>
    simp only [ReplayManager.startReplay, h1, h2, if_true, if_false, Bool.false_eq_true,
      false_implies, forall_true_left, implies_true]
  cases h3 : m.m_worker
  · exact hm _ (by simp [ReplayManager.stopReplay, h3]) (by simp [ReplayManager.stopReplay, h3])
      (by simp [ReplayManager.stopReplay, h3]) (by simp [ReplayManager.stopReplay, h3])
  · exact hm _ (by simp [ReplayManager.stopReplay, h3]) (by simp [ReplayManager.stopReplay, h3])
      (by simp [ReplayManager.stopReplay, h3]) (by simp [ReplayManager.stopReplay, h3])

/-- C16: `stopReplay` changes nothing when the manager has no worker.  When it has one, the
call requests stop on it, and whichever of the signal `finished` and the 3000 ms timer ends
the wait, on return the manager holds no worker and `isReplaying()` is false; the stored
sequence, the toggles and the speed are as before. -/
theorem stopReplay_releases_worker (m : ReplayManager) (ended : WaitEnd) :
    (m.m_worker = none → m.stopReplay ended = (m, none)) ∧
    (∀ w : ReplayWorker, m.m_worker = some w →
      (m.stopReplay ended).2 = some w.stopReplay.1 ∧
      w.stopReplay.1.m_stopRequested = true ∧
      (m.stopReplay ended).1.m_worker = none ∧
      (m.stopReplay ended).1.isReplaying = false ∧
      (m.stopReplay ended).1 = { m with m_worker := none, m_replaying := false }) := by
  refine ⟨?_, ?_⟩
  · intro h
    simp [ReplayManager.stopReplay, h]
  · intro w h
    simp [ReplayManager.stopReplay, h, ReplayManager.isReplaying, ReplayWorker.stopReplay]

/-- The theorem for C16 applied to a new manager, on which the call changes nothing, and to a
manager whose replay is running, with each of the two ends of the wait. -/
theorem stopReplay_releases_worker_witness :
    ReplayManager.new.stopReplay .timeout = (ReplayManager.new, none) ∧
    (replayingAtDoubleSpeed.stopReplay .timeout).1.m_worker = none ∧
    (replayingAtDoubleSpeed.stopReplay .timeout).1.isReplaying = false ∧
    (replayingAtDoubleSpeed.stopReplay .finished).1.m_worker = none ∧
    (replayingAtDoubleSpeed.stopReplay .finished).1.isReplaying = false :=
  ⟨(stopReplay_releases_worker ReplayManager.new .timeout).1 rfl,
    ((stopReplay_releases_worker replayingAtDoubleSpeed .timeout).2
      (fourMoves.setSpeedFactor 2) rfl).2.2.1,
    ((stopReplay_releases_worker replayingAtDoubleSpeed .timeout).2
      (fourMoves.setSpeedFactor 2) rfl).2.2.2.1,
    ((stopReplay_releases_worker replayingAtDoubleSpeed .finished).2
      (fourMoves.setSpeedFactor 2) rfl).2.2.1,
    ((stopReplay_releases_worker replayingAtDoubleSpeed .finished).2
      (fourMoves.setSpeedFactor 2) rfl).2.2.2.1⟩

/-! ### Delivery order of the capture engine -/

theorem engine_step_conserves (s : EngineRun) :
    s.step.e.mouseEventCaptured ++ s.step.mouseInHand ++ s.step.e.mouseQueue_
      = s.e.mouseEventCaptured ++ s.mouseInHand ++ s.e.mouseQueue_ ∧
    s.step.e.keyEventCaptured ++ s.step.keyInHand ++ s.step.e.keyQueue_
      = s.e.keyEventCaptured ++ s.keyInHand ++ s.e.keyQueue_ := by
  obtain ⟨e, pc⟩ := s
  cases pc <;> simp only [EngineRun.step, EngineRun.mouseInHand, EngineRun.keyInHand]
  · split <;> simp [EngineRun.mouseInHand, EngineRun.keyInHand]
  · split <;> rename_i h <;> simp [EngineRun.mouseInHand, EngineRun.keyInHand, h]
  · simp
  · split <;> rename_i h <;> simp [EngineRun.mouseInHand, EngineRun.keyInHand, h]
  · simp
  · simp

theorem engine_run_conserves (acts : List QueueAct) (s : EngineRun) :
    (EngineRun.run acts s).e.mouseEventCaptured ++ (EngineRun.run acts s).mouseInHand
        ++ (EngineRun.run acts s).e.mouseQueue_
      = s.e.mouseEventCaptured ++ s.mouseInHand ++ s.e.mouseQueue_ ++ enqueuedMouse acts ∧
    (EngineRun.run acts s).e.keyEventCaptured ++ (EngineRun.run acts s).keyInHand
        ++ (EngineRun.run acts s).e.keyQueue_
      = s.e.keyEventCaptured ++ s.keyInHand ++ s.e.keyQueue_ ++ enqueuedKey acts := by
  induction acts generalizing s with
  | nil => simp [EngineRun.run, enqueuedMouse, enqueuedKey]
  | cons a rest ih =>
    obtain ⟨h1, h2⟩ := ih (s.act a)
    rw [EngineRun.run, h1, h2]
    cases a with
    | tick =>
      obtain ⟨c1, c2⟩ := engine_step_conserves s
      simp only [EngineRun.act, enqueuedMouse, enqueuedKey]
      rw [c1, c2]
      exact ⟨rfl, rfl⟩
    | enqueueMouse data =>
      simp [EngineRun.act, enqueuedMouse, enqueuedKey, CaptureEngine.enqueueMouseEvent,
        EngineRun.mouseInHand, EngineRun.keyInHand]
    | enqueueKey data =>
      simp [EngineRun.act, enqueuedMouse, enqueuedKey, CaptureEngine.enqueueKeyEvent,
        EngineRun.mouseInHand, EngineRun.keyInHand]
    | clearRunning =>
      simp [EngineRun.act, enqueuedMouse, enqueuedKey, EngineRun.mouseInHand,
        EngineRun.keyInHand]

/-- C19: start from an engine that has just been started and take any interleaving of steps
of `workerLoop`, calls of `enqueueMouseEvent` and `enqueueKeyEvent`, and the store that ends
the loop.  The mouse samples delivered through `mouseEventCaptured`, followed by the sample
in the hands of the worker and the samples still queued, are exactly the enqueued mouse
samples in enqueue order, so the delivered ones are a prefix of the enqueued ones, each
delivered once; the same holds for key samples and `keyEventCaptured`. -/
theorem delivery_is_prefix_of_enqueued (acts : List QueueAct) :
    (EngineRun.run acts EngineRun.started).e.mouseEventCaptured
        ++ (EngineRun.run acts EngineRun.started).mouseInHand
        ++ (EngineRun.run acts EngineRun.started).e.mouseQueue_ = enqueuedMouse acts ∧
    (EngineRun.run acts EngineRun.started).e.mouseEventCaptured <+: enqueuedMouse acts ∧
    (EngineRun.run acts EngineRun.started).e.keyEventCaptured
        ++ (EngineRun.run acts EngineRun.started).keyInHand
        ++ (EngineRun.run acts EngineRun.started).e.keyQueue_ = enqueuedKey acts ∧
    (EngineRun.run acts EngineRun.started).e.keyEventCaptured <+: enqueuedKey acts := by
  obtain ⟨h1, h2⟩ := engine_run_conserves acts EngineRun.started
  have e1 : (EngineRun.run acts EngineRun.started).e.mouseEventCaptured
        ++ (EngineRun.run acts EngineRun.started).mouseInHand
        ++ (EngineRun.run acts EngineRun.started).e.mouseQueue_ = enqueuedMouse acts := by
    rw [h1]; simp [EngineRun.started, CaptureEngine.new, EngineRun.mouseInHand]
  have e2 : (EngineRun.run acts EngineRun.started).e.keyEventCaptured
        ++ (EngineRun.run acts EngineRun.started).keyInHand
        ++ (EngineRun.run acts EngineRun.started).e.keyQueue_ = enqueuedKey acts := by
    rw [h2]; simp [EngineRun.started, CaptureEngine.new, EngineRun.keyInHand]
  refine ⟨e1, ?_, e2, ?_⟩
  · rw [← e1, List.append_assoc]
    exact List.prefix_append _ _
  · rw [← e2, List.append_assoc]
    exact List.prefix_append _ _

/-- The theorem for C19 applied to `enqueueWhileDelivering`: both mouse samples and the key
sample are delivered, in enqueue order. -/
theorem delivery_is_prefix_of_enqueued_witness :
    (EngineRun.run enqueueWhileDelivering EngineRun.started).e.mouseEventCaptured
      = [ { pos := (1, 1), type := 512, time := 10 }, { pos := (5, 5), type := 513, time := 11 } ] ∧
    (EngineRun.run enqueueWhileDelivering EngineRun.started).e.keyEventCaptured
      = [ { vkCode := 65, keyDown := true, time := 12 } ] ∧
    (EngineRun.run enqueueWhileDelivering EngineRun.started).e.mouseEventCaptured
      <+: enqueuedMouse enqueueWhileDelivering :=
  ⟨by decide, by decide, (delivery_is_prefix_of_enqueued enqueueWhileDelivering).2.1⟩

/-! ### The final state of the loop -/

theorem step_inside_loop (s : RunState) (h1 : s.pc ≠ .idle) (h2 : s.pc ≠ .finalRead)
    (h3 : s.pc ≠ .done) :
    (step s).pc ≠ .done ∧ (step s).pc ≠ .idle ∧ (step s).w = s.w ∧
    Obs.finished ∉ s.emitted ∧ ∀ st, Obs.stateChanged st ∉ s.emitted := by
  obtain ⟨w, pc, i, total, last_ts, speed, waitMs, slept, toWait, out, ctlOut⟩ := s
  cases pc <;> simp at h1 h2 h3 <;>
    simp [RunState.emitted, step, RunState.goto, RunState.emit] <;>
    (try split) <;> (try split) <;> simp

theorem step_finalRead (s : RunState) (h : s.pc = .finalRead) :
    (step s).pc = .done ∧
    (step s).out = s.out ++ [.readStop s.w.m_stopRequested,
      .stateChanged (if s.w.m_stopRequested then "stopped" else "finished"), .finished] := by
  obtain ⟨w, pc, i, total, last_ts, speed, waitMs, slept, toWait, out, ctlOut⟩ := s
  simp only at h
  subst h
  cases hst : w.m_stopRequested <;> simp [step, hst]

theorem exec_done (sched : List Act) (s : RunState) (h : s.pc = .done) :
    (exec sched s).pc = .done ∧ (exec sched s).out = s.out ∧
    stopRequestedInLoop sched s = false := by
  induction sched generalizing s with
  | nil => exact ⟨h, rfl, rfl⟩
  | cons a rest ih =>
    cases a with
    | tick =>
      have hs : step s = s := by simp [step, h]
      simp only [exec, RunState.act, stopRequestedInLoop, hs]
      exact ih s h
    | call c =>
      obtain ⟨hpc, -, -, -, hout, -⟩ := call_frame s c
      obtain ⟨i1, i2, i3⟩ := ih (s.call c) (by rw [hpc]; exact h)
      simp only [exec, RunState.act, stopRequestedInLoop]
      refine ⟨i1, by rw [i2, hout], ?_⟩
      simp [i3, h]

theorem call_stop_value (s : RunState) (c : Ctl) :
    (s.call c).w.m_stopRequested = (s.w.m_stopRequested || decide (c = .stopReplay)) := by
  cases c <;>
    simp [RunState.call, ReplayWorker.call, ReplayWorker.stopReplay, ReplayWorker.pauseReplay,
      ReplayWorker.resumeReplay, ReplayWorker.setSpeedFactor] <;>
    (try split) <;> simp

theorem final_state_from_loop (sched : List Act) (s : RunState) (h1 : s.pc ≠ .idle)
    (h3 : s.pc ≠ .done) (hdone : (exec sched s).pc = .done) :
    ∃ mid, (exec sched s).out = s.out ++ mid ++
        [.readStop (s.w.m_stopRequested || stopRequestedInLoop sched s),
          .stateChanged (if (s.w.m_stopRequested || stopRequestedInLoop sched s) = true
            then "stopped" else "finished"),
          .finished] ∧
      Obs.finished ∉ mid ∧ ∀ st, Obs.stateChanged st ∉ mid := by
  induction sched generalizing s with
  | nil => exact absurd hdone h3
  | cons a rest ih =>
    cases a with
    | tick =>
      simp only [exec, RunState.act, stopRequestedInLoop] at hdone ⊢
      by_cases h2 : s.pc = .finalRead
      · obtain ⟨f1, f2⟩ := step_finalRead s h2
        obtain ⟨d1, d2, d3⟩ := exec_done rest (step s) f1
        refine ⟨[], ?_, by simp, by simp⟩
        rw [d2, f2]
        simp [d3]
      · obtain ⟨q1, q2, q3, q4, q5⟩ := step_inside_loop s h1 h2 h3
        obtain ⟨mid, hm, hf, hst⟩ := ih (step s) q2 q1 hdone
        refine ⟨s.emitted ++ mid, ?_, ?_, ?_⟩
        · rw [hm, step_out, q3]
          simp
        · simp [q4, hf]
        · intro st
          simp [q5 st, hst st]
    | call c =>
      simp only [exec, RunState.act, stopRequestedInLoop] at hdone ⊢
      obtain ⟨hpc, -, -, -, hout, -⟩ := call_frame s c
      obtain ⟨mid, hm, hf, hst⟩ := ih (s.call c) (by rw [hpc]; exact h1) (by rw [hpc]; exact h3)
        hdone
      refine ⟨mid, ?_, hf, hst⟩
      rw [hm, hout, call_stop_value]
      simp [h1, h3, Bool.or_assoc]

theorem final_state_from_start (sched : List Act) (s : RunState) (hidle : s.pc = .idle)
    (hout : s.out = []) (hne : s.w.m_events ≠ []) (hdone : (exec sched s).pc = .done) :
    ∃ mid, (exec sched s).out = mid ++
        [.readStop (stopRequestedInLoop sched s),
          .stateChanged (if stopRequestedInLoop sched s = true then "stopped" else "finished"),
          .finished] ∧
      Obs.finished ∉ mid ∧ ∀ st, Obs.stateChanged st ∉ mid := by
  induction sched generalizing s with
  | nil => rw [exec, hidle] at hdone; cases hdone
  | cons a rest ih =>
    cases a with
    | tick =>
      simp only [exec, RunState.act, stopRequestedInLoop] at hdone ⊢
      have hemp : s.w.m_events.isEmpty = false := by
        cases h : s.w.m_events with
        | nil => exact absurd h hne
        | cons a l => rfl
      have hs : (step s).pc = .forTest ∧ (step s).out = [] ∧
          (step s).w.m_stopRequested = false := by
        simp [step, hidle, hemp, hout]
      obtain ⟨mid, hm, hf, hst⟩ := final_state_from_loop rest (step s) (by rw [hs.1]; simp)
        (by rw [hs.1]; simp) hdone
      refine ⟨mid, ?_, hf, hst⟩
      rw [hm, hs.2.1, hs.2.2]
      simp
    | call c =>
      simp only [exec, RunState.act, stopRequestedInLoop] at hdone ⊢
      obtain ⟨hpc, -, -, -, hout', -, -, -, -, hev, -⟩ := call_frame s c
      obtain ⟨mid, hm, hf, hst⟩ := ih (s.call c) (by rw [hpc]; exact hidle)
        (by rw [hout']; exact hout) (by rw [hev]; exact hne) hdone
      refine ⟨mid, ?_, hf, hst⟩
      rw [hm]
      simp [hidle]

/-- C20: take a worker with events and any execution in which the thread function has
returned.  What the thread did ends with the load of the stop flag of line 175, then the final
state, which is "stopped" when a stop was requested while the loop ran and "finished"
otherwise, then the signal `finished`; before these the thread emitted no `finished` and no
state, so `finished` is emitted exactly once and after the final state. -/
theorem runLoop_exit_reports_final_state (w : ReplayWorker) (sched : List Act)
    (hne : w.m_events ≠ []) (hdone : (exec sched (RunState.start w)).pc = .done) :
    ∃ mid, (exec sched (RunState.start w)).out = mid ++
        [.readStop (stopRequestedInLoop sched (RunState.start w)),
          .stateChanged (if stopRequestedInLoop sched (RunState.start w) = true
            then "stopped" else "finished"),
          .finished] ∧
      Obs.finished ∉ mid ∧ ∀ st, Obs.stateChanged st ∉ mid :=
  final_state_from_start sched (RunState.start w) rfl rfl hne hdone

/-- The theorem for C20 applied to the four moves, once with a stop during the second wait
and once uninterrupted. -/
theorem runLoop_exit_reports_final_state_witness :
    (fourMoves.m_events ≠ [] ∧ (exec stopInSecondWait (RunState.start fourMoves)).pc = .done ∧
      stopRequestedInLoop stopInSecondWait (RunState.start fourMoves) = true ∧
      ∃ mid, (exec stopInSecondWait (RunState.start fourMoves)).out = mid ++
          [.readStop (stopRequestedInLoop stopInSecondWait (RunState.start fourMoves)),
            .stateChanged (if stopRequestedInLoop stopInSecondWait (RunState.start fourMoves)
              = true then "stopped" else "finished"),
            .finished] ∧
        Obs.finished ∉ mid ∧ ∀ st, Obs.stateChanged st ∉ mid) ∧
    (stopRequestedInLoop (ticks 60) (RunState.start fourMoves) = false ∧
      ∃ mid, (exec (ticks 60) (RunState.start fourMoves)).out = mid ++
          [.readStop (stopRequestedInLoop (ticks 60) (RunState.start fourMoves)),
            .stateChanged (if stopRequestedInLoop (ticks 60) (RunState.start fourMoves)
              = true then "stopped" else "finished"),
            .finished] ∧
        Obs.finished ∉ mid ∧ ∀ st, Obs.stateChanged st ∉ mid) :=
  ⟨⟨by decide, by decide!, by decide!,
      runLoop_exit_reports_final_state fourMoves stopInSecondWait (by decide) (by decide!)⟩,
    by decide!,
    runLoop_exit_reports_final_state fourMoves (ticks 60) (by decide) (by decide!)⟩

/-! ### The text written by the recorder -/

theorem writtenEvents_append (a b : List Chunk) :
    writtenEvents (a ++ b) = writtenEvents a ++ writtenEvents b := by
  induction a with
  | nil => rfl
  | cons c rest ih => cases c <;> simp [writtenEvents, ih]

theorem eventChunks_concat (evs : List JsonValue) (e : JsonValue) :
    eventChunks (evs ++ [e])
      = eventChunks evs ++ (if evs.isEmpty then [.event e] else [.comma, .event e]) := by
  cases evs with
  | nil => simp [eventChunks]
  | cons a l => simp [eventChunks, List.flatMap_append]

theorem writtenEvents_separated (l : List JsonValue) :
    writtenEvents (l.flatMap (fun e => [Chunk.comma, Chunk.event e])) = l := by
  induction l with
  | nil => rfl
  | cons b l ih =>
    rw [List.flatMap_cons, writtenEvents_append, ih]
    rfl

theorem writtenEvents_eventChunks (evs : List JsonValue) :
    writtenEvents (eventChunks evs) = evs := by
  cases evs with
  | nil => rfl
  | cons a l =>
    simp only [eventChunks, writtenEvents, writtenEvents_separated]

theorem writerInv_step (evs : List JsonValue) (s : RecorderWorker) (h : WriterInv evs s) :
    WriterInv evs s.step := by
  obtain ⟨running, queue, opens, pc, first, written⟩ := s
  obtain ⟨ho, hb, hs⟩ := h
  simp only at ho
  subst ho
  cases pc with
  | openFile =>
    simp only [WriterInv, RecorderWorker.step, RecorderWorker.inHand, if_true] at hb hs ⊢
    exact ⟨by trivial, hb, hs⟩
  | header =>
    simp only [WriterInv, RecorderWorker.step, RecorderWorker.inHand] at hb hs ⊢
    subst hs
    exact ⟨by trivial, by simpa [writtenEvents] using hb, rfl⟩
  | setRunning =>
    simp only [WriterInv, RecorderWorker.step, RecorderWorker.inHand] at hb hs ⊢
    subst hs
    exact ⟨by trivial, hb, by simp [writtenEvents, eventChunks]⟩
  | loopHead =>
    simp only [WriterInv, RecorderWorker.step, RecorderWorker.inHand] at hb hs ⊢
    split
    · exact ⟨by trivial, hb, hs⟩
    · simp only [RecorderWorker.takeOrLeave]
      split
      · exact ⟨by trivial, hb, hs⟩
      · split
        · exact ⟨by trivial, hb, hs⟩
        · exact ⟨by trivial, by simpa using hb, hs⟩
  | waiting =>
    exact ⟨by trivial, hb, hs⟩
  | woken =>
    simp only [WriterInv, RecorderWorker.step, RecorderWorker.inHand] at hb hs ⊢
    simp only [RecorderWorker.takeOrLeave]
    split
    · exact ⟨by trivial, hb, hs⟩
    · split
      · exact ⟨by trivial, hb, hs⟩
      · exact ⟨by trivial, by simpa using hb, hs⟩
  | write evt =>
    simp only [WriterInv, RecorderWorker.step, RecorderWorker.inHand] at hb hs ⊢
    obtain ⟨hw, hf⟩ := hs
    have hwe : writtenEvents (written ++ (if (!first) = true then [Chunk.comma] else [])
        ++ [Chunk.event evt]) = writtenEvents written ++ [evt] := by
      rw [writtenEvents_append, writtenEvents_append]
      cases first <;> simp [writtenEvents]
    refine ⟨by trivial, ?_, ?_, ?_⟩
    · rw [hwe]
      simpa using hb
    · rw [hwe, eventChunks_concat, ← hf]
      conv_lhs => rw [hw]
      cases first <;> simp
    · rw [hwe]
      simp
  | footer =>
    simp only [WriterInv, RecorderWorker.step, RecorderWorker.inHand] at hb hs ⊢
    obtain ⟨hw, hf⟩ := hs
    have hwe : writtenEvents (written ++ [Chunk.footer]) = writtenEvents written := by
      rw [writtenEvents_append]
      simp [writtenEvents]
    refine ⟨by trivial, by rw [hwe]; exact hb, ?_⟩
    rw [hwe]
    conv_lhs => rw [hw]
  | frontOfEmptyQueue =>
    exact ⟨by trivial, hb, hs⟩
  | done =>
    exact ⟨by trivial, hb, hs⟩

theorem wakeOne_frame (s : RecorderWorker) :
    s.wakeOne.running_ = s.running_ ∧ s.wakeOne.queue_ = s.queue_ ∧
    s.wakeOne.fileOpens = s.fileOpens ∧ s.wakeOne.first = s.first ∧
    s.wakeOne.written = s.written ∧ s.wakeOne.inHand = s.inHand ∧
    s.wakeOne.pc.inLoop = s.pc.inLoop := by
  obtain ⟨running, queue, opens, pc, first, written⟩ := s
  cases pc <;> simp [RecorderWorker.wakeOne, RecorderWorker.inHand, WriterPc.inLoop]

theorem writerInv_wakeOne (evs : List JsonValue) (s : RecorderWorker) (h : WriterInv evs s) :
    WriterInv evs s.wakeOne := by
  obtain ⟨running, queue, opens, pc, first, written⟩ := s
  cases pc <;> exact h

theorem writerInv_enqueue (evs : List JsonValue) (s : RecorderWorker) (e : JsonValue)
    (h : WriterInv evs s) : WriterInv (evs ++ [e]) (s.enqueue e) := by
  apply writerInv_wakeOne
  obtain ⟨running, queue, opens, pc, first, written⟩ := s
  obtain ⟨ho, hb, hs⟩ := h
  refine ⟨ho, ?_, ?_⟩
  · simp only [RecorderWorker.inHand] at hb ⊢
    rw [← hb]
    simp
  · cases pc <;> exact hs

theorem writerInv_stopWorker (evs : List JsonValue) (s : RecorderWorker)
    (h : WriterInv evs s) : WriterInv evs s.stopWorker := by
  apply writerInv_wakeOne
  obtain ⟨running, queue, opens, pc, first, written⟩ := s
  obtain ⟨ho, hb, hs⟩ := h
  refine ⟨ho, hb, ?_⟩
  cases pc <;> exact hs

theorem writerInv_run (acts : List WriterAct) (evs : List JsonValue) (s : RecorderWorker)
    (h : WriterInv evs s) :
    WriterInv (evs ++ enqueuedEvents acts) (RecorderWorker.run acts s) := by
  induction acts generalizing evs s with
  | nil => simpa [enqueuedEvents, RecorderWorker.run] using h
  | cons a rest ih =>
    cases a with
    | tick =>
      simp only [RecorderWorker.run, RecorderWorker.act, enqueuedEvents]
      exact ih evs _ (writerInv_step evs s h)
    | enqueue e =>
      simp only [RecorderWorker.run, RecorderWorker.act, enqueuedEvents]
      have := ih (evs ++ [e]) _ (writerInv_enqueue evs s e h)
      simpa using this
    | stopWorker =>
      simp only [RecorderWorker.run, RecorderWorker.act, enqueuedEvents]
      exact ih evs _ (writerInv_stopWorker evs s h)

theorem writer_run_append (a b : List WriterAct) (s : RecorderWorker) :
    RecorderWorker.run (a ++ b) s = RecorderWorker.run b (RecorderWorker.run a s) := by
  induction a generalizing s with
  | nil => rfl
  | cons x xs ih => simp [RecorderWorker.run, ih]

theorem drain_step (s : RecorderWorker) (h : DrainInv s) :
    DrainInv s.step ∧ s.step.stepsLeft ≤ s.stepsLeft - 1 ∧ s.step.fileOpens = s.fileOpens := by
  obtain ⟨running, queue, opens, pc, first, written⟩ := s
  obtain ⟨hr, hp⟩ := h
  simp only at hr
  subst hr
  cases pc with
  | loopHead =>
    cases queue with
    | nil => simp [RecorderWorker.step, RecorderWorker.takeOrLeave, DrainInv,
        RecorderWorker.stepsLeft]
    | cons e rest =>
      simp [RecorderWorker.step, RecorderWorker.takeOrLeave, DrainInv,
        RecorderWorker.stepsLeft]
      omega
  | woken =>
    cases queue with
    | nil => simp [RecorderWorker.step, RecorderWorker.takeOrLeave, DrainInv,
        RecorderWorker.stepsLeft]
    | cons e rest =>
      simp [RecorderWorker.step, RecorderWorker.takeOrLeave, DrainInv,
        RecorderWorker.stepsLeft]
      omega
  | write evt => simp [RecorderWorker.step, DrainInv, RecorderWorker.stepsLeft]
  | footer =>
    simp only [DrainInv] at hp
    simp [RecorderWorker.step, DrainInv, RecorderWorker.stepsLeft, hp]
  | done =>
    simp only [DrainInv] at hp
    simp [RecorderWorker.step, DrainInv, RecorderWorker.stepsLeft, hp]
  | openFile => exact absurd hp (by simp [DrainInv])
  | header => exact absurd hp (by simp [DrainInv])
  | setRunning => exact absurd hp (by simp [DrainInv])
  | waiting => exact absurd hp (by simp [DrainInv])
  | frontOfEmptyQueue => exact absurd hp (by simp [DrainInv])

theorem drain_ticks (n : Nat) (s : RecorderWorker) (h : DrainInv s) (hn : s.stepsLeft ≤ n) :
    DrainInv (RecorderWorker.run (writerTicks n) s) ∧
    (RecorderWorker.run (writerTicks n) s).stepsLeft = 0 := by
  induction n generalizing s with
  | zero =>
    exact ⟨h, by simpa [writerTicks, RecorderWorker.run] using hn⟩
  | succ n ih =>
    obtain ⟨d1, d2, -⟩ := drain_step s h
    have := ih s.step d1 (by omega)
    simpa [writerTicks, List.replicate_succ, RecorderWorker.run, RecorderWorker.act] using this

theorem drain_end (s : RecorderWorker) (h : DrainInv s) (h0 : s.stepsLeft = 0) :
    s.pc = .done ∧ s.queue_ = [] ∧ s.inHand = [] := by
  obtain ⟨running, queue, opens, pc, first, written⟩ := s
  obtain ⟨hr, hp⟩ := h
  cases pc <;> simp [RecorderWorker.stepsLeft] at h0 <;>
    simp [DrainInv] at hp
  simp [hp, RecorderWorker.inHand]

theorem stop_in_loop_drains (s : RecorderWorker) (h : s.pc.inLoop = true) :
    DrainInv s.stopWorker ∧ s.stopWorker.stepsLeft ≤ 2 * s.queue_.length + 3 := by
  obtain ⟨running, queue, opens, pc, first, written⟩ := s
  cases pc <;> simp [WriterPc.inLoop] at h <;>
    simp [RecorderWorker.stopWorker, RecorderWorker.wakeOne, DrainInv,
      RecorderWorker.stepsLeft]

theorem writerInv_start : WriterInv [] (RecorderWorker.start true) := by
  simp [WriterInv, RecorderWorker.start, writtenEvents, RecorderWorker.inHand]

theorem writer_after_stop (pre : List WriterAct) (n : Nat)
    (hloop : (RecorderWorker.run pre (RecorderWorker.start true)).pc.inLoop = true)
    (hn : 2 * (enqueuedEvents pre).length + 3 ≤ n) :
    (RecorderWorker.run (pre ++ .stopWorker :: writerTicks n) (RecorderWorker.start true)).pc
      = .done ∧
    (RecorderWorker.run (pre ++ .stopWorker :: writerTicks n)
        (RecorderWorker.start true)).written
      = .header :: eventChunks (enqueuedEvents pre) ++ [.footer] := by
  have hinv := writerInv_run pre [] (RecorderWorker.start true) writerInv_start
  rw [List.nil_append] at hinv
  have hrun : RecorderWorker.run (pre ++ .stopWorker :: writerTicks n)
      (RecorderWorker.start true)
      = RecorderWorker.run (writerTicks n)
          (RecorderWorker.run pre (RecorderWorker.start true)).stopWorker := by
    rw [writer_run_append]; rfl
  obtain ⟨hd, hs⟩ := stop_in_loop_drains _ hloop
  have hlen : (RecorderWorker.run pre (RecorderWorker.start true)).queue_.length
      ≤ (enqueuedEvents pre).length := by
    rw [← hinv.2.1, List.length_append, List.length_append]
    omega
  obtain ⟨e1, e2⟩ := drain_ticks n _ hd (by omega)
  obtain ⟨f1, f2, f3⟩ := drain_end _ e1 e2
  have hfin : WriterInv (enqueuedEvents pre) (RecorderWorker.run (writerTicks n)
      (RecorderWorker.run pre (RecorderWorker.start true)).stopWorker) := by
    have := writerInv_run (writerTicks n) _ _
      (writerInv_stopWorker _ _ hinv)
    have hnone : enqueuedEvents (writerTicks n) = [] := by
      clear * -
      induction n with
      | zero => rfl
      | succ n ih => simpa [writerTicks, List.replicate_succ, enqueuedEvents] using ih
    rwa [hnone, List.append_nil] at this
  rw [hrun]
  refine ⟨f1, ?_⟩
  obtain ⟨-, hb, hshape⟩ := hfin
  rw [f2, f3, List.append_nil, List.append_nil] at hb
  rw [f1] at hshape
  simp only at hshape
  rw [hb] at hshape
  exact hshape

theorem string_join_cons_concat (h f : String) (m : List String) :
    String.join (h :: (m ++ [f])) = h ++ String.join m ++ f := by
  apply String.ext
  simp [String.join_eq, String.data_append]

/-- What the writer streams when the stop reaches a thread that is in its loop.  Let the
writer thread of a worker whose file opens be in its loop, after any interleaving of its own
steps with calls of `enqueue`, when `stopWorker` is called, and let nothing be enqueued
afterwards.  Then the thread returns within twice the number of events plus three steps, and
what it has streamed to the file is the header, then the compact serialization of every
enqueued event, once each and in enqueue order, with the separator before every event but the
first, then the footer; the text of the file is the concatenation of these pieces. -/
theorem writer_streams_header_events_footer (pre : List WriterAct) (n : Nat)
    (hloop : (RecorderWorker.run pre (RecorderWorker.start true)).pc.inLoop = true)
    (hn : 2 * (enqueuedEvents pre).length + 3 ≤ n) (startTime : String)
    (toJson : JsonValue → String) :
    (RecorderWorker.run (pre ++ .stopWorker :: writerTicks n) (RecorderWorker.start true)).pc
      = .done ∧
    (RecorderWorker.run (pre ++ .stopWorker :: writerTicks n)
        (RecorderWorker.start true)).written
      = .header :: eventChunks (enqueuedEvents pre) ++ [.footer] ∧
    String.join ((RecorderWorker.run (pre ++ .stopWorker :: writerTicks n)
        (RecorderWorker.start true)).written.map (Chunk.render startTime toJson))
      = Chunk.render startTime toJson .header
        ++ String.join ((eventChunks (enqueuedEvents pre)).map (Chunk.render startTime toJson))
        ++ Chunk.render startTime toJson .footer := by
  obtain ⟨h1, h2⟩ := writer_after_stop pre n hloop hn
  refine ⟨h1, h2, ?_⟩
  rw [h2]
  simp only [List.map_append, List.map_cons, List.map_nil, List.cons_append]
  exact string_join_cons_concat _ _ _

/-- The interleaving `twoEventsEnqueued`: one event is written before the stop and one is
still queued; after the stop the file holds header, first event, separator, second event and
footer. -/
theorem writer_streams_header_events_footer_witness :
    (RecorderWorker.run twoEventsEnqueued (RecorderWorker.start true)).pc.inLoop = true ∧
    2 * (enqueuedEvents twoEventsEnqueued).length + 3 ≤ 7 ∧
    (RecorderWorker.run twoEventsEnqueued (RecorderWorker.start true)).written
      = [.header, .event (keyDownJson 5)] ∧
    (RecorderWorker.run (twoEventsEnqueued ++ .stopWorker :: writerTicks 7)
        (RecorderWorker.start true)).written
      = [.header, .event (keyDownJson 5), .comma, .event (keyDownJson 9), .footer] :=
  ⟨rfl, by decide, rfl,
    (writer_streams_header_events_footer twoEventsEnqueued 7 rfl (by decide) "" (fun _ => "")).2.1⟩

theorem writer_waits_forever (n : Nat) (s : RecorderWorker) (h : s.pc = .waiting) :
    RecorderWorker.run (writerTicks n) s = s := by
  induction n with
  | zero => rfl
  | succ n ih =>
    have hs : s.step = s := by simp [RecorderWorker.step, h]
    simp only [writerTicks, List.replicate_succ, RecorderWorker.run, RecorderWorker.act, hs]
    exact ih

theorem writer_stop_before_running_is_overwritten (n : Nat) :
    (RecorderWorker.run ([.tick, .tick, .stopWorker, .tick, .tick] ++ writerTicks n)
      (RecorderWorker.start true)).pc = .waiting ∧
    (RecorderWorker.run ([.tick, .tick, .stopWorker, .tick, .tick] ++ writerTicks n)
      (RecorderWorker.start true)).written = [.header] ∧
    (RecorderWorker.run ([.tick, .tick, .stopWorker, .tick, .tick] ++ writerTicks n)
      (RecorderWorker.start true)).running_ = true := by
  rw [writer_run_append, writer_waits_forever n _ rfl]
  exact ⟨rfl, rfl, rfl⟩

/-- C17 (the code departs from the claim): `running_ = true` is stored by the writer thread
itself, at line 55, after the header has been written.  When `stopWorker` is called before
that, its `running_ = false` is overwritten and its wake-up finds nobody waiting.  With one
event enqueued before the stop, the thread writes the header and the event, then finds the
queue empty with `running_` true and waits; however many steps it is given it is still
waiting, the footer is never written, and the caller of `stopWorker` is blocked in
`wait()`. -/
theorem writer_stop_before_running_writes_no_footer (n : Nat) :
    enqueuedEvents (stopBeforeRunning ++ writerTicks n) = [keyDownJson 5] ∧
    (RecorderWorker.run (stopBeforeRunning ++ writerTicks n) (RecorderWorker.start true)).pc
      = .waiting ∧
    (RecorderWorker.run (stopBeforeRunning ++ writerTicks n)
        (RecorderWorker.start true)).running_ = true ∧
    (RecorderWorker.run (stopBeforeRunning ++ writerTicks n) (RecorderWorker.start true)).written
      = [.header, .event (keyDownJson 5)] := by
  have he : ∀ m, enqueuedEvents (writerTicks m) = [] := by
    intro m
    induction m with
    | zero => rfl
    | succ m ih =>
      simp only [writerTicks, List.replicate_succ, enqueuedEvents] at ih ⊢
      exact ih
  have h1 : enqueuedEvents (stopBeforeRunning ++ writerTicks n) = [keyDownJson 5] := by
    have hsplit : ∀ (a b : List WriterAct),
        enqueuedEvents (a ++ b) = enqueuedEvents a ++ enqueuedEvents b := by
      intro a b
      induction a with
      | nil => rfl
      | cons x rest ih => cases x <;> simp [enqueuedEvents, ih]
    rw [hsplit, he]
    rfl
  rw [writer_run_append, writer_waits_forever n _ rfl]
  exact ⟨h1, rfl, rfl, rfl⟩

theorem truncToInt_half (n : Int) :
    truncToInt (if 0 ≤ (n : ℚ) then (n : ℚ) + 1 / 2 else (n : ℚ) - 1 / 2) = n := by
  have hcop : ∀ k : Int, Nat.Coprime (2 * k + 1).natAbs (2 : Int).natAbs := by
    intro k
    have h2 : (2 : Int).natAbs = 2 := rfl
    rw [h2, Nat.coprime_comm, Nat.coprime_two_left, Int.natAbs_odd]
    exact ⟨k, rfl⟩
  have key : ∀ k : Int, truncToInt (((2 * k + 1 : Int) : ℚ) / ((2 : Int) : ℚ))
      = Int.tdiv (2 * k + 1) 2 := by
    intro k
    unfold truncToInt
    rw [Rat.num_div_eq_of_coprime (by norm_num) (hcop k),
      Rat.den_div_eq_of_coprime (by norm_num) (hcop k)]
  by_cases h : 0 ≤ (n : ℚ)
  · have hn : 0 ≤ n := by exact_mod_cast h
    have e : (n : ℚ) + 1 / 2 = ((2 * n + 1 : Int) : ℚ) / ((2 : Int) : ℚ) := by
      push_cast; ring
    rw [if_pos h, e, key, Int.tdiv_eq_ediv (by omega) (by omega)]
    omega
  · have hn : n < 0 := by
      by_contra hc
      exact h (by exact_mod_cast (not_lt.mp hc))
    have e : (n : ℚ) - 1 / 2 = ((2 * (n - 1) + 1 : Int) : ℚ) / ((2 : Int) : ℚ) := by
      push_cast; ring
    have e2 : 2 * (n - 1) + 1 = -(2 * (-n) + 1) := by ring
    rw [if_neg h, e, key, e2, Int.neg_tdiv, Int.tdiv_eq_ediv (by omega) (by omega)]
    omega

theorem toLongLong_number_int (n : Int) : (JsonValue.number (n : ℚ)).toLongLong = n := by
  simp only [JsonValue.toLongLong]
  exact truncToInt_half n

/-! ### Timestamps of a recording -/

theorem writer_step_conserves (s : RecorderWorker) :
    writtenEvents s.step.written ++ s.step.inHand ++ s.step.queue_
      = writtenEvents s.written ++ s.inHand ++ s.queue_ := by
  obtain ⟨running, queue, opens, pc, first, written⟩ := s
  cases pc with
  | openFile => simp only [RecorderWorker.step]; split <;> rfl
  | header => simp [RecorderWorker.step, RecorderWorker.inHand, writtenEvents_append, writtenEvents]
  | setRunning => rfl
  | loopHead =>
    simp only [RecorderWorker.step, RecorderWorker.takeOrLeave]
    split
    · rfl
    · split
      · rfl
      · split <;> simp [RecorderWorker.inHand]
  | waiting => rfl
  | woken =>
    simp only [RecorderWorker.step, RecorderWorker.takeOrLeave]
    split
    · rfl
    · split <;> simp [RecorderWorker.inHand]
  | write evt =>
    cases first <;>
      simp [RecorderWorker.step, RecorderWorker.inHand, writtenEvents_append, writtenEvents]
  | footer => simp [RecorderWorker.step, RecorderWorker.inHand, writtenEvents_append, writtenEvents]
  | frontOfEmptyQueue => rfl
  | done => rfl

theorem writer_enqueue_conserves (s : RecorderWorker) (e : JsonValue) :
    writtenEvents (s.enqueue e).written ++ (s.enqueue e).inHand ++ (s.enqueue e).queue_
      = writtenEvents s.written ++ s.inHand ++ s.queue_ ++ [e] := by
  obtain ⟨-, h2, -, -, h5, h6, -⟩ := wakeOne_frame { s with queue_ := s.queue_ ++ [e] }
  simp only [RecorderWorker.enqueue]
  rw [h2, h5, h6]
  simp [RecorderWorker.inHand]

theorem timestampOf_mouseJson (e : MouseEventData) (ts : Int) :
    timestampOf (mouseJson e ts) = ts := by
  simp only [timestampOf, JsonValue.toRecordedEvent, mouseJson, JsonValue.value]
  exact toLongLong_number_int ts

theorem timestampOf_keyJson (e : KeyEventData) (ts : Int) :
    timestampOf (keyJson e ts) = ts := by
  simp only [timestampOf, JsonValue.toRecordedEvent, keyJson, JsonValue.value]
  exact toLongLong_number_int ts

theorem recorder_run_stamps (t0 : Int) (acts : List RecorderAct) (r : Recorder)
    (hrec : r.recording_ = true) (ht : r.timer_ = some t0) (hw : r.worker_.isSome = true) :
    (Recorder.run acts r).recorded.map timestampOf
      = r.recorded.map timestampOf ++ (clockReadings acts).map (fun now => now - t0) := by
  induction acts generalizing r with
  | nil => simp [Recorder.run, clockReadings]
  | cons a rest ih =>
    obtain ⟨worker, recording, timer⟩ := r
    simp only at hrec ht
    subst hrec ht
    cases worker with
    | none => simp at hw
    | some w =>
      cases a with
      | mouse e now =>
        rw [Recorder.run, ih _ (by simp [Recorder.act, Recorder.onMouseEventCaptured])
          (by simp [Recorder.act, Recorder.onMouseEventCaptured])
          (by simp [Recorder.act, Recorder.onMouseEventCaptured])]
        have h : (Recorder.act { worker_ := some w, recording_ := true, timer_ := some t0 }
            (.mouse e now)).recorded
            = (writtenEvents w.written ++ w.inHand ++ w.queue_) ++ [mouseJson e (now - t0)] := by
          simp only [Recorder.act, Recorder.onMouseEventCaptured, Recorder.recorded,
            Recorder.elapsed, Bool.not_true, Bool.false_eq_true, if_false]
          exact writer_enqueue_conserves w _
        rw [h]
        simp [Recorder.recorded, clockReadings, timestampOf_mouseJson]
      | key e now =>
        rw [Recorder.run, ih _ (by simp [Recorder.act, Recorder.onKeyEventCaptured])
          (by simp [Recorder.act, Recorder.onKeyEventCaptured])
          (by simp [Recorder.act, Recorder.onKeyEventCaptured])]
        have h : (Recorder.act { worker_ := some w, recording_ := true, timer_ := some t0 }
            (.key e now)).recorded
            = (writtenEvents w.written ++ w.inHand ++ w.queue_) ++ [keyJson e (now - t0)] := by
          simp only [Recorder.act, Recorder.onKeyEventCaptured, Recorder.recorded,
            Recorder.elapsed, Bool.not_true, Bool.false_eq_true, if_false]
          exact writer_enqueue_conserves w _
        rw [h]
        simp [Recorder.recorded, clockReadings, timestampOf_keyJson]
      | writerTick =>
        rw [Recorder.run, ih _ (by simp [Recorder.act]) (by simp [Recorder.act])
          (by simp [Recorder.act])]
        have h : (Recorder.act { worker_ := some w, recording_ := true, timer_ := some t0 }
            .writerTick).recorded = writtenEvents w.written ++ w.inHand ++ w.queue_ := by
          simp only [Recorder.act, Recorder.recorded, Option.map_some']
          exact writer_step_conserves w
        rw [h]
        simp [Recorder.recorded, clockReadings]

/-- C18: start a recording when the monotonic clock reads `t0` and let samples be delivered to
the two slots, with steps of the writer thread in between, at clock readings that never
decrease.  Then the `timestamp_ms` of the recorded events, read in the order they were
enqueued, are the readings minus `t0`: none is negative and they never decrease.  The events
already in the file are the first of the recorded events in the same order, so their
timestamps never decrease either. -/
theorem recorded_timestamps_nondecreasing (fileOpens : Bool) (t0 : Int)
    (acts : List RecorderAct) (hclock : List.Chain (· ≤ ·) t0 (clockReadings acts)) :
    (Recorder.run acts (Recorder.new.startRecording fileOpens t0)).recorded.map timestampOf
      = (clockReadings acts).map (fun now => now - t0) ∧
    (∀ t ∈ (Recorder.run acts (Recorder.new.startRecording fileOpens t0)).recorded.map
      timestampOf, 0 ≤ t) ∧
    List.Chain' (· ≤ ·)
      ((Recorder.run acts (Recorder.new.startRecording fileOpens t0)).recorded.map
        timestampOf) ∧
    (Recorder.run acts (Recorder.new.startRecording fileOpens t0)).fileEvents
      <+: (Recorder.run acts (Recorder.new.startRecording fileOpens t0)).recorded ∧
    List.Chain' (· ≤ ·)
      ((Recorder.run acts (Recorder.new.startRecording fileOpens t0)).fileEvents.map
        timestampOf) := by
  have hst := recorder_run_stamps t0 acts (Recorder.new.startRecording fileOpens t0) rfl rfl rfl
  have h0 : (Recorder.new.startRecording fileOpens t0).recorded = [] := by
    simp [Recorder.startRecording, Recorder.new, Recorder.recorded, RecorderWorker.start,
      writtenEvents, RecorderWorker.inHand]
  rw [h0, List.map_nil, List.nil_append] at hst
  have hp : (t0 :: clockReadings acts).Pairwise (· ≤ ·) := List.chain_iff_pairwise.mp hclock
  obtain ⟨hge, hpw⟩ := List.pairwise_cons.mp hp
  have hsorted : ((clockReadings acts).map (fun now => now - t0)).Pairwise (· ≤ ·) :=
    List.Pairwise.map _ (fun a b hab => by omega) hpw
  have hpre : (Recorder.run acts (Recorder.new.startRecording fileOpens t0)).fileEvents
      <+: (Recorder.run acts (Recorder.new.startRecording fileOpens t0)).recorded := by
    unfold Recorder.fileEvents Recorder.recorded
    cases (Recorder.run acts (Recorder.new.startRecording fileOpens t0)).worker_ with
    | none => exact List.prefix_refl _
    | some w =>
      simp only [List.append_assoc]
      exact List.prefix_append _ _
  refine ⟨hst, ?_, ?_, hpre, ?_⟩
  · rw [hst]
    intro t ht
    obtain ⟨now, hnow, rfl⟩ := List.mem_map.mp ht
    have := hge now hnow
    omega
  · rw [hst]
    exact hsorted.chain'
  · have hsub : ((Recorder.run acts (Recorder.new.startRecording fileOpens t0)).fileEvents.map
        timestampOf).Sublist
        ((Recorder.run acts (Recorder.new.startRecording fileOpens t0)).recorded.map
          timestampOf) := (hpre.sublist).map _
    rw [hst] at hsub
    exact (hsorted.sublist hsub).chain'

/-- The theorem for C18 applied to `threeDeliveries` in a recording started at clock reading
1000: the three events carry the timestamps 3, 3 and 7, and the first is already in the
file. -/
theorem recorded_timestamps_nondecreasing_witness :
    List.Chain (· ≤ ·) (1000 : Int) (clockReadings threeDeliveries) ∧
    (Recorder.run threeDeliveries (Recorder.new.startRecording true 1000)).recorded.map
      timestampOf = [3, 3, 7] ∧
    ((Recorder.run threeDeliveries (Recorder.new.startRecording true 1000)).fileEvents.map
      timestampOf).length = 1 ∧
    List.Chain' (· ≤ ·)
      ((Recorder.run threeDeliveries (Recorder.new.startRecording true 1000)).recorded.map
        timestampOf) :=
  ⟨by simp [threeDeliveries, clockReadings],
    (recorded_timestamps_nondecreasing true 1000 threeDeliveries
      (by simp [threeDeliveries, clockReadings])).1,
    by rfl,
    (recorded_timestamps_nondecreasing true 1000 threeDeliveries
      (by simp [threeDeliveries, clockReadings])).2.2.1⟩

/-! ### Stopping the capture engine twice -/

/-- C24: `stop` changes nothing when the engine is not running.  When it is running, `stop`
leaves it not running, without worker thread and with both hook handles cleared.  So a second
`stop` right after the first changes nothing, and `stop(); stop()` gives the same engine and
the same installed hooks as `stop()`. -/
theorem stop_is_idempotent (e : CaptureEngine) (os : HookTable) :
    (e.running_ = false → e.stop os = (e, os)) ∧
    (e.running_ = true →
      (e.stop os).1.running_ = false ∧ (e.stop os).1.workerThread_ = false ∧
      (e.stop os).1.mouseHook_ = none ∧ (e.stop os).1.keyboardHook_ = none) ∧
    (e.stop os).1.stop (e.stop os).2 = e.stop os := by
  cases h : e.running_ <;> simp [CaptureEngine.stop, h]

/-- The theorem for C24 applied to an engine that has just been started, with its two hooks
installed, and to the engine that the first `stop` leaves. -/
theorem stop_is_idempotent_witness :
    EngineRun.started.e.running_ = true ∧
    (EngineRun.started.e.stop bothHooksInstalled).1.running_ = false ∧
    (EngineRun.started.e.stop bothHooksInstalled).1.mouseHook_ = none ∧
    (EngineRun.started.e.stop bothHooksInstalled).1.keyboardHook_ = none ∧
    (EngineRun.started.e.stop bothHooksInstalled).2.installed = [] ∧
    (EngineRun.started.e.stop bothHooksInstalled).1.stop
        (EngineRun.started.e.stop bothHooksInstalled).2
      = EngineRun.started.e.stop bothHooksInstalled :=
  ⟨rfl,
    ((stop_is_idempotent EngineRun.started.e bothHooksInstalled).2.1 rfl).1,
    ((stop_is_idempotent EngineRun.started.e bothHooksInstalled).2.1 rfl).2.2.1,
    ((stop_is_idempotent EngineRun.started.e bothHooksInstalled).2.1 rfl).2.2.2,
    by decide,
    (stop_is_idempotent (EngineRun.started.e.stop bothHooksInstalled).1
      (EngineRun.started.e.stop bothHooksInstalled).2).1 (by decide)⟩

/-! ### The first move seen by a new engine -/

/-- C29 (the claim fails near the origin): on a new engine the last accepted position is the
default point (0, 0) and the last accepted time is the invalid default, from which `msecsTo`
gives 0.  A first move at (1, 1) is therefore under both bounds of the throttle and is
dropped: the engine stays as it was and nothing is enqueued. -/
theorem first_move_near_origin_is_dropped :
    manhattanLength (pointSub (1, 1) CaptureEngine.new.lastMousePos_) = 2 ∧
    msecsTo CaptureEngine.new.lastMouseTime_ 1000 = 0 ∧
    CaptureEngine.new.mouseProc 0 WM_MOUSEMOVE (some (1, 1)) 1000 = CaptureEngine.new ∧
    (CaptureEngine.new.mouseProc 0 WM_MOUSEMOVE (some (1, 1)) 1000).mouseQueue_ = [] := by
  decide

/-- C29 as amended: the first move seen by a new engine, in a callback with `nCode >= 0` and a
non-null `lParam`, is accepted exactly when its Manhattan distance from the origin (0, 0) is
at least 3, whatever the time of the callback: it is then enqueued and becomes the last
accepted move.  A first move nearer to the origin is dropped and the engine stays as it
was. -/
theorem first_move_accepted_iff_far_from_origin (nCode : Int) (pos : Int × Int) (now : Int)
    (hn : 0 ≤ nCode) :
    (3 ≤ manhattanLength pos →
      CaptureEngine.new.mouseProc nCode WM_MOUSEMOVE (some pos) now
        = { CaptureEngine.new with
            mouseQueue_ := [{ pos := pos, type := WM_MOUSEMOVE, time := now }],
            lastMousePos_ := pos, lastMouseTime_ := some now }) ∧
    (manhattanLength pos < 3 →
      CaptureEngine.new.mouseProc nCode WM_MOUSEMOVE (some pos) now = CaptureEngine.new) := by
  have hp : pointSub pos 0 = pos := by simp [pointSub]
  constructor
  · intro h
    have h' : ¬ manhattanLength pos < 3 := by omega
    simp [CaptureEngine.mouseProc, CaptureEngine.new, hn, hp, h', msecsTo,
      CaptureEngine.enqueueMouseEvent, WM_MOUSEMOVE]
  · intro h
    simp [CaptureEngine.mouseProc, CaptureEngine.new, hn, hp, h, msecsTo]

/-- The theorem for C29 applied to first moves at (2, 1), which is enqueued, and at (0, 2),
which is dropped. -/
theorem first_move_accepted_iff_far_from_origin_witness :
    (CaptureEngine.new.mouseProc 0 WM_MOUSEMOVE (some (2, 1)) 1000).mouseQueue_
      = [{ pos := (2, 1), type := 512, time := 1000 }] ∧
    CaptureEngine.new.mouseProc 0 WM_MOUSEMOVE (some (0, 2)) 1000 = CaptureEngine.new :=
  ⟨congrArg CaptureEngine.mouseQueue_
      ((first_move_accepted_iff_far_from_origin 0 (2, 1) 1000 (by decide)).1 (by decide)),
    (first_move_accepted_iff_far_from_origin 0 (0, 2) 1000 (by decide)).2 (by decide)⟩

/-! ### Replaying what the recorder builds -/

theorem toInt_number_int (n : Int) (h : fitsInt n) : (JsonValue.number (n : ℚ)).toInt = n := by
  obtain ⟨h1, h2⟩ := h
  simp [JsonValue.toInt, h1, h2]

theorem fitsInt_dwordToInt (n : Nat) : fitsInt (dwordToInt n) := by
  unfold fitsInt dwordToInt
  split <;> omega

theorem wVkOf_dwordToInt (vk : Nat) : wVkOf (dwordToInt vk) = vk % 65536 := by
  unfold wVkOf dwordToInt
  split <;> omega

theorem toRecordedEvent_mouseJson (e : MouseEventData) (ts : Int) (hx : fitsInt e.pos.1)
    (hy : fitsInt e.pos.2) :
    (mouseJson e ts).toRecordedEvent
      = { category := "mouse", x := e.pos.1, y := e.pos.2, type := dwordToInt e.type,
          vkCode := 0, keyDown := false, timestamp_ms := ts } := by
  have h1 : (mouseJson e ts).toRecordedEvent
      = { category := "mouse", x := (JsonValue.number (e.pos.1 : ℚ)).toInt,
          y := (JsonValue.number (e.pos.2 : ℚ)).toInt,
          type := (JsonValue.number (dwordToInt e.type : ℚ)).toInt,
          vkCode := 0, keyDown := false,
          timestamp_ms := (JsonValue.number (ts : ℚ)).toLongLong } := rfl
  rw [h1, toInt_number_int _ hx, toInt_number_int _ hy,
    toInt_number_int _ (fitsInt_dwordToInt e.type), toLongLong_number_int]

theorem toRecordedEvent_keyJson (e : KeyEventData) (ts : Int) :
    (keyJson e ts).toRecordedEvent
      = { category := "keyboard", x := 0, y := 0, type := 0, vkCode := dwordToInt e.vkCode,
          keyDown := e.keyDown, timestamp_ms := ts } := by
  have h1 : (keyJson e ts).toRecordedEvent
      = { category := "keyboard", x := 0, y := 0, type := 0,
          vkCode := (JsonValue.number (dwordToInt e.vkCode : ℚ)).toInt,
          keyDown := e.keyDown,
          timestamp_ms := (JsonValue.number (ts : ℚ)).toLongLong } := rfl
  rw [h1, toInt_number_int _ (fitsInt_dwordToInt e.vkCode), toLongLong_number_int]
theorem injections_at_gate (s : RunState) (hpc : s.pc = .gate)
    (hs : s.w.m_stopRequested = false) (hm : s.w.m_replayMouse = true)
    (hk : s.w.m_replayKeyboard = true) :
    ∃ n, (exec (ticks n) s).pc = .progress ∧
      injections (exec (ticks n) s).out = injections s.out ++ injectionOf s.evt := by
  obtain ⟨n, hn⟩ := gate_quiet s hpc hs
  refine ⟨n, by rw [hn], ?_⟩
  rw [hn]
  dsimp only
  rw [injections_append, injections_quietInject s.w s.evt hm hk]

/-- C23 (the claim fails for a wheel sample): the recorder turns a captured turn of the wheel
into an event of type 522, and `simulateEvent` has no branch for that type, so the replay
places the cursor and sends a mouse input whose flags are zero.  This is exactly what the
replay of a captured move at the same point does, and the wheel flag is not set. -/
theorem wheel_sample_replayed_as_move :
    injectionOf (mouseJson wheelSample 5).toRecordedEvent
      = [.setCursorPos 10 20, .sendMouse 0] ∧
    injectionOf (mouseJson wheelSample 5).toRecordedEvent
      = injectionOf (mouseJson moveSample 5).toRecordedEvent ∧
    (∀ f, Obs.sendMouse f ∈ injectionOf (mouseJson wheelSample 5).toRecordedEvent →
      f &&& MOUSEEVENTF_WHEEL = 0) := by
  rw [toRecordedEvent_mouseJson wheelSample 5 ⟨by decide, by decide⟩ ⟨by decide, by decide⟩,
    toRecordedEvent_mouseJson moveSample 5 ⟨by decide, by decide⟩ ⟨by decide, by decide⟩]
  refine ⟨by decide, by decide, ?_⟩
  intro f hf
  have h : f = 0 := by
    have hl : injectionOf
        { category := "mouse", x := wheelSample.pos.1, y := wheelSample.pos.2,
          type := dwordToInt wheelSample.type, vkCode := 0, keyDown := false,
          timestamp_ms := 5 } = [.setCursorPos 10 20, .sendMouse 0] := by decide
    rw [hl] at hf
    simpa using hf
  subst h
  decide

/-- C23 as amended: replaying the event that the recorder builds from a captured sample, with
both toggles enabled and no stop requested, injects the following.  For a key sample with a
virtual-key code in 0..65535: one keyboard input with the same key code, a key-up exactly when
the sample was a release.  For a mouse sample: the cursor is placed at the captured (x, y),
then one mouse input is sent whose flags are left down, left up, right down or right up for
the captured types 513, 514, 516 and 517, and zero, which is no action, for every other
type. -/
theorem replay_of_recorded_sample (s : RunState) (hpc : s.pc = .gate)
    (hs : s.w.m_stopRequested = false) (hm : s.w.m_replayMouse = true)
    (hk : s.w.m_replayKeyboard = true) :
    (∀ (e : KeyEventData) (ts : Int), e.vkCode ≤ 65535 →
      s.evt = (keyJson e ts).toRecordedEvent →
      ∃ n, (exec (ticks n) s).pc = .progress ∧
        injections (exec (ticks n) s).out
          = injections s.out ++ [.sendKey e.vkCode (!e.keyDown)]) ∧
    (∀ (e : MouseEventData) (ts : Int), fitsInt e.pos.1 → fitsInt e.pos.2 →
      s.evt = (mouseJson e ts).toRecordedEvent →
      ∃ n, (exec (ticks n) s).pc = .progress ∧
        injections (exec (ticks n) s).out
          = injections s.out
            ++ [.setCursorPos e.pos.1 e.pos.2, .sendMouse (mouseFlags (dwordToInt e.type))]) ∧
    mouseFlags 513 = 2 ∧ mouseFlags 514 = 4 ∧ mouseFlags 516 = 8 ∧ mouseFlags 517 = 16 ∧
    (∀ t : Int, t ≠ 513 → t ≠ 514 → t ≠ 516 → t ≠ 517 → mouseFlags t = 0) := by
  obtain ⟨n, hn1, hn2⟩ := injections_at_gate s hpc hs hm hk
  refine ⟨?_, ?_, rfl, rfl, rfl, rfl, ?_⟩
  · intro e ts hvk hevt
    refine ⟨n, hn1, ?_⟩
    rw [hn2, hevt, toRecordedEvent_keyJson]
    have hw : wVkOf (dwordToInt e.vkCode) = e.vkCode := by
      rw [wVkOf_dwordToInt]; omega
    simp [injectionOf, hw]
  · intro e ts hx hy hevt
    refine ⟨n, hn1, ?_⟩
    rw [hn2, hevt, toRecordedEvent_mouseJson e ts hx hy]
    simp [injectionOf]
  · intro t h1 h2 h3 h4
    simp [mouseFlags, h1, h2, h3, h4]
/-- The theorem for C23 applied to the replay of a recorded release of the key A and of a
recorded press of the right button, each nine steps into its replay, where the thread stands
at the gate of the first event. -/
theorem replay_of_recorded_sample_witness :
    (∃ n, (exec (ticks n) (exec (ticks 9) (RunState.start recordedKeyUp))).pc = .progress ∧
      injections (exec (ticks n) (exec (ticks 9) (RunState.start recordedKeyUp))).out
        = injections (exec (ticks 9) (RunState.start recordedKeyUp)).out
          ++ [.sendKey 65 true]) ∧
    (∃ n, (exec (ticks n) (exec (ticks 9) (RunState.start recordedRightDown))).pc = .progress ∧
      injections (exec (ticks n) (exec (ticks 9) (RunState.start recordedRightDown))).out
        = injections (exec (ticks 9) (RunState.start recordedRightDown)).out
          ++ [.setCursorPos 10 20, .sendMouse 8]) :=
  ⟨(replay_of_recorded_sample (exec (ticks 9) (RunState.start recordedKeyUp))
      (by decide!) (by decide!) (by decide!) (by decide!)).1 keyUpSample 0 (by decide)
      (by decide!),
    (replay_of_recorded_sample (exec (ticks 9) (RunState.start recordedRightDown))
      (by decide!) (by decide!) (by decide!) (by decide!)).2.1 rightDownSample 0
      ⟨by decide, by decide⟩ ⟨by decide, by decide⟩ (by decide!)⟩
/-! ### The writer and the empty queue -/

theorem wokenInv_step (s : RecorderWorker) (h : WokenInv s) : WokenInv s.step := by
  obtain ⟨running, queue, opens, pc, first, written⟩ := s
  obtain ⟨h1, h2⟩ := h
  simp only at h1 h2
  cases pc with
  | openFile => cases opens <;> simp [RecorderWorker.step, WokenInv]
  | header => simp [RecorderWorker.step, WokenInv]
  | setRunning => simp [RecorderWorker.step, WokenInv]
  | loopHead =>
    cases queue <;> cases running <;>
      simp [RecorderWorker.step, RecorderWorker.takeOrLeave, WokenInv]
  | waiting => simp [RecorderWorker.step, WokenInv]
  | woken =>
    cases queue <;> cases running <;>
      simp_all [RecorderWorker.step, RecorderWorker.takeOrLeave, WokenInv]
  | write evt => simp [RecorderWorker.step, WokenInv]
  | footer => simp [RecorderWorker.step, WokenInv]
  | frontOfEmptyQueue => exact absurd rfl h1
  | done => simp [RecorderWorker.step, WokenInv]

theorem wokenInv_enqueue (s : RecorderWorker) (evt : JsonValue) (h : WokenInv s) :
    WokenInv (s.enqueue evt) := by
  obtain ⟨running, queue, opens, pc, first, written⟩ := s
  obtain ⟨h1, h2⟩ := h
  simp only at h1 h2
  cases pc <;> simp_all [RecorderWorker.enqueue, RecorderWorker.wakeOne, WokenInv]

theorem wokenInv_stopWorker (s : RecorderWorker) (h : WokenInv s) : WokenInv s.stopWorker := by
  obtain ⟨running, queue, opens, pc, first, written⟩ := s
  obtain ⟨h1, h2⟩ := h
  simp only at h1 h2
  cases pc <;> simp_all [RecorderWorker.stopWorker, RecorderWorker.wakeOne, WokenInv]

theorem wokenInv_run (acts : List WriterAct) (s : RecorderWorker) (h : WokenInv s) :
    WokenInv (RecorderWorker.run acts s) := by
  induction acts generalizing s with
  | nil => exact h
  | cons a rest ih =>
    cases a with
    | tick => exact ih _ (wokenInv_step s h)
    | enqueue evt => exact ih _ (wokenInv_enqueue s evt h)
    | stopWorker => exact ih _ (wokenInv_stopWorker s h)

theorem takeOrLeave_exitsOrTakesFront (s : RecorderWorker)
    (hpc : s.pc = .woken ∨ (s.pc = .loopHead ∧ ¬ (s.queue_ = [] ∧ s.running_ = true)))
    (h : s.queue_ ≠ [] ∨ s.running_ = false) : s.exitsOrTakesFront := by
  obtain ⟨running, queue, opens, pc, first, written⟩ := s
  simp only at hpc h
  rcases hpc with hpc | ⟨hpc, hq⟩
  · subst hpc
    cases queue <;> cases running <;>
      simp_all [RecorderWorker.exitsOrTakesFront, RecorderWorker.step,
        RecorderWorker.takeOrLeave]
  · subst hpc
    cases queue <;> cases running <;>
      simp_all [RecorderWorker.exitsOrTakesFront, RecorderWorker.step,
        RecorderWorker.takeOrLeave]

/-- C30: take any interleaving of steps of the writer thread with calls of `enqueue` and
`stopWorker` on a worker that has just been started.  The wait of line 63 has no timeout, and
`QWaitCondition::wait` then returns only on `wakeOne` or `wakeAll`, which nothing but these
two methods calls, so the interleavings are all the executions there are and a wake-up with
neither does not occur.  The thread never stands at `front()` of an empty queue.  In every
iteration of its loop, whether it has been woken from the wait or goes past line 62 without
waiting, lines 69 to 76 either leave the loop, the queue being empty and `running_` false, or
take the front event of a queue that is not empty. -/
theorem writer_never_takes_from_empty_queue (fileOpens : Bool) (acts : List WriterAct) :
    (RecorderWorker.run acts (RecorderWorker.start fileOpens)).pc ≠ .frontOfEmptyQueue ∧
    (RecorderWorker.run acts (RecorderWorker.start fileOpens)).step.pc ≠ .frontOfEmptyQueue ∧
    ((RecorderWorker.run acts (RecorderWorker.start fileOpens)).pc = .woken →
      (RecorderWorker.run acts (RecorderWorker.start fileOpens)).exitsOrTakesFront) ∧
    ((RecorderWorker.run acts (RecorderWorker.start fileOpens)).pc = .loopHead →
      ((RecorderWorker.run acts (RecorderWorker.start fileOpens)).queue_ = [] ∧
        (RecorderWorker.run acts (RecorderWorker.start fileOpens)).running_ = true ∧
        (RecorderWorker.run acts (RecorderWorker.start fileOpens)).step.pc = .waiting) ∨
      (RecorderWorker.run acts (RecorderWorker.start fileOpens)).exitsOrTakesFront) := by
  have h0 : WokenInv (RecorderWorker.start fileOpens) := by
    simp [WokenInv, RecorderWorker.start]
  have h := wokenInv_run acts _ h0
  have h' := wokenInv_step _ h
  refine ⟨h.1, h'.1, ?_, ?_⟩
  · intro hpc
    exact takeOrLeave_exitsOrTakesFront _ (Or.inl hpc) (h.2 hpc)
  · intro hpc
    by_cases hq : (RecorderWorker.run acts (RecorderWorker.start fileOpens)).queue_ = [] ∧
        (RecorderWorker.run acts (RecorderWorker.start fileOpens)).running_ = true
    · left
      refine ⟨hq.1, hq.2, ?_⟩
      simp [RecorderWorker.step, hpc, hq.1, hq.2]
    · right
      refine takeOrLeave_exitsOrTakesFront _ (Or.inr ⟨hpc, hq⟩) ?_
      by_cases hq1 : (RecorderWorker.run acts (RecorderWorker.start fileOpens)).queue_ = []
      · right
        cases hr : (RecorderWorker.run acts (RecorderWorker.start fileOpens)).running_
        · rfl
        · exact absurd ⟨hq1, hr⟩ hq
      · exact Or.inl hq1

/-- The theorem for C30 applied to `wokenByEnqueue`, where the thread woken by the enqueue takes
the event that was enqueued, and to the thread three steps after its start, which stands at
the head of the loop with an empty queue and goes to wait. -/
theorem writer_never_takes_from_empty_queue_witness :
    (RecorderWorker.run wokenByEnqueue (RecorderWorker.start true)).pc = .woken ∧
    (RecorderWorker.run wokenByEnqueue (RecorderWorker.start true)).queue_ = [keyDownJson 5] ∧
    (RecorderWorker.run wokenByEnqueue (RecorderWorker.start true)).exitsOrTakesFront ∧
    (RecorderWorker.run (writerTicks 3) (RecorderWorker.start true)).pc = .loopHead ∧
    (((RecorderWorker.run (writerTicks 3) (RecorderWorker.start true)).queue_ = [] ∧
        (RecorderWorker.run (writerTicks 3) (RecorderWorker.start true)).running_ = true ∧
        (RecorderWorker.run (writerTicks 3) (RecorderWorker.start true)).step.pc = .waiting) ∨
      (RecorderWorker.run (writerTicks 3) (RecorderWorker.start true)).exitsOrTakesFront) :=
  ⟨rfl, rfl, (writer_never_takes_from_empty_queue true wokenByEnqueue).2.2.1 rfl, rfl,
    (writer_never_takes_from_empty_queue true (writerTicks 3)).2.2.2 rfl⟩

/-! ### The sliced wait -/

theorem sleepsOf_append (a b : List Obs) : sleepsOf (a ++ b) = sleepsOf a ++ sleepsOf b := by
  induction a with
  | nil => rfl
  | cons o rest ih => cases o <;> simp [sleepsOf, ih]

theorem sleepsOf_quietSlices (fuel : Nat) (r : Int) (h : r.toNat ≤ fuel) :
    (sleepsOf (quietSlices fuel r)).sum = max 0 r ∧
    (∀ ms ∈ sleepsOf (quietSlices fuel r), 1 ≤ ms ∧ ms ≤ 50) ∧
    50 * ((sleepsOf (quietSlices fuel r)).length : Int) < max 0 r + 50 ∧
    max 0 r ≤ 50 * ((sleepsOf (quietSlices fuel r)).length : Int) := by
  induction fuel generalizing r with
  | zero =>
    have hr : r ≤ 0 := by omega
    simp [quietSlices, sleepsOf]
    omega
  | succ fuel ih =>
    by_cases h0 : 0 < r
    · obtain ⟨i1, i2, i3, i4⟩ := ih (r - min r 50) (by omega)
      have e : sleepsOf (quietSlices (fuel + 1) r)
          = min r 50 :: sleepsOf (quietSlices fuel (r - min r 50)) := by
        simp [quietSlices, h0, sleepsOf]
      rw [e]
      refine ⟨?_, ?_, ?_, ?_⟩
      · rw [List.sum_cons, i1]; omega
      · intro ms hms
        rcases List.mem_cons.mp hms with rfl | hms
        · omega
        · exact i2 ms hms
      · rw [List.length_cons]; push_cast; omega
      · rw [List.length_cons]; push_cast; omega
    · simp [quietSlices, h0, sleepsOf]
      omega

/-- C26: let the thread stand at the head of the slice loop with `slept = 0`, whatever integer
`waitMs` it has computed, the two flags clear and no control call arriving.  Then the loop
ends: after finitely many steps the thread is at the load of line 154.  It has performed no
slice when `waitMs <= 0`, and the ceiling of `waitMs / 50` slices when `waitMs > 0`; every
slice lasts between 1 and 50 ms, and the slices sum to the larger of 0 and `waitMs`. -/
theorem slice_loop_terminates (s : RunState) (hpc : s.pc = .slTest) (h0 : s.slept = 0)
    (hs : s.w.m_stopRequested = false) (hp : s.w.m_paused = false) :
    ∃ n slices, (exec (ticks n) s).pc = .chkStop2 ∧
      (exec (ticks n) s).out = s.out ++ slices ∧
      (s.waitMs ≤ 0 → sleepsOf slices = []) ∧
      (0 < s.waitMs → ((sleepsOf slices).length : Int) = ⌈(s.waitMs : ℚ) / 50⌉) ∧
      (∀ ms ∈ sleepsOf slices, 1 ≤ ms ∧ ms ≤ 50) ∧
      (sleepsOf slices).sum = max 0 s.waitMs := by
  obtain ⟨n, sl, tw, hn⟩ := slice_loop_quiet (s.waitMs - s.slept).toNat s hpc hs hp le_rfl
  obtain ⟨i1, i2, i3, i4⟩ :=
    sleepsOf_quietSlices (s.waitMs - s.slept).toNat (s.waitMs - s.slept) le_rfl
  rw [h0, sub_zero] at hn i1 i2 i3 i4
  refine ⟨n, quietSlices s.waitMs.toNat s.waitMs, by rw [hn], by rw [hn], ?_, ?_, i2, i1⟩
  · intro hle
    have : (sleepsOf (quietSlices s.waitMs.toNat s.waitMs)).length = 0 := by omega
    exact List.length_eq_zero.mp this
  · intro hpos
    symm
    rw [Int.ceil_eq_iff]
    constructor
    · rw [lt_div_iff₀ (by norm_num)]
      have : 50 * ((sleepsOf (quietSlices s.waitMs.toNat s.waitMs)).length : Int) - 50
          < s.waitMs := by omega
      have h2 : ((50 * ((sleepsOf (quietSlices s.waitMs.toNat s.waitMs)).length : Int) - 50
          : Int) : ℚ) < (s.waitMs : ℚ) := by exact_mod_cast this
      push_cast at h2 ⊢
      linarith
    · rw [div_le_iff₀ (by norm_num)]
      have : s.waitMs ≤ 50 * ((sleepsOf (quietSlices s.waitMs.toNat s.waitMs)).length : Int) := by
        omega
      have h2 : (s.waitMs : ℚ)
          ≤ ((50 * ((sleepsOf (quietSlices s.waitMs.toNat s.waitMs)).length : Int) : Int) : ℚ) := by
        exact_mod_cast this
      push_cast at h2 ⊢
      linarith

/-- The theorem for C26 applied to the wait of 10 s of `tenSecondWait`, five steps into the
replay: the loop ends after 200 slices that sum to 10000 ms. -/
theorem slice_loop_terminates_witness :
    (exec (ticks 5) (RunState.start tenSecondWait)).pc = .slTest ∧
    (exec (ticks 5) (RunState.start tenSecondWait)).waitMs = 10000 ∧
    ∃ n slices, (exec (ticks n) (exec (ticks 5) (RunState.start tenSecondWait))).pc
        = .chkStop2 ∧
      (exec (ticks n) (exec (ticks 5) (RunState.start tenSecondWait))).out
        = (exec (ticks 5) (RunState.start tenSecondWait)).out ++ slices ∧
      ((exec (ticks 5) (RunState.start tenSecondWait)).waitMs ≤ 0 → sleepsOf slices = []) ∧
      (0 < (exec (ticks 5) (RunState.start tenSecondWait)).waitMs →
        ((sleepsOf slices).length : Int)
          = ⌈((exec (ticks 5) (RunState.start tenSecondWait)).waitMs : ℚ) / 50⌉) ∧
      (∀ ms ∈ sleepsOf slices, 1 ≤ ms ∧ ms ≤ 50) ∧
      (sleepsOf slices).sum = max 0 (exec (ticks 5) (RunState.start tenSecondWait)).waitMs :=
  ⟨by decide!, by decide!,
    slice_loop_terminates (exec (ticks 5) (RunState.start tenSecondWait)) (by decide!)
      (by decide!) (by decide!) (by decide!)⟩
/-! ### The gate before `simulateEvent` -/

theorem step_gate_facts (s : RunState) :
    (step s).w.m_replayMouse = s.w.m_replayMouse ∧
    (step s).w.m_replayKeyboard = s.w.m_replayKeyboard ∧
    ((step s).pc = .gateStop ∨ (step s).pc.inSimulate = true →
      (step s).evt = s.evt ∧
        ((s.pc = .gate ∧ GateOpen s.w s.evt) ∨ s.pc = .gateStop ∨ s.pc.inSimulate = true)) ∧
    ((step s).pc.inMouseBranch = true →
      (step s).evt = s.evt ∧
        ((s.pc = .simCat ∧ s.evt.category = "mouse") ∨ s.pc.inMouseBranch = true)) ∧
    ((step s).pc.inKeyBranch = true →
      (step s).evt = s.evt ∧
        ((s.pc = .simCat ∧ s.evt.category = "keyboard") ∨ s.pc.inKeyBranch = true)) := by
  obtain ⟨w', pc, i, total, last_ts, speed, waitMs, slept, toWait, out, ctlOut⟩ := s
  cases pc <;>
    simp [step, RunState.goto, RunState.emit, Pc.inSimulate, Pc.inMouseBranch, Pc.inKeyBranch] <;>
    (try split) <;> (try split) <;>
    simp_all [GateOpen, RunState.evt, Pc.inSimulate, Pc.inMouseBranch, Pc.inKeyBranch]

theorem emitted_injection_branch (s : RunState) :
    (∀ o ∈ s.emitted, o.isMouseInjection = true → s.pc.inMouseBranch = true) ∧
    (∀ o ∈ s.emitted, o.isKeyInjection = true → s.pc.inKeyBranch = true) := by
  obtain ⟨w', pc, i, total, last_ts, speed, waitMs, slept, toWait, out, ctlOut⟩ := s
  cases pc <;>
    simp [RunState.emitted, step, RunState.goto, RunState.emit, Pc.inMouseBranch,
      Pc.inKeyBranch] <;>
    (try split) <;> (try split) <;>
    simp_all [Obs.isMouseInjection, Obs.isKeyInjection]

theorem gateInv_step (w : ReplayWorker) (s : RunState) (h : GateInv w s) :
    GateInv w (step s) := by
  obtain ⟨h1, h2, h3, h4, h5, h6, h7⟩ := h
  obtain ⟨f1, f2, f3, f4, f5⟩ := step_gate_facts s
  obtain ⟨e1, e2⟩ := emitted_injection_branch s
  have hopen : ∀ e, GateOpen s.w e → GateOpen w e := by
    intro e he
    unfold GateOpen at he ⊢
    rw [h1, h2] at he
    exact he
  refine ⟨by rw [f1, h1], by rw [f2, h2], ?_, ?_, ?_, ?_, ?_⟩
  · intro hp
    obtain ⟨he, hc⟩ := f3 hp
    rw [he]
    rcases hc with ⟨-, hg⟩ | hc | hc
    · exact hopen _ hg
    · exact h3 (Or.inl hc)
    · exact h3 (Or.inr hc)
  · intro hp
    obtain ⟨he, hc⟩ := f4 hp
    rw [he]
    rcases hc with ⟨-, hg⟩ | hc
    · exact hg
    · exact h4 hc
  · intro hp
    obtain ⟨he, hc⟩ := f5 hp
    rw [he]
    rcases hc with ⟨-, hg⟩ | hc
    · exact hg
    · exact h5 hc
  · intro o ho hm
    rw [step_out] at ho
    rcases List.mem_append.mp ho with ho | ho
    · exact h6 o ho hm
    · have hb := e1 o ho hm
      have hcat := h4 hb
      have hin : s.pc.inSimulate = true := by
        revert hb; cases s.pc <;> simp [Pc.inMouseBranch, Pc.inSimulate]
      rcases h3 (Or.inr hin) with ⟨hm', -⟩ | ⟨-, hk'⟩
      · exact hm'
      · rw [hcat] at hk'; exact absurd hk' (by decide)
  · intro o ho hm
    rw [step_out] at ho
    rcases List.mem_append.mp ho with ho | ho
    · exact h7 o ho hm
    · have hb := e2 o ho hm
      have hcat := h5 hb
      have hin : s.pc.inSimulate = true := by
        revert hb; cases s.pc <;> simp [Pc.inKeyBranch, Pc.inSimulate]
      rcases h3 (Or.inr hin) with ⟨-, hm'⟩ | ⟨hk', -⟩
      · rw [hcat] at hm'; exact absurd hm' (by decide)
      · exact hk'

theorem gateInv_call (w : ReplayWorker) (s : RunState) (c : Ctl) (h : GateInv w s) :
    GateInv w (s.call c) := by
  obtain ⟨h1, h2, h3, h4, h5, h6, h7⟩ := h
  obtain ⟨c1, c2, -, -, c5, -, -, -, -, c10, c11, c12⟩ := call_frame s c
  have he : (s.call c).evt = s.evt := by simp only [RunState.evt, c10, c2]
  refine ⟨by rw [c11, h1], by rw [c12, h2], ?_, ?_, ?_, ?_, ?_⟩
  · rw [c1, he]; exact h3
  · rw [c1, he]; exact h4
  · rw [c1, he]; exact h5
  · rw [c5]; exact h6
  · rw [c5]; exact h7

theorem gateInv_exec (w : ReplayWorker) (sched : List Act) (s : RunState) (h : GateInv w s) :
    GateInv w (exec sched s) := by
  induction sched generalizing s with
  | nil => exact h
  | cons a rest ih =>
    cases a with
    | tick => exact ih _ (gateInv_step w s h)
    | call c => exact ih _ (gateInv_call w s c h)

theorem gateInv_start (w : ReplayWorker) : GateInv w (RunState.start w) := by
  simp [GateInv, RunState.start, Pc.inSimulate, Pc.inMouseBranch, Pc.inKeyBranch]
theorem gate_two_steps (s : RunState) (hpc : s.pc = .gate)
    (hs : s.w.m_stopRequested = false) :
    (exec (ticks 2) s).pc = .simStop1 ↔ GateOpen s.w s.evt := by
  obtain ⟨w', pc, i, total, last_ts, speed, waitMs, slept, toWait, out, ctlOut⟩ := s
  simp only at hpc hs
  subst hpc
  by_cases hg : GateOpen w' (w'.m_events.getD i default)
  · have hg' := hg
    simp only [GateOpen, List.getD_eq_getElem?_getD] at hg'
    simp [exec_ticks_succ, exec_ticks_zero, step, RunState.goto, RunState.emit, RunState.evt,
      hs, hg']
    simpa only [GateOpen] using hg'
  · have hg' := hg
    simp only [GateOpen, List.getD_eq_getElem?_getD] at hg'
    simp [exec_ticks_succ, exec_ticks_zero, step, RunState.goto, RunState.emit, RunState.evt,
      hs, hg']
    simpa only [GateOpen] using hg'

theorem gate_closed_step (s : RunState) (hpc : s.pc = .gate) (hg : ¬ GateOpen s.w s.evt) :
    step s = { s with pc := .progress } := by
  obtain ⟨w', pc, i, total, last_ts, speed, waitMs, slept, toWait, out, ctlOut⟩ := s
  simp only at hpc
  subst hpc
  simp only [GateOpen, RunState.evt, List.getD_eq_getElem?_getD] at hg
  simp [step, RunState.goto, RunState.evt, hg]

/-- C25: take any worker and any schedule of control calls.  When the thread stands at the
gate of lines 164 to 168 with the stop flag clear and takes its next two steps, it enters
`simulateEvent` exactly when the category of the event is "mouse" and mouse replay is
enabled, or the category is "keyboard" and keyboard replay is enabled; otherwise its next step
goes to the progress report and nothing else changes.  At every moment the thread is inside
`simulateEvent` only for an event whose gate is open, and every mouse or keyboard injection it
has made was made with the toggle of that kind enabled. -/
theorem simulateEvent_gated_by_category_and_toggle (w : ReplayWorker) (sched : List Act) :
    ((exec sched (RunState.start w)).pc = .gate →
      (exec sched (RunState.start w)).w.m_stopRequested = false →
      ((exec (ticks 2) (exec sched (RunState.start w))).pc = .simStop1
        ↔ GateOpen w (exec sched (RunState.start w)).evt)) ∧
    ((exec sched (RunState.start w)).pc = .gate →
      ¬ GateOpen w (exec sched (RunState.start w)).evt →
      step (exec sched (RunState.start w))
        = { exec sched (RunState.start w) with pc := .progress }) ∧
    ((exec sched (RunState.start w)).pc.inSimulate = true →
      GateOpen w (exec sched (RunState.start w)).evt) ∧
    (∀ o ∈ (exec sched (RunState.start w)).out, o.isMouseInjection = true →
      w.m_replayMouse = true) ∧
    (∀ o ∈ (exec sched (RunState.start w)).out, o.isKeyInjection = true →
      w.m_replayKeyboard = true) := by
  obtain ⟨h1, h2, h3, -, -, h6, h7⟩ := gateInv_exec w sched _ (gateInv_start w)
  have hopen : ∀ e, GateOpen (exec sched (RunState.start w)).w e ↔ GateOpen w e := by
    intro e
    unfold GateOpen
    rw [h1, h2]
  refine ⟨?_, ?_, fun hp => h3 (Or.inr hp), h6, h7⟩
  · intro hpc hs
    rw [← hopen]
    exact gate_two_steps _ hpc hs
  · intro hpc hg
    rw [← hopen] at hg
    exact gate_closed_step _ hpc hg
/-- The theorem for C25 applied nine steps into the replay of the six events, where the thread
stands at the gate of the first event, a mouse move: with both toggles enabled the thread
enters `simulateEvent`, where the gate of its event is open; with mouse replay disabled it
goes to the progress report, and the whole replay then makes no mouse injection. -/
theorem simulateEvent_gated_by_category_and_toggle_witness :
    (exec (ticks 2) (exec (ticks 9) (RunState.start sixEvents))).pc = .simStop1 ∧
    GateOpen sixEvents (exec (ticks 11) (RunState.start sixEvents)).evt ∧
    step (exec (ticks 9) (RunState.start sixEventsKeysOnly))
      = { exec (ticks 9) (RunState.start sixEventsKeysOnly) with pc := .progress } ∧
    ((exec (ticks 120) (RunState.start sixEventsKeysOnly)).out.filter Obs.isInjection
      = [.sendKey 65 false, .sendKey 65 true]) :=
  ⟨((simulateEvent_gated_by_category_and_toggle sixEvents (ticks 9)).1 (by decide!)
      (by decide!)).mpr (by unfold GateOpen; decide!),
    (simulateEvent_gated_by_category_and_toggle sixEvents (ticks 11)).2.2.1 (by decide!),
    (simulateEvent_gated_by_category_and_toggle sixEventsKeysOnly (ticks 9)).2.1 (by decide!)
      (by unfold GateOpen; decide!),
    by decide!⟩
/-! ### Progress reports -/

theorem progressOf_append (a b : List Obs) :
    progressOf (a ++ b) = progressOf a ++ progressOf b := by
  induction a with
  | nil => rfl
  | cons o rest ih => cases o <;> simp [progressOf, ih]

theorem step_loop_facts (s : RunState) :
    (step s).w.m_events = s.w.m_events ∧
    (s.pc = .idle → s.w.m_events ≠ [] →
      (step s).pc = .forTest ∧ (step s).total = (s.w.m_events.length : Int) - 2 ∧
      (step s).i = 0 ∧ (step s).out = s.out) ∧
    (s.pc ≠ .idle → (step s).total = s.total ∧ s.i ≤ (step s).i) ∧
    ((step s).pc.inBody = true →
      (step s).i = s.i ∧ ((s.pc = .forTest ∧ (s.i : Int) < s.total) ∨ s.pc.inBody = true)) ∧
    (s.pc = .progress →
      s.emitted = [.replayProgress ((s.i : Int) + 1) s.total] ∧ (step s).i = s.i + 1) ∧
    (s.pc ≠ .progress → progressOf s.emitted = []) ∧
    (s.pc.inBody = false → ∀ o ∈ s.emitted, o.isInjection = false) := by
  obtain ⟨w', pc, i, total, last_ts, speed, waitMs, slept, toWait, out, ctlOut⟩ := s
  cases pc <;>
    simp [RunState.emitted, step, RunState.goto, RunState.emit, Pc.inBody] <;>
    (try split) <;> (try split) <;>
    simp_all [progressOf, Pc.inBody, Obs.isInjection]
theorem progressInv_step (N : Nat) (hN : 0 < N) (s : RunState) (h : ProgressInv N s) :
    ProgressInv N (step s) := by
  obtain ⟨h1, h2, h3, h4, h5, h6, h7⟩ := h
  obtain ⟨f1, f2, f3, f4, f5, f6, f7⟩ := step_loop_facts s
  have hnidle : (step s).pc ≠ .idle := (emitted_props s).2.2.2.2.2
  have hne : s.w.m_events ≠ [] := by
    intro he
    rw [he] at h1
    simp at h1
    omega
  have htotal : (step s).total = (N : Int) - 2 := by
    by_cases hi : s.pc = .idle
    · rw [(f2 hi hne).2.1, h1]
    · rw [(f3 hi).1, h3 hi]
  have hbody : s.pc.inBody = true → (s.i : Int) < (N : Int) - 2 := by
    intro hb
    have hi : s.pc ≠ .idle := by
      intro hi; rw [hi] at hb; simp [Pc.inBody] at hb
    rw [← h3 hi]
    exact h4 hb
  have hprog : progressOf (step s).out
      = progressOf s.out ++ (if s.pc = .progress then [((s.i : Int) + 1, s.total)] else []) := by
    rw [step_out, progressOf_append]
    by_cases hp : s.pc = .progress
    · rw [(f5 hp).1, if_pos hp]; rfl
    · rw [f6 hp, if_neg hp]
  have hold : ∀ p ∈ progressOf s.out, p.1 ≤ ((step s).i : Int) := by
    intro p hp
    by_cases hi : s.pc = .idle
    · rw [h2 hi] at hp; simp [progressOf] at hp
    · have := (h5 p hp).2.2.1
      have := (f3 hi).2
      omega
  refine ⟨by rw [f1, h1], fun hc => absurd hc hnidle, fun _ => htotal, ?_, ?_, ?_, ?_⟩
  · intro hb
    obtain ⟨hi, hc⟩ := f4 hb
    rw [hi, htotal]
    rcases hc with ⟨hf, hlt⟩ | hc
    · have hni : s.pc ≠ .idle := by rw [hf]; simp
      rw [h3 hni] at hlt
      exact hlt
    · exact hbody hc
  · intro p hp
    rw [hprog] at hp
    rcases List.mem_append.mp hp with hp | hp
    · exact ⟨(h5 p hp).1, (h5 p hp).2.1, hold p hp, (h5 p hp).2.2.2⟩
    · by_cases hpr : s.pc = .progress
      · rw [if_pos hpr] at hp
        rw [List.mem_singleton] at hp
        subst hp
        have hni : s.pc ≠ .idle := by rw [hpr]; simp
        have hb := hbody (by rw [hpr]; rfl)
        have hi' := (f5 hpr).2
        simp only
        rw [h3 hni, hi']
        push_cast
        omega
      · rw [if_neg hpr] at hp
        cases hp
  · rw [hprog, List.map_append, List.pairwise_append]
    refine ⟨h6, ?_, ?_⟩
    · by_cases hpr : s.pc = .progress
      · rw [if_pos hpr]; simp
      · rw [if_neg hpr]; simp
    · intro a ha b hb
      by_cases hpr : s.pc = .progress
      · rw [if_pos hpr] at hb
        simp only [List.map_cons, List.map_nil, List.mem_singleton] at hb
        subst hb
        obtain ⟨p, hp, rfl⟩ := List.mem_map.mp ha
        have := (h5 p hp).2.2.1
        omega
      · rw [if_neg hpr] at hb
        cases hb
  · intro o ho hinj
    rw [step_out] at ho
    rcases List.mem_append.mp ho with ho | ho
    · exact h7 o ho hinj
    · have hb : s.pc.inBody = true := by
        cases hbb : s.pc.inBody
        · rw [f7 hbb o ho] at hinj; cases hinj
        · rfl
      have := hbody hb
      omega

theorem progressInv_call (N : Nat) (s : RunState) (c : Ctl) (h : ProgressInv N s) :
    ProgressInv N (s.call c) := by
  obtain ⟨h1, h2, h3, h4, h5, h6, h7⟩ := h
  obtain ⟨c1, c2, c3, -, c5, -, -, -, -, c10, -, -⟩ := call_frame s c
  refine ⟨by rw [c10, h1], ?_, ?_, ?_, ?_, ?_, ?_⟩
  · rw [c1, c5]; exact h2
  · rw [c1, c3]; exact h3
  · rw [c1, c2, c3]; exact h4
  · rw [c5, c2]; exact h5
  · rw [c5]; exact h6
  · rw [c5]; exact h7

theorem progressInv_exec (N : Nat) (hN : 0 < N) (sched : List Act) (s : RunState)
    (h : ProgressInv N s) : ProgressInv N (exec sched s) := by
  induction sched generalizing s with
  | nil => exact h
  | cons a rest ih =>
    cases a with
    | tick => exact ih _ (progressInv_step N hN s h)
    | call c => exact ih _ (progressInv_call N s c h)

theorem progressInv_start (w : ReplayWorker) :
    ProgressInv w.m_events.length (RunState.start w) := by
  simp [ProgressInv, RunState.start, progressOf, Pc.inBody]
theorem quiet_from_start (w : ReplayWorker) (hN : 2 ≤ w.m_events.length)
    (hp : w.m_paused = false) :
    ∃ n0, ∀ n, n0 ≤ n →
      (exec (ticks n) (RunState.start w)).pc = .done ∧
      (exec (ticks n) (RunState.start w)).out
        = quietRun { w with m_stopRequested := false } ((w.m_events.length : Int) - 2)
            (w.m_events.length - 2) 0 0
          ++ [.readStop false, .stateChanged "finished", .finished] := by
  have hne : w.m_events.isEmpty = false := by
    cases h : w.m_events with
    | nil => simp [h] at hN
    | cons a l => rfl
  have h1 : exec (ticks 1) (RunState.start w) =
      { w := { w with m_stopRequested := false }, pc := .forTest, i := 0,
        total := (w.m_events.length : Int) - 2, last_ts := 0, speed := 1, waitMs := 0,
        slept := 0, toWait := 0, out := [], ctlOut := [] } := by
    simp [exec_ticks_succ, exec_ticks_zero, step, RunState.start, hne]
  obtain ⟨n, hpc, -, hout⟩ := run_quiet (w.m_events.length - 2) (exec (ticks 1) (RunState.start w))
    (by rw [h1]) (by rw [h1]; simp [RunState.start]; omega) (by rw [h1]) (by rw [h1]; exact hp)
  refine ⟨1 + n, fun m hm' => ?_⟩
  obtain ⟨d, rfl⟩ := Nat.exists_eq_add_of_le hm'
  rw [exec_ticks_add, exec_ticks_add, exec_ticks_done d _ hpc]
  refine ⟨hpc, ?_⟩
  rw [hout, h1]
  simp

theorem progressOf_quietSlices (fuel : Nat) (r : Int) : progressOf (quietSlices fuel r) = [] := by
  induction fuel generalizing r with
  | zero => rfl
  | succ fuel ih =>
    unfold quietSlices
    split
    · rw [progressOf_append, ih]; rfl
    · rfl

theorem progressOf_quietInject (w : ReplayWorker) (e : RecordedEvent) :
    progressOf (quietInject w e) = [] := by
  unfold quietInject
  split
  · rw [progressOf_append]
    split
    · rfl
    · split <;> rfl
  · rfl

theorem progressOf_quietIter (w : ReplayWorker) (total : Int) (i : Nat) (last : Int) :
    progressOf (quietIter w total i last) = [((i : Int) + 1, total)] := by
  unfold quietIter
  rw [progressOf_append, progressOf_append, progressOf_append, progressOf_append,
    progressOf_quietSlices, progressOf_quietInject]
  rfl

theorem progressOf_quietRun (w : ReplayWorker) (total : Int) (k i : Nat) (last : Int) :
    progressOf (quietRun w total k i last)
      = (List.range k).map (fun (j : Nat) => ((i : Int) + (j : Int) + 1, total)) := by
  induction k generalizing i last with
  | zero => rfl
  | succ k ih =>
    rw [quietRun, progressOf_append, progressOf_quietIter, ih, List.range_succ_eq_map,
      List.map_cons, List.map_map]
    simp only [List.singleton_append, Nat.cast_zero, add_zero, List.cons.injEq, true_and]
    apply List.map_congr_left
    intro j _
    simp only [Function.comp, Nat.cast_succ, Nat.cast_add, Nat.cast_one, Prod.mk.injEq, and_true]
    omega

theorem injectionsAndReports_append (a b : List Obs) :
    injectionsAndReports (a ++ b) = injectionsAndReports a ++ injectionsAndReports b := by
  simp [injectionsAndReports]

theorem injectionsAndReports_quietSlices (fuel : Nat) (r : Int) :
    injectionsAndReports (quietSlices fuel r) = [] := by
  induction fuel generalizing r with
  | zero => rfl
  | succ fuel ih =>
    unfold quietSlices
    split
    · rw [injectionsAndReports_append, ih]; rfl
    · rfl

theorem injectionsAndReports_quietInject (w : ReplayWorker) (e : RecordedEvent)
    (hm : w.m_replayMouse = true) (hk : w.m_replayKeyboard = true) :
    injectionsAndReports (quietInject w e) = injectionOf e := by
  by_cases h1 : e.category = "mouse"
  · simp [quietInject, injectionOf, injectionsAndReports, Obs.isInjection, Obs.isProgress, hm,
      hk, h1]
  · by_cases h2 : e.category = "keyboard"
    · simp [quietInject, injectionOf, injectionsAndReports, Obs.isInjection, Obs.isProgress, hm,
        hk, h2]
    · simp [quietInject, injectionOf, injectionsAndReports, Obs.isInjection, Obs.isProgress, hm,
        hk, h1, h2]

theorem injectionsAndReports_quietIter (w : ReplayWorker) (total : Int) (i : Nat) (last : Int)
    (hm : w.m_replayMouse = true) (hk : w.m_replayKeyboard = true) :
    injectionsAndReports (quietIter w total i last)
      = injectionOf (w.m_events.getD i default) ++ [.replayProgress ((i : Int) + 1) total] := by
  unfold quietIter
  rw [injectionsAndReports_append, injectionsAndReports_append, injectionsAndReports_append,
    injectionsAndReports_append, injectionsAndReports_quietSlices,
    injectionsAndReports_quietInject w _ hm hk]
  simp [injectionsAndReports, Obs.isInjection, Obs.isProgress]

theorem injectionsAndReports_quietRun (w : ReplayWorker) (total : Int) (k i : Nat) (last : Int)
    (hm : w.m_replayMouse = true) (hk : w.m_replayKeyboard = true) :
    injectionsAndReports (quietRun w total k i last)
      = (List.range k).flatMap (fun (j : Nat) =>
          injectionOf (w.m_events.getD (i + j) default)
            ++ [.replayProgress ((i : Int) + (j : Int) + 1) total]) := by
  induction k generalizing i last with
  | zero => rfl
  | succ k ih =>
    rw [quietRun, injectionsAndReports_append, injectionsAndReports_quietIter w total i last hm hk,
      ih, List.range_succ_eq_map, List.flatMap_cons, List.flatMap_map]
    simp only [Nat.cast_zero, add_zero, List.append_assoc, List.append_cancel_left_eq]
    congr 1
    funext j
    have e1 : i + 1 + j = i + (j + 1) := by omega
    have e2 : ((i + 1 : Nat) : Int) + (j : Int) + 1 = (i : Int) + ((j + 1 : Nat) : Int) + 1 := by
      push_cast; omega
    simp only [Function.comp, Nat.succ_eq_add_one, e1, e2]
/-- C21: a progress report is the signal `replayProgress(i + 1, total)` sent at the end of the
iteration for index `i`, with `total = N - 2`.  In the replay of `N >= 3` events with both
toggles enabled and no control call, the thread returns, its reports are exactly (1, N - 2),
(2, N - 2), ..., (N - 2, N - 2) in this order, and each report comes right after the
injections of the event of that 1-based index.  Under every schedule of control calls each
report carries the total `N - 2` and a `current` between 1 and the total, and the reports come
with strictly increasing `current`. -/
theorem runLoop_reports_progress (w : ReplayWorker) (hN : 3 ≤ w.m_events.length)
    (hm : w.m_replayMouse = true) (hk : w.m_replayKeyboard = true)
    (hp : w.m_paused = false) :
    (∃ n0, ∀ n, n0 ≤ n →
      (exec (ticks n) (RunState.start w)).pc = .done ∧
      progressOf (exec (ticks n) (RunState.start w)).out
        = (List.range (w.m_events.length - 2)).map
            (fun (j : Nat) => ((j : Int) + 1, (w.m_events.length : Int) - 2)) ∧
      injectionsAndReports (exec (ticks n) (RunState.start w)).out
        = (List.range (w.m_events.length - 2)).flatMap (fun (j : Nat) =>
            injectionOf (w.m_events.getD j default)
              ++ [.replayProgress ((j : Int) + 1) ((w.m_events.length : Int) - 2)])) ∧
    (∀ sched : List Act,
      (∀ p ∈ progressOf (exec sched (RunState.start w)).out,
        p.2 = (w.m_events.length : Int) - 2 ∧ 1 ≤ p.1 ∧ p.1 ≤ p.2) ∧
      List.Pairwise (fun a b => a < b)
        ((progressOf (exec sched (RunState.start w)).out).map Prod.fst)) := by
  constructor
  · obtain ⟨n0, h0⟩ := quiet_from_start w (by omega) hp
    refine ⟨n0, fun n hn => ?_⟩
    obtain ⟨hpc, hout⟩ := h0 n hn
    refine ⟨hpc, ?_, ?_⟩
    · rw [hout, progressOf_append, progressOf_quietRun]
      simp [progressOf]
    · rw [hout, injectionsAndReports_append,
        injectionsAndReports_quietRun { w with m_stopRequested := false } _ _ _ _ hm hk]
      simp [injectionsAndReports, Obs.isInjection, Obs.isProgress]
  · intro sched
    obtain ⟨-, -, -, -, h5, h6, -⟩ :=
      progressInv_exec w.m_events.length (by omega) sched _ (progressInv_start w)
    exact ⟨fun p hp' => ⟨(h5 p hp').1, (h5 p hp').2.1, (h5 p hp').2.2.2⟩, h6⟩

/-- The theorem for C21 applied to the six events of the concrete scenario: four reports,
(1, 4) to (4, 4). -/
theorem runLoop_reports_progress_witness :
    (∃ n0, ∀ n, n0 ≤ n →
      (exec (ticks n) (RunState.start sixEvents)).pc = .done ∧
      progressOf (exec (ticks n) (RunState.start sixEvents)).out
        = [(1, 4), (2, 4), (3, 4), (4, 4)]) ∧
    progressOf (exec (ticks 120) (RunState.start sixEvents)).out
      = [(1, 4), (2, 4), (3, 4), (4, 4)] :=
  ⟨(runLoop_reports_progress sixEvents (by decide) (by decide) (by decide) (by decide)).1.imp
      (fun _ h n hn => ⟨(h n hn).1, (h n hn).2.1⟩),
    by decide!⟩
/-! ### Sequences of one or two events -/

theorem short_replay (w : ReplayWorker) (hN : w.m_events.length = 1 ∨ w.m_events.length = 2)
    (n : Nat) (hn : 3 ≤ n) :
    (exec (ticks n) (RunState.start w)).pc = .done ∧
    (exec (ticks n) (RunState.start w)).total = (w.m_events.length : Int) - 2 ∧
    (exec (ticks n) (RunState.start w)).out
      = [.readStop false, .stateChanged "finished", .finished] := by
  have hne : w.m_events.isEmpty = false := by
    cases h : w.m_events with
    | nil => simp [h] at hN
    | cons a l => rfl
  have hlt : ¬ (0 : Int) < (w.m_events.length : Int) - 2 := by omega
  have h3 : exec (ticks 3) (RunState.start w) =
      { w := { w with m_stopRequested := false }, pc := .done, i := 0,
        total := (w.m_events.length : Int) - 2, last_ts := 0, speed := 1, waitMs := 0,
        slept := 0, toWait := 0,
        out := [.readStop false, .stateChanged "finished", .finished], ctlOut := [] } := by
    simp [exec_ticks_succ, exec_ticks_zero, step, RunState.start, hne, hlt, RunState.goto]
  obtain ⟨d, rfl⟩ := Nat.exists_eq_add_of_le hn
  rw [exec_ticks_add, exec_ticks_done d _ (by rw [h3]), h3]
  exact ⟨rfl, rfl, rfl⟩

/-- C28: let the manager hold a sequence of exactly one or two events and not be replaying.
Then `startReplay` returns true and attaches a worker loaded with that sequence.  Under every
schedule of control calls the replay of that worker calls no injection primitive and sends no
progress report.  Left to run, the thread returns after three steps: it has computed the
total `N - 2`, which is -1 or 0, has not entered the body of the loop, and what it has done is
the final load of the stop flag, the state "finished" and the signal `finished`. -/
theorem short_sequence_replays_nothing (m : ReplayManager) (ended : WaitEnd)
    (hrep : m.m_replaying = false)
    (hN : m.m_events.length = 1 ∨ m.m_events.length = 2) :
    (m.startReplay ended).1 = true ∧
    ∃ w, (m.startReplay ended).2.m_worker = some w ∧ w.m_events = m.m_events ∧
      (∀ sched : List Act, ∀ o ∈ (exec sched (RunState.start w)).out,
        o.isInjection = false ∧ o.isProgress = false) ∧
      (∀ n, 3 ≤ n →
        (exec (ticks n) (RunState.start w)).pc = .done ∧
        (exec (ticks n) (RunState.start w)).total = (m.m_events.length : Int) - 2 ∧
        (exec (ticks n) (RunState.start w)).out
          = [.readStop false, .stateChanged "finished", .finished]) := by
  have hne : m.m_events.isEmpty = false := by
    cases h : m.m_events with
    | nil => simp [h] at hN
    | cons a l => rfl
  have hev : ∀ w : ReplayWorker, w.m_events = m.m_events →
      (∀ sched : List Act, ∀ o ∈ (exec sched (RunState.start w)).out,
        o.isInjection = false ∧ o.isProgress = false) ∧
      (∀ n, 3 ≤ n →
        (exec (ticks n) (RunState.start w)).pc = .done ∧
        (exec (ticks n) (RunState.start w)).total = (m.m_events.length : Int) - 2 ∧
        (exec (ticks n) (RunState.start w)).out
          = [.readStop false, .stateChanged "finished", .finished]) := by
    intro w hw
    constructor
    · intro sched o ho
      obtain ⟨-, -, -, -, h5, -, h7⟩ :=
        progressInv_exec w.m_events.length (by rw [hw]; omega) sched _ (progressInv_start w)
      constructor
      · cases hinj : o.isInjection
        · rfl
        · have := h7 o ho hinj
          rw [hw] at this
          omega
      · cases o with
        | replayProgress c t =>
          have hmem : (c, t) ∈ progressOf (exec sched (RunState.start w)).out := by
            obtain ⟨pre, post, hsplit⟩ := List.append_of_mem ho
            rw [hsplit, progressOf_append]
            exact List.mem_append_right _ (by simp [progressOf])
          have := h5 (c, t) hmem
          rw [hw] at this
          simp only at this
          omega
        | _ => rfl
    · intro n hn
      have := short_replay w (by rw [hw]; exact hN) n hn
      rw [hw] at this
      exact this
  refine ⟨by simp [ReplayManager.startReplay, hrep, hne], ?_⟩
  cases hwk : m.m_worker with
  | none =>
    refine ⟨((ReplayWorker.new.setEvents m.m_events).setOptions m.m_replayMouse
      m.m_replayKeyboard).setSpeedFactor m.m_speed, ?_, ?_, ?_⟩
    · simp [ReplayManager.startReplay, hrep, hne, ReplayManager.stopReplay, hwk]
    · simp only [ReplayWorker.setSpeedFactor, ReplayWorker.setOptions, ReplayWorker.setEvents]
      split <;> rfl
    · exact hev _ (by
        simp only [ReplayWorker.setSpeedFactor, ReplayWorker.setOptions, ReplayWorker.setEvents]
        split <;> rfl)
  | some w0 =>
    refine ⟨((ReplayWorker.new.setEvents m.m_events).setOptions m.m_replayMouse
      m.m_replayKeyboard).setSpeedFactor m.m_speed, ?_, ?_, ?_⟩
    · simp [ReplayManager.startReplay, hrep, hne, ReplayManager.stopReplay, hwk]
    · simp only [ReplayWorker.setSpeedFactor, ReplayWorker.setOptions, ReplayWorker.setEvents]
      split <;> rfl
    · exact hev _ (by
        simp only [ReplayWorker.setSpeedFactor, ReplayWorker.setOptions, ReplayWorker.setEvents]
        split <;> rfl)

/-- The theorem for C28 applied to a manager that holds one move: the computed total
is -1. -/
theorem short_sequence_replays_nothing_witness :
    (oneMoveLoaded.startReplay .finished).1 = true ∧
    ∃ w, (oneMoveLoaded.startReplay .finished).2.m_worker = some w ∧
      w.m_events = oneMoveLoaded.m_events ∧
      (∀ sched : List Act, ∀ o ∈ (exec sched (RunState.start w)).out,
        o.isInjection = false ∧ o.isProgress = false) ∧
      (∀ n, 3 ≤ n →
        (exec (ticks n) (RunState.start w)).pc = .done ∧
        (exec (ticks n) (RunState.start w)).total = -1 ∧
        (exec (ticks n) (RunState.start w)).out
          = [.readStop false, .stateChanged "finished", .finished]) :=
  short_sequence_replays_nothing oneMoveLoaded .finished (by decide) (by decide)

/-! ### A stop requested before the replay starts -/

theorem threadView_step (s : RunState) (hne : s.w.m_events ≠ []) :
    (step s).threadView = (step s.threadView).threadView := by
  obtain ⟨w, pc, i, total, last_ts, speed, waitMs, slept, toWait, out, ctlOut⟩ := s
  simp only at hne
  have hemp : w.m_events.isEmpty = false := by
    cases h : w.m_events with
    | nil => exact absurd h hne
    | cons a l => rfl
  cases pc <;>
    simp [RunState.threadView, step, RunState.goto, RunState.emit, RunState.evt, hemp] <;>
    (try split) <;> (try split) <;> simp

theorem threadView_call (s : RunState) (c : Ctl) :
    (s.call c).threadView = (s.threadView.call c).threadView := by
  obtain ⟨w, pc, i, total, last_ts, speed, waitMs, slept, toWait, out, ctlOut⟩ := s
  by_cases hpc : pc = .idle
  · subst hpc
    cases c <;>
      simp [RunState.threadView, RunState.call, ReplayWorker.call, ReplayWorker.stopReplay,
        ReplayWorker.pauseReplay, ReplayWorker.resumeReplay, ReplayWorker.setSpeedFactor] <;>
      (try split) <;> simp
  · simp [RunState.threadView, RunState.call, hpc]

theorem threadView_events (s : RunState) : s.threadView.w.m_events = s.w.m_events := by
  simp only [RunState.threadView]
  split <;> rfl

theorem threadView_exec (sched : List Act) (a b : RunState) (hne : a.w.m_events ≠ [])
    (h : a.threadView = b.threadView) :
    (exec sched a).threadView = (exec sched b).threadView := by
  induction sched generalizing a b with
  | nil => exact h
  | cons x rest ih =>
    have hneb : b.w.m_events ≠ [] := by
      rw [← threadView_events b, ← h, threadView_events]; exact hne
    cases x with
    | tick =>
      simp only [exec, RunState.act]
      refine ih (step a) (step b) ?_ ?_
      · rw [(step_loop_facts a).1]; exact hne
      · rw [threadView_step a hne, threadView_step b hneb, h]
    | call c =>
      simp only [exec, RunState.act]
      refine ih (a.call c) (b.call c) ?_ ?_
      · rw [(call_frame a c).2.2.2.2.2.2.2.2.2.1]; exact hne
      · rw [threadView_call a c, threadView_call b c, h]

/-- C27 (the code departs from the claim): `stopReplay` is documented as stopping at once, but
`startReplay` stores false in the stop flag at line 94.  On the four moves, `stopReplay` is
called before the queued `startReplay` runs and sets the flag; the thread then clears it,
replays the first two moves as if nothing had been requested and reports "finished". -/
theorem stop_before_start_is_lost :
    ((RunState.start fourMoves).call .stopReplay).w.m_stopRequested = true ∧
    (exec (.call .stopReplay :: ticks 60) (RunState.start fourMoves)).pc = .done ∧
    injections (exec (.call .stopReplay :: ticks 60) (RunState.start fourMoves)).out
      = [.setCursorPos 1 0, .sendMouse 0, .setCursorPos 2 0, .sendMouse 0] ∧
    (exec (.call .stopReplay :: ticks 60) (RunState.start fourMoves)).out.filter
        (fun o => o matches .stateChanged _)
      = [.stateChanged "finished"] := by
  decide!

/-- What becomes of a stop request on a worker with a non-empty sequence.  Requested before the
queued `startReplay` has run, it is cleared by line 94: whatever is scheduled afterwards, the
thread is at the same program point and has done exactly the same as in the execution without
that request, and once it has taken its first step the worker object is the same too.
Requested while the loop runs, after line 94 and before the load of line 175, it is not lost:
when the thread returns, the last things it has done are that load, which sees the stop, the
state "stopped" and the signal `finished`. -/
theorem stop_request_kept_only_after_start (w : ReplayWorker) (hne : w.m_events ≠ []) :
    (∀ sched : List Act,
      (exec (.call .stopReplay :: sched) (RunState.start w)).pc
        = (exec sched (RunState.start { w with m_paused := false })).pc ∧
      (exec (.call .stopReplay :: sched) (RunState.start w)).out
        = (exec sched (RunState.start { w with m_paused := false })).out ∧
      ((exec sched (RunState.start { w with m_paused := false })).pc ≠ .idle →
        (exec (.call .stopReplay :: sched) (RunState.start w)).w
          = (exec sched (RunState.start { w with m_paused := false })).w)) ∧
    (∀ before after : List Act,
      (exec before (RunState.start w)).pc ≠ .idle →
      (exec before (RunState.start w)).pc ≠ .done →
      (exec (before ++ .call .stopReplay :: after) (RunState.start w)).pc = .done →
      ∃ mid, (exec (before ++ .call .stopReplay :: after) (RunState.start w)).out
          = (exec before (RunState.start w)).out ++ mid
            ++ [.readStop true, .stateChanged "stopped", .finished] ∧
        Obs.finished ∉ mid ∧ ∀ st, Obs.stateChanged st ∉ mid) := by
  constructor
  · intro sched
    have h0 : ((RunState.start w).call .stopReplay).threadView
        = (RunState.start { w with m_paused := false }).threadView := by
      simp [RunState.threadView, RunState.start, RunState.call, ReplayWorker.call,
        ReplayWorker.stopReplay]
    have h := threadView_exec sched _ _
      (by rw [(call_frame (RunState.start w) .stopReplay).2.2.2.2.2.2.2.2.2.1]; exact hne) h0
    have hpc := congrArg RunState.pc h
    have hout := congrArg RunState.out h
    have hw := congrArg RunState.w h
    simp only [RunState.threadView] at hpc hout hw
    simp only [exec, RunState.act]
    refine ⟨hpc, hout, fun hni => ?_⟩
    rw [hpc, if_neg hni, if_neg hni] at hw
    exact hw
  · intro before after h1 h2 hdone
    rw [exec_append] at hdone ⊢
    simp only [exec, RunState.act] at hdone ⊢
    obtain ⟨c1, -, -, -, c5, -⟩ := call_frame (exec before (RunState.start w)) .stopReplay
    obtain ⟨mid, hmid, hf, hs⟩ := final_state_from_loop after
      ((exec before (RunState.start w)).call .stopReplay) (by rw [c1]; exact h1)
      (by rw [c1]; exact h2) hdone
    have hstop : ((exec before (RunState.start w)).call .stopReplay).w.m_stopRequested
        = true := by
      rw [call_stop_value]; simp
    rw [hstop, c5] at hmid
    simp only [Bool.true_or, if_true] at hmid
    exact ⟨mid, hmid, hf, hs⟩

/-- The four moves: with a stop requested before the start the thread does what it does
without it and leaves the same worker object, and a stop requested in the second wait ends
the replay with "stopped". -/
theorem stop_request_kept_only_after_start_witness :
    (exec (.call .stopReplay :: ticks 60) (RunState.start fourMoves)).out
      = (exec (ticks 60) (RunState.start { fourMoves with m_paused := false })).out ∧
    (exec (.call .stopReplay :: ticks 60) (RunState.start fourMoves)).w
      = (exec (ticks 60) (RunState.start { fourMoves with m_paused := false })).w ∧
    ∃ mid, (exec (ticks 30 ++ .call .stopReplay :: ticks 10) (RunState.start fourMoves)).out
        = (exec (ticks 30) (RunState.start fourMoves)).out ++ mid
          ++ [.readStop true, .stateChanged "stopped", .finished] ∧
      Obs.finished ∉ mid ∧ ∀ st, Obs.stateChanged st ∉ mid :=
  ⟨((stop_request_kept_only_after_start fourMoves (by decide)).1 (ticks 60)).2.1,
    ((stop_request_kept_only_after_start fourMoves (by decide)).1 (ticks 60)).2.2 (by decide!),
    (stop_request_kept_only_after_start fourMoves (by decide)).2 (ticks 30) (ticks 10)
      (by decide!) (by decide!) (by decide!)⟩
/-! ### The total scheduled wait at speed 1 and at speed 2 -/

end MKCapture
